import Mathlib

/-!
# mcallin: voxelization and encoding pipeline

A shallow embedding of `source/modules.cpp` (with the data carriers of
`source/datacarrier.hpp`, `source/preprocess.hpp` and the command builders of
`source/command.hpp`), of the palette ingestion and colour strings of
`source/preprocess.cpp` and of `genUuidV4` of `source/mcpack.cpp`, together with theorems
about the palette matcher (`rgbNearest`), the resizing (`limitScale`), the voxelizers
(`getBlocks`), the command encoder (`getCommands`), the structure encoder (`getMcstructure`),
the chunking loop and the control script of `makeFunctionPack`, and the version comparison.

Conventions of the embedding:
* `unsigned char` channels are `Fin 256`;
* `double` arithmetic is exact arithmetic over `ℚ` where a statement is about exact
  arithmetic; where it is about the values the machine computes, the computed score
  (`rgbNearestBy`) or the rounding (`limitScaleTargetBy`) is a parameter;
* `int` arithmetic that can leave the 32-bit range is wrapped (`wrapInt32`, `Version.data`);
* `int` coordinates are `Int`, loop counters that only count upwards from `0` are `Nat`
  (they are bounded by the sizes of in-memory vectors, so no `int` wraps around);
* a pointer into a `std::vector` is the index of the element it points to;
* `std::string` is `String` (a byte is the character with its code);
* a `std::unordered_map` is the list of its entries;
* calls into libraries (`cv::resize`, the random draws of `genUuidV4`) are parameters.
-/

namespace Mcallin

/-! ## Data carriers -/

/-- The colour `struct Rgb` of `preprocess.hpp`: three `unsigned char` channels. -/
structure Rgb where
  r : Fin 256
  g : Fin 256
  b : Fin 256
  deriving DecidableEq, Repr

/-- The palette entry `struct BlockInfoModified` of `preprocess.hpp`. -/
structure BlockInfoModified where
  blockId : String
  textureName : String
  color : Rgb
  deriving DecidableEq, Repr

/-- The candidate list `BIModis` (a `std::vector<BlockInfoModified>`). -/
abbrev BIModis := List BlockInfoModified

/-! ## Palette matcher -/

/-- The template `square` of `preprocess.hpp`, instantiated at `double`. -/
def square (value : ℚ) : ℚ := value * value

/-- The channel difference `a.r - b.r`: both operands are promoted to `int` before subtracting. -/
def chanDiff (a b : Fin 256) : Int := (a.val : Int) - (b.val : Int)

/-- The function `rgbSimilarity` of `modules.cpp`, in exact arithmetic. -/
def rgbSimilarity (a b : Rgb) (type : Int) : ℚ :=
  if type = 0 then
    1 - (square (chanDiff a.r b.r) * 0.32 + square (chanDiff a.g b.g) * 0.52 +
         square (chanDiff a.b b.b) * 0.16) / 65025
  else if type = 1 then
    1 - (square (chanDiff a.r b.r) * 0.299 + square (chanDiff a.g b.g) * 0.587 +
         square (chanDiff a.b b.b) * 0.114) / 65025
  else 0

/-- The loop state of `rgbNearest`: the pointer `result` (as an index, `none` for `nullptr`)
and the running best `similarity`. -/
structure NearestState where
  result : Option Nat
  similarity : ℚ

/-- One iteration of the `for (auto &var : modis)` loop of `rgbNearest`; `i` is the position
of `var` in the list. -/
def rgbNearestStep (rgb : Rgb) (type : Int) (st : NearestState) (i : Nat)
    (var : BlockInfoModified) : NearestState :=
  let sim := rgbSimilarity rgb var.color type
  if st.similarity > sim then st
  else { result := some i, similarity := sim }

/-- The `for` loop of `rgbNearest` over the remaining candidates, the first of which sits at
position `i`. -/
def rgbNearestLoop (rgb : Rgb) (type : Int) : BIModis → Nat → NearestState → NearestState
  | [], _, st => st
  | var :: rest, i, st => rgbNearestLoop rgb type rest (i + 1) (rgbNearestStep rgb type st i var)

/-- The position of the entry `rgbNearest` points to (`none` is `nullptr`). -/
def rgbNearestIdx (rgb : Rgb) (modis : BIModis) (type : Int) : Option Nat :=
  if modis.isEmpty then none
  else (rgbNearestLoop rgb type modis 0 { result := none, similarity := 0 }).result

/-- The function `rgbNearest` of `modules.cpp`: the entry the returned pointer points to. -/
def rgbNearest (rgb : Rgb) (modis : BIModis) (type : Int) : Option BlockInfoModified :=
  (rgbNearestIdx rgb modis type).bind fun i => modis.get? i

/-- One iteration of the loop of `rgbNearest` for the scores as the machine computes them:
`score a b type` stands for the `double` that the call `rgbSimilarity(a, b, type)` returns.
A `double` is a rational number and the comparison of two doubles is the comparison of these
numbers, so the loop is the one of the source for whatever rounding the machine applies. -/
def rgbNearestStepBy (score : Rgb → Rgb → Int → ℚ) (rgb : Rgb) (type : Int)
    (st : NearestState) (i : Nat) (var : BlockInfoModified) : NearestState :=
  let sim := score rgb var.color type
  if st.similarity > sim then st
  else { result := some i, similarity := sim }

/-- The `for` loop of `rgbNearest` for the scores `score`. -/
def rgbNearestLoopBy (score : Rgb → Rgb → Int → ℚ) (rgb : Rgb) (type : Int) :
    BIModis → Nat → NearestState → NearestState
  | [], _, st => st
  | var :: rest, i, st =>
    rgbNearestLoopBy score rgb type rest (i + 1) (rgbNearestStepBy score rgb type st i var)

/-- The position of the entry `rgbNearest` points to, for the scores `score`. -/
def rgbNearestIdxBy (score : Rgb → Rgb → Int → ℚ) (rgb : Rgb) (modis : BIModis) (type : Int) :
    Option Nat :=
  if modis.isEmpty then none
  else (rgbNearestLoopBy score rgb type modis 0 { result := none, similarity := 0 }).result

/-- The function `rgbNearest` of `modules.cpp` for the scores `score`: the entry the returned
pointer points to. With the exact score `rgbSimilarity` it is `rgbNearest`. -/
def rgbNearestBy (score : Rgb → Rgb → Int → ℚ) (rgb : Rgb) (modis : BIModis) (type : Int) :
    Option BlockInfoModified :=
  (rgbNearestIdxBy score rgb modis type).bind fun i => modis.get? i

/-- A two-entry palette whose entries have the same colour. -/
def tiePalette : BIModis :=
  [{ blockId := "a", textureName := "a.png", color := ⟨10, 20, 30⟩ },
   { blockId := "b", textureName := "b.png", color := ⟨10, 20, 30⟩ }]

/-- A three-entry palette with pairwise different colours. -/
def samplePalette : BIModis :=
  [{ blockId := "black", textureName := "black.png", color := ⟨0, 0, 0⟩ },
   { blockId := "white", textureName := "white.png", color := ⟨255, 255, 255⟩ },
   { blockId := "grey", textureName := "grey.png", color := ⟨128, 128, 128⟩ }]

/-! ## Grid and planes -/

/-- The coordinate triple `Posi` (`Pos<int>`) of `datacarrier.hpp`; the default constructor
gives `(0, 0, 0)`. -/
structure Posi where
  x : Int := 0
  y : Int := 0
  z : Int := 0
  deriving DecidableEq, Repr

/-- The run `struct BlockCluster` of `datacarrier.hpp`; the default constructor gives the
empty id and two zero positions. -/
structure BlockCluster where
  blockId : String := ""
  posFrom : Posi := {}
  posTo : Posi := {}
  deriving DecidableEq, Repr

/-- The grid `struct BlockCube` of `datacarrier.hpp`: the dimensions and the cell lookup
`blocks[x][y][z]`. -/
structure BlockCube where
  x : Nat
  y : Nat
  z : Nat
  blockIds : Nat → Nat → Nat → String

/-- The enumeration `Plane` of `modules.hpp`. -/
inductive Plane where
  | XY_Z
  | ZY_X
  | XZ_Y
  deriving DecidableEq, Repr

/-- The position `Posi(x, y, z)` built from loop counters. -/
def Posi.ofNat (x y z : Nat) : Posi := { x := (x : Int), y := (y : Int), z := (z : Int) }

/-! ## Command builders (`command.hpp`) -/

/-- The enumeration `Command::Selector`. -/
inductive Selector where
  | All
  | Player
  | Own
  | Nearest
  | Rand
  deriving DecidableEq, Repr

/-- The table `_Selector`. -/
def selectorStr : Selector → String
  | .All => "@e"
  | .Player => "@a"
  | .Own => "@s"
  | .Nearest => "@p"
  | .Rand => "@r"

/-- The enumeration `Command::PosMode`. -/
inductive PosMode where
  | Absolute
  | Relative
  | Locatlity
  deriving DecidableEq, Repr

/-- The table `_PosMode`. -/
def posModeStr : PosMode → String
  | .Absolute => ""
  | .Relative => "~"
  | .Locatlity => "^"

/-- The builder `Command::fill` with its defaults `mode = FillMode::Replace`, empty
`replacedBlockId` and `hasSlash = false`. -/
def fill (blockId : String) (posFrom posTo : Posi) (posMode : PosMode) : String :=
  "" ++ "fill" ++ " " ++
    posModeStr posMode ++ toString posFrom.x ++ " " ++
    posModeStr posMode ++ toString posFrom.y ++ " " ++
    posModeStr posMode ++ toString posFrom.z ++ " " ++
    posModeStr posMode ++ toString posTo.x ++ " " ++
    posModeStr posMode ++ toString posTo.y ++ " " ++
    posModeStr posMode ++ toString posTo.z ++ " " ++
    blockId ++ " " ++ "replace"

/-- The builder `Command::execute(decorate, condition, subCommand)` with `hasSlash = false`. -/
def executeRaw (decorate condition subCommand : String) : String :=
  "" ++ "execute" ++ " " ++ decorate ++ " " ++ condition ++ " " ++ "run" ++ " " ++ subCommand

/-- The builder `Command::execute(as, at, subCommand)` with `hasSlash = false`. -/
def execute (as_ at_ : Selector) (subCommand : String) : String :=
  executeRaw ("" ++ "as" ++ " " ++ selectorStr as_ ++ " " ++ "at" ++ " " ++ selectorStr at_) ""
    subCommand

/-! ## Command encoder -/

/-- The string pushed for a cluster in `getCommands`:
`execute(Selector::Nearest, Selector::Own, fill(blockId, posFrom, posTo, PosMode::Relative))`. -/
def clusterCommand (c : BlockCluster) : String :=
  execute Selector.Nearest Selector.Own (fill c.blockId c.posFrom c.posTo PosMode.Relative)

/-- The `switch (plane)` of `getCommands`, acting in place on the cluster. In the `XZ_Y` case
the second swap is `std::swap(cluster.posTo.y, cluster.posTo.y)`, which leaves `posTo` as it
is. -/
def swapPlane (plane : Plane) (c : BlockCluster) : BlockCluster :=
  match plane with
  | .XY_Z => c
  | .ZY_X =>
    { c with
      posFrom := { x := c.posFrom.z, y := c.posFrom.y, z := c.posFrom.x }
      posTo := { x := c.posTo.z, y := c.posTo.y, z := c.posTo.x } }
  | .XZ_Y =>
    { c with
      posFrom := { x := c.posFrom.x, y := c.posFrom.z, z := c.posFrom.y }
      posTo := { x := c.posTo.x, y := c.posTo.y, z := c.posTo.z } }

/-- The state of the scan of one row: the current `cluster` and the commands pushed so far
during this row. -/
structure ScanState where
  cluster : BlockCluster
  commands : List String

/-- The body of the `for (int i = 0; i < count; ++i)` loop of `getCommands` at column `x`. -/
def flushOnce (blocks : BlockCube) (plane : Plane) (x y z : Nat) (st : ScanState) : ScanState :=
  let c := swapPlane plane st.cluster
  { cluster := { blockId := blocks.blockIds x y z, posFrom := Posi.ofNat x y z,
                 posTo := Posi.ofNat x y z }
    commands := st.commands ++ [clusterCommand c] }

/-- The body of the `for (; x < blocks.x; ++x)` loop of `getCommands`. -/
def scanStep (blocks : BlockCube) (plane : Plane) (y z : Nat) (st : ScanState) (x : Nat) :
    ScanState :=
  let st1 :=
    if blocks.blockIds x y z ≠ st.cluster.blockId ∨ (x : Int) = (blocks.x : Int) - 1 then
      let count := if (x : Int) = (blocks.x : Int) - 1 then 2 else 1
      (flushOnce blocks plane x y z)^[count] st
    else st
  { st1 with cluster := { st1.cluster with posTo := Posi.ofNat x y z } }

/-- The state with which the scan of row `(y, z)` starts: a default-constructed cluster whose
`blockId` and `posFrom` are then set from the cell at `x = 0` (`posTo` keeps its default). -/
def scanInit (blocks : BlockCube) (y z : Nat) : ScanState :=
  { cluster := { blockId := blocks.blockIds 0 y z, posFrom := Posi.ofNat 0 y z, posTo := {} }
    commands := [] }

/-- The commands `getCommands` pushes while it scans row `(y, z)`. -/
def rowCommands (blocks : BlockCube) (plane : Plane) (y z : Nat) : List String :=
  ((List.range blocks.x).foldl (scanStep blocks plane y z) (scanInit blocks y z)).commands

/-- The function `getCommands` of `modules.cpp`: rows are scanned with `z` in the outer and
`y` in the middle loop, and every row appends its commands to the result. The parameters
`useNewExecute` and `offset` are not used by the source. -/
def getCommands (blocks : BlockCube) (plane : Plane) : List String :=
  (List.range blocks.z).flatMap fun z =>
    (List.range blocks.y).flatMap fun y => rowCommands blocks plane y z

/-- The runs `runs` cover the columns `a, ..., b - 1` of row `(y, z)` one after the other,
without gap or overlap, and every run carries the block id of each cell of its span. -/
def Tiles (blocks : BlockCube) (y z : Nat) : List BlockCluster → Nat → Nat → Prop
  | [], a, b => a = b
  | c :: cs, a, b =>
    ∃ e, a ≤ e ∧ c.posFrom = Posi.ofNat a y z ∧ c.posTo = Posi.ofNat e y z ∧
      (∀ x, a ≤ x → x ≤ e → blocks.blockIds x y z = c.blockId) ∧
      Tiles blocks y z cs (e + 1) b

/-- The order of two fills by the row of their origin, then by the column: `c₁` lies in a row
with smaller `z`, or in the same layer in a row with smaller `y`, or in the same row and does
not start to the right of `c₂`. -/
def RowOrder (c₁ c₂ : BlockCluster) : Prop :=
  c₁.posFrom.z < c₂.posFrom.z ∨
    (c₁.posFrom.z = c₂.posFrom.z ∧
      (c₁.posFrom.y < c₂.posFrom.y ∨
        (c₁.posFrom.y = c₂.posFrom.y ∧ c₁.posFrom.x ≤ c₂.posFrom.x)))

/-- The position `(x, y, z)` is inside the vectors of the grid. -/
def BlockCube.InRange (blocks : BlockCube) (p : Nat × Nat × Nat) : Prop :=
  p.1 < blocks.x ∧ p.2.1 < blocks.y ∧ p.2.2 < blocks.z

/-- A 1x2x1 grid: a single column holding `"a"` below `"b"`. -/
def columnCube : BlockCube :=
  { x := 1, y := 2, z := 1, blockIds := fun _ y _ => if y = 0 then "a" else "b" }

/-- A 5x1x1 grid with the row `a a b c c`. -/
def stripeCube : BlockCube :=
  { x := 5, y := 1, z := 1
    blockIds := fun x _ _ => if x < 2 then "a" else if x = 2 then "b" else "c" }

/-- A grid of the given dimensions in which every cell holds the same block id. -/
def uniformCube (x y z : Nat) (blockId : String) : BlockCube :=
  { x := x, y := y, z := z, blockIds := fun _ _ _ => blockId }

/-! ## Structure encoder -/

/-- One block descriptor of `block_palette`: the compound holding an empty `states` compound,
the `version` and the `name`. -/
structure PaletteBlock where
  version : Int
  name : String
  deriving DecidableEq, Repr

/-- The tag tree `getMcstructure` returns, by field: `format_version`, `size`,
`structure.block_indices` (the primary list `data1` and the secondary list `data2`),
`structure.palette.default.block_palette` and `structure_world_origin`. -/
structure Mcstructure where
  formatVersion : Int
  size : List Int
  data1 : List Nat
  data2 : List Int
  blockPalette : List PaletteBlock
  structureWorldOrigin : List Int
  deriving DecidableEq, Repr

/-- The first `switch (plane)` of `getMcstructure`: the logical dimensions `(xs, ys, zs)`. -/
def planeDims (blocks : BlockCube) (plane : Plane) : Nat × Nat × Nat :=
  match plane with
  | .XY_Z => (blocks.x, blocks.y, blocks.z)
  | .ZY_X => (blocks.z, blocks.y, blocks.x)
  | .XZ_Y => (blocks.x, blocks.z, blocks.y)

/-- The second `switch (plane)` of `getMcstructure`: the block id read at the logical
coordinate `(x, y, z)`. -/
def planeCell (blocks : BlockCube) (plane : Plane) (x y z : Nat) : String :=
  match plane with
  | .XY_Z => blocks.blockIds x y z
  | .ZY_X => blocks.blockIds z y x
  | .XZ_Y => blocks.blockIds x z y

/-- The loop state of `getMcstructure`: the table `map` (a `std::unordered_map`, kept as an
association list), the next `index`, and the three lists under construction. -/
structure EncState where
  map : List (String × Nat)
  index : Nat
  data1 : List Nat
  data2 : List Int
  blockPalette : List PaletteBlock

/-- The innermost loop body of `getMcstructure` once `blockId` has been read. -/
def encodeCell (st : EncState) (blockId : String) : EncState :=
  let data2 := st.data2 ++ [-1]
  match st.map.lookup blockId with
  | none =>
    { map := (blockId, st.index) :: st.map
      index := st.index + 1
      data1 := st.data1 ++ [st.index]
      data2 := data2
      blockPalette := st.blockPalette ++ [{ version := 18103297, name := blockId }] }
  | some i => { st with data1 := st.data1 ++ [i], data2 := data2 }

/-- The three nested `for` loops of `getMcstructure`. -/
def encodeLoop (blocks : BlockCube) (plane : Plane) (xs ys zs : Nat) (st : EncState) : EncState :=
  (List.range xs).foldl (fun st x =>
    (List.range ys).foldl (fun st y =>
      (List.range zs).foldl (fun st z => encodeCell st (planeCell blocks plane x y z)) st) st) st

/-- The function `getMcstructure` of `modules.cpp`. -/
def getMcstructure (blocks : BlockCube) (plane : Plane) : Mcstructure :=
  let xs := (planeDims blocks plane).1
  let ys := (planeDims blocks plane).2.1
  let zs := (planeDims blocks plane).2.2
  let st := encodeLoop blocks plane xs ys zs
    { map := [], index := 0, data1 := [], data2 := [], blockPalette := [] }
  { formatVersion := 1
    size := [(xs : Int), (ys : Int), (zs : Int)]
    data1 := st.data1
    data2 := st.data2
    blockPalette := st.blockPalette
    structureWorldOrigin := [0, 0, 0] }

/-- The value an arithmetic operation on `int` yields when its exact result is `v`: the 32-bit
two's complement number congruent to `v` modulo `2^32`. -/
def wrapInt32 (v : Int) : Int :=
  let u := v % 2 ^ 32
  if u < 2 ^ 31 then u else u - 2 ^ 32

/-- The function `getAirStructure` of `modules.cpp`. The count `int all = x * y * z` is
computed in `int`: each of the two products is a 32-bit product. -/
def getAirStructure (x y z : Int) (plane : Plane) : Mcstructure :=
  let dims : Int × Int × Int :=
    match plane with
    | .XY_Z => (x, y, z)
    | .ZY_X => (z, y, x)
    | .XZ_Y => (x, z, y)
  let all := wrapInt32 (wrapInt32 (x * y) * z)
  let arrays := (List.range all.toNat).foldl
    (fun (d : List Nat × List Int) _ => (d.1 ++ [0], d.2 ++ [-1])) ([], [])
  { formatVersion := 1
    size := [dims.1, dims.2.1, dims.2.2]
    data1 := arrays.1
    data2 := arrays.2
    blockPalette := [{ version := 18103297, name := "minecraft:air" }]
    structureWorldOrigin := [0, 0, 0] }

/-- A tag of the Nbt library, as far as the structure encoders use it: a named integer, a
named string, a named list of tags or a named compound of tags; unnamed tags (`gpInt`,
`gpList`, `gCompound()`) carry the empty name. The members of a list or compound are kept in
the order in which they were added. -/
inductive Tag where
  | int (name : String) (value : Int)
  | string (name : String) (value : String)
  | list (name : String) (items : List Tag)
  | compound (name : String) (members : List Tag)

/-- The operations `tag << member` and `tag.addMember(member)`: the member is added after the
members already there. -/
def Tag.push (tag member : Tag) : Tag :=
  match tag with
  | .list name items => .list name (items ++ [member])
  | .compound name members => .compound name (members ++ [member])
  | .int name value => .int name value
  | .string name value => .string name value

/-- The name of a tag. -/
def Tag.name : Tag → String
  | .int name _ => name
  | .string name _ => name
  | .list name _ => name
  | .compound name _ => name

/-- The members of a list or compound tag, in order. -/
def Tag.members : Tag → List Tag
  | .list _ items => items
  | .compound _ members => members
  | .int _ _ => []
  | .string _ _ => []

/-- The names of the members of a list or compound tag, in order. -/
def Tag.memberNames (tag : Tag) : List String := tag.members.map Tag.name

/-- The member of a list or compound tag with the given name, if there is one. -/
def Tag.member (tag : Tag) (name : String) : Option Tag :=
  tag.members.find? fun member => member.name == name

/-- The descriptor `getMcstructure` and `getAirStructure` add to `block_palette` for a block:
an unnamed compound with an empty compound `states`, the `version` and the `name`. -/
def blockTag (block : PaletteBlock) : Tag :=
  (((Tag.compound "" []).push (Tag.compound "states" [])).push
    (Tag.int "version" block.version)).push (Tag.string "name" block.name)

/-- The tag tree `getMcstructure` and `getAirStructure` build from the tags they have filled:
the tags are created and filled as in the sources, and the tree is put together by the
statements that follow the loops (`s4 << ...` to `root << formatVersion << size << s2 << swo`),
which are the same in both functions. -/
def structureTag (s : Mcstructure) : Tag :=
  let formatVersion := Tag.int "format_version" s.formatVersion
  let size := s.size.foldl (fun tag v => tag.push (Tag.int "" v)) (Tag.list "size" [])
  let swo := s.structureWorldOrigin.foldl (fun tag v => tag.push (Tag.int "" v))
    (Tag.list "structure_world_origin" [])
  let data1 := s.data1.foldl (fun tag (v : Nat) => tag.push (Tag.int "" (v : Int)))
    (Tag.list "" [])
  let data2 := s.data2.foldl (fun tag v => tag.push (Tag.int "" v)) (Tag.list "" [])
  let blockPalette := s.blockPalette.foldl (fun tag block => tag.push (blockTag block))
    (Tag.list "block_palette" [])
  let s2 := Tag.compound "structure" []
  let s3 := Tag.compound "palette" []
  let s4 := Tag.compound "default" []
  let s4 := (s4.push (Tag.compound "block_position_data" [])).push blockPalette
  let s5 := Tag.list "block_indices" []
  let s5 := (s5.push data1).push data2
  let s3 := s3.push s4
  let s2 := ((s2.push s5).push (Tag.list "entities" [])).push s3
  let root := Tag.compound "" []
  (((root.push formatVersion).push size).push s2).push swo

/-- The tag `getMcstructure` returns. -/
def getMcstructureTag (blocks : BlockCube) (plane : Plane) : Tag :=
  structureTag (getMcstructure blocks plane)

/-- The tag `getAirStructure` returns. -/
def getAirStructureTag (x y z : Int) (plane : Plane) : Tag :=
  structureTag (getAirStructure x y z plane)

/-- The block ids of a grid read in the order of the logical traversal under a plane: `x` in
the outer, `y` in the middle and `z` in the inner position. -/
def logicalCells (blocks : BlockCube) (plane : Plane) : List String :=
  (List.range (planeDims blocks plane).1).flatMap fun x =>
    (List.range (planeDims blocks plane).2.1).flatMap fun y =>
      (List.range (planeDims blocks plane).2.2).map fun z => planeCell blocks plane x y z

/-- The names of the block palette of a structure, in order. -/
def paletteNames (s : Mcstructure) : List String := s.blockPalette.map fun b => b.name

/-- A 2x2x3 grid with three different block ids, none of its axes symmetric. -/
def sampleCube : BlockCube :=
  { x := 2, y := 2, z := 3
    blockIds := fun x y z =>
      if x = 1 ∧ z = 2 then "glass" else if y = 1 ∧ z = 0 then "dirt" else "stone" }

/-- The invariant of the loop of `getMcstructure` after the cells `cs` have been encoded:
`index` counts the palette, the table maps exactly each palette name to its position, the
palette holds exactly the ids seen, ordered by first occurrence, and `data1` holds for each
cell the palette position of its id. -/
structure EncInv (cs : List String) (st : EncState) : Prop where
  index_eq : st.index = st.blockPalette.length
  lookup_iff : ∀ s i, st.map.lookup s = some i ↔
    (st.blockPalette.map fun b => b.name)[i]? = some s
  mem_iff : ∀ s, s ∈ (st.blockPalette.map fun b => b.name) ↔ s ∈ cs
  order : (st.blockPalette.map fun b => b.name).Pairwise
    fun a b => cs.indexOf a < cs.indexOf b
  data1_eq : st.data1 = cs.map fun s => (st.blockPalette.map fun b => b.name).indexOf s

/-! ## Pack assembler: the chunking loop of `makeFunctionPack` -/

/-- The state of the "Write command data" loop of `makeFunctionPack`: the counters `count`
and `index`, and for every `i` the commands appended so far to the file `data/d<i>.mcfunction`
(one line each; a file never written to has none). -/
structure PackState where
  count : Int
  index : Nat
  files : Nat → List String

/-- One iteration of the "Write command data" loop of `makeFunctionPack`. -/
def packStep (maxCommandCount : Int) (st : PackState) (var : String) : PackState :=
  let count := st.count + 1
  let index := if count > maxCommandCount then st.index + 1 else st.index
  let count := if count > maxCommandCount then 0 else count
  { count := count
    index := index
    files := fun i => if i = index then st.files i ++ [var] else st.files i }

/-- The "Write command data" loop of `makeFunctionPack`, from `count = 0`, `index = 0` and no
file written. -/
def packLoop (commands : List String) (maxCommandCount : Int) : PackState :=
  commands.foldl (packStep maxCommandCount) { count := 0, index := 0, files := fun _ => [] }

/-- The invariant of the chunking loop after the commands `cs` have been written, for a
positive `maxCommandCount`. -/
structure PackInv (cs : List String) (st : PackState) : Prop where
  start : cs = [] → st.count = 0 ∧ st.index = 0
  count_nonneg : 0 ≤ st.count
  concat : (List.range (st.index + 1)).flatMap st.files = cs
  beyond : ∀ i, st.index < i → st.files i = []
  used : cs ≠ [] → ∀ i, i ≤ st.index → st.files i ≠ []

/-- The statement the loop of "Write AUX control data" writes for the index `i`: it runs the
function of chunk file `d<i>` when the counter equals `i`. Here `pfx` is `manifest.prefix`,
from which the names `scoreboardObj` and `scoreboardPly` are built. -/
def dispatchStatement (pfx : String) (i : Nat) : String :=
  let scoreboardObj := pfx ++ "_Control"
  let scoreboardPly := pfx ++ "_Dummy"
  "execute if score " ++ scoreboardPly ++ " " ++ scoreboardObj ++ " matches " ++ toString i ++
    " run function " ++ pfx ++ "/data/d" ++ toString i

/-- The statement of the control script that adds 1 to the counter while it is at least 0. -/
def incrementStatement (pfx : String) : String :=
  let scoreboardObj := pfx ++ "_Control"
  let scoreboardPly := pfx ++ "_Dummy"
  "execute if score " ++ scoreboardPly ++ " " ++ scoreboardObj ++ " matches 0.. run " ++
    "scoreboard players add " ++ scoreboardPly ++ " " ++ scoreboardObj ++ " 1"

/-- The first teardown statement of the control script: it removes the ticking area when the
counter equals `n`. -/
def tickareaTeardown (pfx : String) (n : Nat) : String :=
  let scoreboardObj := pfx ++ "_Control"
  let scoreboardPly := pfx ++ "_Dummy"
  "execute if score " ++ scoreboardPly ++ " " ++ scoreboardObj ++ " matches " ++ toString n ++
    " run " ++ "tickingarea remove " ++ (pfx ++ "_Tickarea")

/-- The second teardown statement of the control script: it removes the scoreboard objective
when the counter equals `n`. -/
def objectiveTeardown (pfx : String) (n : Nat) : String :=
  let scoreboardObj := pfx ++ "_Control"
  let scoreboardPly := pfx ++ "_Dummy"
  "execute if score " ++ scoreboardPly ++ " " ++ scoreboardObj ++ " matches " ++ toString n ++
    " run " ++ "scoreboard objectives remove " ++ scoreboardObj

/-- The "Write AUX control data" part of `makeFunctionPack`: the statements written to
`aux/control.mcfunction`, one per line, for the final value `index` of the chunking loop. -/
def controlScript (pfx : String) (index : Nat) : List String :=
  let control := (List.range (index + 1)).foldl
    (fun control i => control ++ [dispatchStatement pfx i]) []
  control ++ [incrementStatement pfx] ++ [tickareaTeardown pfx (index + 1)] ++
    [objectiveTeardown pfx (index + 1)]

/-- The chunk files and the control script `makeFunctionPack` writes. -/
structure FunctionPackFiles where
  dataFiles : Nat → List String
  control : List String

/-- The "Write command data" and "Write AUX control data" parts of `makeFunctionPack`, for the
command list `commands` it got from `getCommands`. -/
def makeFunctionPackFiles (commands : List String) (pfx : String) (maxCommandCount : Int) :
    FunctionPackFiles :=
  { dataFiles := (packLoop commands maxCommandCount).files
    control := controlScript pfx (packLoop commands maxCommandCount).index }

/-- The command list `c0, c1, ..., c(n-1)`. -/
def numberedCommands (n : Nat) : List String :=
  (List.range n).map fun i => "c" ++ toString i

/-! ## Voxelizer -/

/-- A pixel `cv::Vec3b` of an 8-bit three-channel image: channel `0` is blue, `1` green and
`2` red. -/
structure Vec3b where
  c0 : Fin 256
  c1 : Fin 256
  c2 : Fin 256
  deriving DecidableEq, Repr

/-- A decoded image `cv::Mat` of type `CV_8UC3`: its size and the pixel lookup
`img.at<cv::Vec3b>(row, col)`. -/
structure Mat where
  rows : Nat
  cols : Nat
  pixel : Nat → Nat → Vec3b

/-- The function `bgrToRgb` of `modules.cpp`. -/
def bgrToRgb (cvBgr : Vec3b) : Rgb := { r := cvBgr.c2, g := cvBgr.c1, b := cvBgr.c0 }

/-- The library call `cv::flip(img, img, 1)`: a flip around the vertical axis, after which
the pixel at `(row, col)` is the one that was at `(row, cols - 1 - col)`. -/
def flipHorizontal (img : Mat) : Mat :=
  { rows := img.rows, cols := img.cols, pixel := fun row col => img.pixel row (img.cols - 1 - col) }

/-- The constructor `BlockCube(x, y, z)`: every cell holds the empty string. -/
def BlockCube.new (x y z : Nat) : BlockCube :=
  { x := x, y := y, z := z, blockIds := fun _ _ _ => "" }

/-- The assignment `result[x][y][z] = blockId`. -/
def BlockCube.set (cube : BlockCube) (x y z : Nat) (blockId : String) : BlockCube :=
  { cube with
    blockIds := fun x' y' z' => if x' = x ∧ y' = y ∧ z' = z then blockId else cube.blockIds x' y' z' }

/-- The body of the inner loop of the image `getBlocks` at pixel `(row, col)`, with
`blocksInfo` left at its default `nullptr`: the result is `none` when `rgbNearest` returns
`nullptr`, which the body dereferences. -/
def getBlocksPixel (img : Mat) (modis : BIModis) (result : BlockCube) (row col : Nat) :
    Option BlockCube :=
  match rgbNearest (bgrToRgb (img.pixel row col)) modis 0 with
  | none => none
  | some modi => some (result.set col (img.rows - 1 - row) 0 modi.blockId)

/-- The image overload of `getBlocks` of `modules.cpp` from the statement after
`limitScale(img, maxWidth, maxHeight)` on, with `blocksInfo` left at its default `nullptr`:
`img` is the image as `limitScale` left it. The result is `none` when the run does not get to
`return result`. -/
def getBlocksScaled (img : Mat) (modis : BIModis) : Option BlockCube :=
  let img := flipHorizontal img
  (List.range img.rows).foldlM (fun result row =>
    (List.range img.cols).foldlM (fun result col => getBlocksPixel img modis result row col)
      result) (BlockCube.new img.cols img.rows 1)

/-- The block id the loop body of `getBlocks` stores for a colour (the empty string stands in
where `rgbNearest` has no entry to offer). -/
def nearestId (rgb : Rgb) (modis : BIModis) : String :=
  match rgbNearest rgb modis 0 with
  | none => ""
  | some modi => modi.blockId

/-- The pixel positions `(row, col)` of an image in the order in which the loops of `getBlocks`
visit them. -/
def pixelOrder (rows cols : Nat) : List (Nat × Nat) :=
  (List.range rows).flatMap fun row => (List.range cols).map fun col => (row, col)

/-- A 2x3 image (2 rows, 3 columns) whose pixels are pairwise different. -/
def sampleImage : Mat :=
  { rows := 2, cols := 3
    pixel := fun row col =>
      { c0 := Fin.ofNat (40 * col), c1 := Fin.ofNat (100 * row), c2 := Fin.ofNat (250 - 90 * col) } }

/-! ## Palette ingestion (`preprocess.hpp`, `preprocess.cpp`) -/

/-- The version triple `struct Version` of `preprocess.hpp`: three `unsigned char`
components. -/
structure Version where
  major : Fin 256
  minor : Fin 256
  patch : Fin 256
  deriving DecidableEq, Repr

/-- The method `Version::data`, `(major << 24) ^ (minor << 16) ^ patch`, computed in `int`:
the 32-bit pattern read as a two's complement number. -/
def Version.data (v : Version) : Int :=
  let u : Nat := ((v.major.val <<< 24) ^^^ (v.minor.val <<< 16) ^^^ v.patch.val) % 2 ^ 32
  if u < 2 ^ 31 then (u : Int) else (u : Int) - 2 ^ 32

/-- The catalog entry `struct BlockInfoRaw` of `preprocess.hpp`. Each `std::unordered_map` is
kept as the list of its entries in iteration order; the keys of the face maps are the values of
`BlockFlag::Faces`. -/
structure BlockInfoRaw where
  ids : List (Version × String)
  facesTexturePath : List (Nat × String)
  facesColor : List (Nat × Rgb)
  debutVersion : Version
  alignment : Nat
  attributeFlags : Nat

/-- The catalog `BIRaws` (a `std::vector<BlockInfoRaw>`). -/
abbrev BIRaws := List BlockInfoRaw

/-- The value of `faceFlag` after the first loop of the body of `rawsToModis`: the bitwise or
of the faces that have a colour. -/
def faceFlagOf (raw : BlockInfoRaw) : Nat :=
  raw.facesColor.foldl (fun faceFlag var => faceFlag ||| var.1) 0

/-- The body of the loop of `rawsToModis` for one catalog entry: `some none` when the body ends
in `continue`, `some (some modi)` when it appends `modi` to the result, and `none` when it
dereferences `begin()` of an empty map. The flag words are non-negative; `attributeFlags` is
the field `raw.attribute` and `attributeMask` the parameter `attribute`. -/
def rawToModi (raw : BlockInfoRaw) (face alignment attributeMask : Nat) (debutVersion : Version) :
    Option (Option BlockInfoModified) :=
  let faceFlag := faceFlagOf raw
  if raw.alignment &&& alignment = 0 then some none
  else if raw.debutVersion.data < debutVersion.data then some none
  else if raw.attributeFlags &&& attributeMask ≠ raw.attributeFlags then some none
  else if face &&& faceFlag = 0 then some none
  else
    let blockId :=
      match raw.ids.find? (fun var => !decide (debutVersion.data > var.1.data)) with
      | some var => var.2
      | none => ""
    if raw.alignment = 3 ∧ raw.facesColor.length = 1 then
      match raw.facesTexturePath.head?, raw.facesColor.head? with
      | some texture, some color =>
        some (some { blockId := blockId, textureName := texture.2, color := color.2 })
      | _, _ => none
    else
      match raw.facesTexturePath.lookup face with
      | none => some none
      | some textureName =>
        match raw.facesColor.lookup face with
        | none => some none
        | some color =>
          some (some { blockId := blockId, textureName := textureName, color := color })

/-- The function `rawsToModis` of `preprocess.cpp`; the result is `none` when the assertion
`!raws.empty()` fails or the body of the loop fails for an entry. -/
def rawsToModis (raws : BIRaws) (face alignment attributeMask : Nat) (debutVersion : Version) :
    Option BIModis :=
  if raws.isEmpty then none
  else
    raws.foldlM (fun result raw =>
      match rawToModi raw face alignment attributeMask debutVersion with
      | none => none
      | some none => some result
      | some (some modi) => some (result ++ [modi])) []

/-- A catalog of four entries: a stone block usable on every face, a lamp with the attribute
`IsLighting`, a block that debuts in version 1.20.0, and a block that is only horizontal. -/
def sampleCatalog : BIRaws :=
  [{ ids := [(⟨1, 0, 0⟩, "stone")], facesTexturePath := [(31, "stone.png")],
     facesColor := [(31, ⟨125, 125, 125⟩)], debutVersion := ⟨1, 0, 0⟩, alignment := 3,
     attributeFlags := 0 },
   { ids := [(⟨1, 0, 0⟩, "lamp")], facesTexturePath := [(31, "lamp.png")],
     facesColor := [(31, ⟨250, 240, 200⟩)], debutVersion := ⟨1, 0, 0⟩, alignment := 3,
     attributeFlags := 1 },
   { ids := [(⟨1, 20, 0⟩, "cherry")], facesTexturePath := [(31, "cherry.png")],
     facesColor := [(31, ⟨230, 180, 190⟩)], debutVersion := ⟨1, 20, 0⟩, alignment := 3,
     attributeFlags := 0 },
   { ids := [(⟨1, 0, 0⟩, "carpet")], facesTexturePath := [(16, "carpet.png")],
     facesColor := [(16, ⟨200, 30, 30⟩)], debutVersion := ⟨1, 0, 0⟩, alignment := 1,
     attributeFlags := 0 }]

/-! ## Pack manifest (`mcpack.cpp`) -/

/-- The table `hexmap` of `genUuidV4`. -/
def hexmap : List Char := "0123456789abcdef".toList

/-- The function `genUuidV4` of `mcpack.cpp`. The random draws are parameters: `uni i` is the
value `uni(rng)` yields in iteration `i` and `uni2` the value `uni2(rng)` yields in iteration
16; the distributions `uni(0, 15)` and `uni2(8, 11)` yield values in their ranges. -/
def genUuidV4 (uni : Nat → Nat) (uni2 : Nat) : String :=
  String.mk ((List.range 32).foldl (fun ss i =>
    let ss := if i = 8 ∨ i = 12 ∨ i = 16 ∨ i = 20 then ss ++ ['-'] else ss
    if i = 12 then ss ++ ['4']
    else if i = 16 then ss ++ [hexmap.getD uni2 '0']
    else ss ++ [hexmap.getD (uni i) '0']) [])

/-! ## Resizing -/

/-- The conversion `int(value)` of a `double` (in exact arithmetic): truncation towards
zero. -/
def truncToInt (value : ℚ) : Int := if 0 ≤ value then ⌊value⌋ else ⌈value⌉

/-- The decision of `limitScale` for a non-empty image of size `width` x `height`: `none` when
the function returns without resizing, `some (w, h)` when it calls
`cv::resize(image, image, cv::Size(w, h), ...)`. -/
def limitScaleTarget (width height maxWidth maxHeight : Int) : Option (Int × Int) :=
  if maxWidth = 0 ∨ maxHeight = 0 then none
  else
    let ratio : Option ℚ :=
      if maxWidth = -1 ∧ maxHeight ≠ -1 then
        if height ≤ maxHeight then none
        else some ((maxHeight : ℚ) / (height : ℚ))
      else if maxWidth ≠ -1 ∧ maxHeight = -1 then
        if width ≤ maxWidth then none
        else some ((maxWidth : ℚ) / (width : ℚ))
      else
        if width ≤ maxWidth ∧ height ≤ maxHeight then none
        else some
          (if (maxWidth : ℚ) / (width : ℚ) < (maxHeight : ℚ) / (height : ℚ) then
            (maxWidth : ℚ) / (width : ℚ)
          else (maxHeight : ℚ) / (height : ℚ))
    ratio.map fun ratio =>
      (truncToInt ((width : ℚ) * ratio), truncToInt ((height : ℚ) * ratio))

/-- The size of the image after `limitScale`, when `cv::resize` delivers the size it is asked
for: the targeted size, or the old size when `limitScale` does not resize. -/
def limitScaleDims (width height maxWidth maxHeight : Int) : Int × Int :=
  (limitScaleTarget width height maxWidth maxHeight).getD (width, height)

/-- The decision of `limitScale` with the rounding of `double` arithmetic explicit: `rnd q` is
the `double` the machine yields for an operation whose exact result is `q` (a `double` is a
rational number; the conversions of the `int` operands to `double` are exact). Each quotient
and each product of the source is rounded once, and `int(...)` truncates the rounded product.
With `rnd q = q` this is `limitScaleTarget`. -/
def limitScaleTargetBy (rnd : ℚ → ℚ) (width height maxWidth maxHeight : Int) :
    Option (Int × Int) :=
  if maxWidth = 0 ∨ maxHeight = 0 then none
  else
    let ratio : Option ℚ :=
      if maxWidth = -1 ∧ maxHeight ≠ -1 then
        if height ≤ maxHeight then none
        else some (rnd ((maxHeight : ℚ) / (height : ℚ)))
      else if maxWidth ≠ -1 ∧ maxHeight = -1 then
        if width ≤ maxWidth then none
        else some (rnd ((maxWidth : ℚ) / (width : ℚ)))
      else
        if width ≤ maxWidth ∧ height ≤ maxHeight then none
        else some
          (if rnd ((maxWidth : ℚ) / (width : ℚ)) < rnd ((maxHeight : ℚ) / (height : ℚ)) then
            rnd ((maxWidth : ℚ) / (width : ℚ))
          else rnd ((maxHeight : ℚ) / (height : ℚ)))
    ratio.map fun ratio =>
      (truncToInt (rnd ((width : ℚ) * ratio)), truncToInt (rnd ((height : ℚ) * ratio)))

/-- The test `image.empty()`. -/
def Mat.empty (image : Mat) : Bool := image.rows = 0 ∨ image.cols = 0

/-- The function `limitScale` of `modules.cpp`. The library call
`cv::resize(image, image, cv::Size(w, h), 0.0, 0.0, cv::INTER_AREA)` is the parameter `resize`;
it yields `none` when the library raises an exception. -/
def limitScale (resize : Mat → Int → Int → Option Mat) (image : Mat) (maxWidth maxHeight : Int) :
    Option Mat :=
  if image.empty then some image
  else
    match limitScaleTarget (image.cols : Int) (image.rows : Int) maxWidth maxHeight with
    | none => some image
    | some (w, h) => resize image w h

/-- The image overload of `getBlocks` of `modules.cpp`, with `blocksInfo` left at its default
`nullptr`. -/
def getBlocks (resize : Mat → Int → Int → Option Mat) (img : Mat) (modis : BIModis)
    (maxWidth maxHeight : Int) : Option BlockCube :=
  (limitScale resize img maxWidth maxHeight).bind fun img => getBlocksScaled img modis

/-! ## Voxelizer: usage counts -/

/-- The update of the usage-count map in the loop body of `getBlocks` and `getBlockImage` when
`blocksInfo` is not `nullptr`: a block id seen for the first time is inserted with the count
`0`, a block id already present has its count incremented. The `std::unordered_map` is kept as
an association list. -/
def recordUsage (blocksInfo : List (String × Int)) (blockId : String) : List (String × Int) :=
  match blocksInfo.lookup blockId with
  | none => blocksInfo ++ [(blockId, 0)]
  | some _ => blocksInfo.map fun e => if e.1 = blockId then (e.1, e.2 + 1) else e

/-- The body of the inner loop of the image `getBlocks` at pixel `(row, col)` when `blocksInfo`
points to a map: the state is the grid together with the map. -/
def getBlocksPixelInfo (img : Mat) (modis : BIModis) (st : BlockCube × List (String × Int))
    (row col : Nat) : Option (BlockCube × List (String × Int)) :=
  match rgbNearest (bgrToRgb (img.pixel row col)) modis 0 with
  | none => none
  | some modi =>
    some (st.1.set col (img.rows - 1 - row) 0 modi.blockId, recordUsage st.2 modi.blockId)

/-- The image overload of `getBlocks` from the statement after `limitScale` on, when
`blocksInfo` points to the map `blocksInfo`: the grid returned and the map after the call. -/
def getBlocksScaledInfo (img : Mat) (modis : BIModis) (blocksInfo : List (String × Int)) :
    Option (BlockCube × List (String × Int)) :=
  let img := flipHorizontal img
  (List.range img.rows).foldlM (fun st row =>
    (List.range img.cols).foldlM (fun st col => getBlocksPixelInfo img modis st row col) st)
    (BlockCube.new img.cols img.rows 1, blocksInfo)

/-- A palette with the single entry `stone`. -/
def stonePalette : BIModis :=
  [{ blockId := "stone", textureName := "stone.png", color := ⟨125, 125, 125⟩ }]

/-! ## Voxelizer: video -/

/-- A video stream `cv::VideoCapture`: the frame count it reports
(`video.get(cv::CAP_PROP_FRAME_COUNT)` cast to `int`) and the frames its successive calls of
`read` deliver before `read` fails. -/
structure VideoCapture where
  frameCount : Int
  frames : List Mat

/-- The body of the inner loop of the video `getBlocks` at pixel `(row, col)` of the frame with
index `z`, with `blocksInfo` left at its default `nullptr`. The result is `none` when
`rgbNearest` returns `nullptr` or when the cell written lies outside the grid. -/
def getBlocksVoxel (frame : Mat) (modis : BIModis) (result : BlockCube) (row col z : Nat) :
    Option BlockCube :=
  match rgbNearest (bgrToRgb (frame.pixel row col)) modis 0 with
  | none => none
  | some modi =>
    if col < result.x ∧ frame.rows - 1 - row < result.y ∧ z < result.z then
      some (result.set col (frame.rows - 1 - row) z modi.blockId)
    else none

/-- The two pixel loops of the video `getBlocks` for the frame with index `z`. -/
def getBlocksFrame (frame : Mat) (modis : BIModis) (result : BlockCube) (z : Nat) :
    Option BlockCube :=
  (List.range frame.rows).foldlM (fun result row =>
    (List.range frame.cols).foldlM (fun result col => getBlocksVoxel frame modis result row col z)
      result) result

/-- The `while (video.read(frame))` loop of the video `getBlocks`, for the frames still to be
delivered, the current index `z` and the clamped `maxFrameCount`. The result is `none` when the
run does not get to `return result` (a library exception, a failed grid construction, or a
failure of the loop body). -/
def getBlocksVideoLoop (resize : Mat → Int → Int → Option Mat) (modis : BIModis)
    (maxWidth maxHeight maxFrameCount : Int) : List Mat → Nat → BlockCube → Option BlockCube
  | [], _, result => some result
  | frame :: rest, z, result =>
    match limitScale resize frame maxWidth maxHeight with
    | none => none
    | some frame =>
      let frame := flipHorizontal frame
      let fresh : Option BlockCube :=
        if z = 0 then
          if maxFrameCount < 0 then none
          else some (BlockCube.new frame.cols frame.rows maxFrameCount.toNat)
        else some result
      match fresh.bind fun result => getBlocksFrame frame modis result z with
      | none => none
      | some result =>
        if ((z + 1 : Nat) : Int) = maxFrameCount then some result
        else getBlocksVideoLoop resize modis maxWidth maxHeight maxFrameCount rest (z + 1) result

/-- The video overload of `getBlocks` of `modules.cpp`, with `blocksInfo` left at its default
`nullptr`. -/
def getBlocksVideo (resize : Mat → Int → Int → Option Mat) (video : VideoCapture)
    (modis : BIModis) (maxWidth maxHeight maxFrameCount : Int) : Option BlockCube :=
  let maxFrameCount := if video.frameCount > maxFrameCount then maxFrameCount else video.frameCount
  getBlocksVideoLoop resize modis maxWidth maxHeight maxFrameCount video.frames 0
    (BlockCube.new 0 0 0)

/-- The video overload of `makeStructurePack` of `modules.cpp` for `detachFrame = false`: the
structure it writes to `data.mcstructure`. The arguments of the call of `getBlocks` are in the
order of the source, `getBlocks(video, modis, maxFrameCount, maxWidth, maxHeight)`. -/
def makeStructurePackVideo (resize : Mat → Int → Int → Option Mat) (video : VideoCapture)
    (modis : BIModis) (plane : Plane) (maxWidth maxHeight maxFrameCount : Int) :
    Option Mcstructure :=
  (getBlocksVideo resize video modis maxFrameCount maxWidth maxHeight).map fun blocks =>
    getMcstructure blocks plane

/-- A video of three frames of one pixel each: black, white and grey. -/
def sampleVideo : VideoCapture :=
  { frameCount := 3
    frames :=
      [{ rows := 1, cols := 1, pixel := fun _ _ => ⟨0, 0, 0⟩ },
       { rows := 1, cols := 1, pixel := fun _ _ => ⟨255, 255, 255⟩ },
       { rows := 1, cols := 1, pixel := fun _ _ => ⟨128, 128, 128⟩ }] }

/-- An image of 2 rows and 4 columns, all pixels black. -/
def wideImage : Mat := { rows := 2, cols := 4, pixel := fun _ _ => ⟨0, 0, 0⟩ }

/-! ## Structure encoder: grid accesses -/

/-- The grid position the second `switch (plane)` of `getMcstructure` reads at the logical
coordinate `(x, y, z)`: `blocks[x][y][z]`, `blocks[z][y][x]` or `blocks[x][z][y]`. -/
def planeIndex (plane : Plane) (x y z : Nat) : Nat × Nat × Nat :=
  match plane with
  | .XY_Z => (x, y, z)
  | .ZY_X => (z, y, x)
  | .XZ_Y => (x, z, y)

/-- The grid positions `getMcstructure` reads, in the order of its three nested loops. -/
def getMcstructureReads (blocks : BlockCube) (plane : Plane) : List (Nat × Nat × Nat) :=
  (List.range (planeDims blocks plane).1).flatMap fun x =>
    (List.range (planeDims blocks plane).2.1).flatMap fun y =>
      (List.range (planeDims blocks plane).2.2).map fun z => planeIndex plane x y z

/-! ## Command encoder: the full signature -/

/-- The coordinate triple `Posli` (`Pos<long long>`) of `datacarrier.hpp`. -/
structure Posli where
  x : Int
  y : Int
  z : Int
  deriving DecidableEq, Repr

/-- The function `getCommands` of `modules.cpp` with all four parameters of its signature. The
body is the one of the source: the loops over `z` and `y` and the scan of each row; it mentions
neither `useNewExecute` nor `offset`. -/
def getCommandsArgs (blocks : BlockCube) (plane : Plane) (_useNewExecute : Bool)
    (_offset : Posli) : List String :=
  (List.range blocks.z).flatMap fun z =>
    (List.range blocks.y).flatMap fun y => rowCommands blocks plane y z

/-- The command list `makeFunctionPack` builds in its first two statements:
`getBlocks(img, modis, maxWidth, maxHeight)` followed by
`getCommands(blocks, plane, useNewExecute)`, where `offset` takes its default `Posli(0, 0, 1)`. -/
def makeFunctionPackCommands (resize : Mat → Int → Int → Option Mat) (img : Mat)
    (modis : BIModis) (plane : Plane) (maxWidth maxHeight : Int) (useNewExecute : Bool) :
    Option (List String) :=
  (getBlocks resize img modis maxWidth maxHeight).map fun blocks =>
    getCommandsArgs blocks plane useNewExecute { x := 0, y := 0, z := 1 }

/-! ## Version comparison (`preprocess.hpp`) -/

/-- The operator `Version::operator==`. -/
def Version.eq (a rhs : Version) : Bool := decide (a.data = rhs.data)

/-- The operator `Version::operator>`. -/
def Version.gt (a rhs : Version) : Bool := decide (a.data > rhs.data)

/-- The operator `Version::operator<`. -/
def Version.lt (a rhs : Version) : Bool := decide (a.data < rhs.data)

/-- The operator `Version::operator>=`. -/
def Version.ge (a rhs : Version) : Bool := a.gt rhs || a.eq rhs

/-- The operator `Version::operator<=`. -/
def Version.le (a rhs : Version) : Bool := a.lt rhs || a.eq rhs

/-- The lexicographic order of version triples by `(major, minor, patch)`. -/
def Version.lexLt (a b : Version) : Prop :=
  a.major < b.major ∨ (a.major = b.major ∧
    (a.minor < b.minor ∨ (a.minor = b.minor ∧ a.patch < b.patch)))

instance (a b : Version) : Decidable (a.lexLt b) := by
  unfold Version.lexLt
  infer_instance

/-! ## Colour strings (`preprocess.cpp`) -/

/-- The function `byteToHexstr` of `preprocess.cpp`. A `std::string` is kept as the string of
the characters whose codes are its bytes. The parameter `num` is an `unsigned char`, so
`ss << num` is the character insertion of the stream: it writes the one character with the
code `num`, in both branches (`std::uppercase` and `std::hex` act on the insertion of
integers). -/
def byteToHexstr (num : Fin 256) (isUppercase : Bool) (justify : Bool) : String :=
  let str :=
    if isUppercase then String.singleton (Char.ofNat num.val)
    else String.singleton (Char.ofNat num.val)
  if justify ∧ str.length % 2 ≠ 0 then "0" ++ str else str

/-- The library function `toupper` in the "C" locale: the lowercase letters `a` to `z` are
mapped to their uppercase letters, every other character to itself. -/
def toupper (ch : Char) : Char :=
  if 'a'.toNat ≤ ch.toNat ∧ ch.toNat ≤ 'z'.toNat then Char.ofNat (ch.toNat - 32) else ch

/-- The update `rgb[k] += v` of the array `int rgb[3]` of `hexstrToRgb`. -/
def addAt (rgb : Int × Int × Int) (k : Nat) (v : Int) : Int × Int × Int :=
  if k = 0 then (rgb.1 + v, rgb.2.1, rgb.2.2)
  else if k = 1 then (rgb.1, rgb.2.1 + v, rgb.2.2)
  else (rgb.1, rgb.2.1, rgb.2.2 + v)

/-- The body of the loop of `hexstrToRgb` for the index `i`; `none` is the early
`return Rgb()`. -/
def hexstrStep (hexstr : String) (rgb : Int × Int × Int) (i : Nat) : Option (Int × Int × Int) :=
  let ch := toupper (hexstr.data.getD i (Char.ofNat 0))
  if '0'.toNat ≤ ch.toNat ∧ ch.toNat ≤ '9'.toNat then
    some (addAt rgb (i / 2)
      (if i % 2 ≠ 0 then (ch.toNat : Int) - ('0'.toNat : Int)
       else ((ch.toNat : Int) - ('0'.toNat : Int)) * 16))
  else if 'A'.toNat ≤ ch.toNat ∧ ch.toNat ≤ 'F'.toNat then
    some (addAt rgb (i / 2)
      (if i % 2 ≠ 0 then (ch.toNat : Int) - ('A'.toNat : Int) + 10
       else ((ch.toNat : Int) - ('A'.toNat : Int) + 10) * 16))
  else none

/-- The function `hexstrToRgb` of `preprocess.cpp`; `Rgb()` is the colour `(0, 0, 0)`, and the
constructor `Rgb(rgb[0], rgb[1], rgb[2])` converts each `int` to `unsigned char`. -/
def hexstrToRgb (hexstr : String) : Rgb :=
  if hexstr.length < 6 then ⟨0, 0, 0⟩
  else
    match (List.range 6).foldlM (hexstrStep hexstr) (0, 0, 0) with
    | none => ⟨0, 0, 0⟩
    | some rgb =>
      ⟨Fin.ofNat (rgb.1 % 256).toNat, Fin.ofNat (rgb.2.1 % 256).toNat,
        Fin.ofNat (rgb.2.2 % 256).toNat⟩

/-- The function `rgbToHexstr` of `preprocess.cpp`; `byteToHexstr` is called with its default
`justify = true`. -/
def rgbToHexstr (rgb : Rgb) (isUppercase : Bool) : String :=
  byteToHexstr rgb.r isUppercase true ++ byteToHexstr rgb.g isUppercase true ++
    byteToHexstr rgb.b isUppercase true

/-- The value of a character as a hexadecimal digit, in either case of the letters. -/
def hexDigit (ch : Char) : Option Int :=
  if '0'.toNat ≤ ch.toNat ∧ ch.toNat ≤ '9'.toNat then some ((ch.toNat : Int) - 48)
  else if 'A'.toNat ≤ ch.toNat ∧ ch.toNat ≤ 'F'.toNat then some ((ch.toNat : Int) - 55)
  else if 'a'.toNat ≤ ch.toNat ∧ ch.toNat ≤ 'f'.toNat then some ((ch.toNat : Int) - 87)
  else none

/-! ## Command encoder: counting the commands -/

/-- The number of columns `x` with `1 <= x <= n` of row `(y, z)` whose cell differs from the
cell at `x - 1`. -/
def changesUpTo (blocks : BlockCube) (y z n : Nat) : Nat :=
  (List.range (n + 1)).countP fun x =>
    decide (1 ≤ x ∧ blocks.blockIds x y z ≠ blocks.blockIds (x - 1) y z)

/-- The number `k` of columns `x` with `1 <= x <= width - 2` of row `(y, z)` whose cell differs
from the cell at `x - 1`. -/
def rowChanges (blocks : BlockCube) (y z : Nat) : Nat :=
  (List.range (blocks.x - 1)).countP fun x =>
    decide (1 ≤ x ∧ blocks.blockIds x y z ≠ blocks.blockIds (x - 1) y z)

/-- A 3x2x1 grid whose two rows are `a b b`. -/
def bandCube : BlockCube :=
  { x := 3, y := 2, z := 1, blockIds := fun x _ _ => if x = 0 then "a" else "b" }

/-! ## Control script: statements and ticks -/

/-- A statement of `aux/control.mcfunction` by its kind: the dispatch of chunk `i` (guarded by
`matches i`), the increment (guarded by `matches 0..`), and the two teardown statements
(guarded by `matches n`). -/
inductive ControlStatement where
  | dispatch (i : Nat)
  | increment
  | removeTickarea (n : Nat)
  | removeObjective (n : Nat)
  deriving DecidableEq, Repr

/-- The line `makeFunctionPack` writes for a statement. -/
def ControlStatement.render (pfx : String) : ControlStatement → String
  | .dispatch i => dispatchStatement pfx i
  | .increment => incrementStatement pfx
  | .removeTickarea n => tickareaTeardown pfx n
  | .removeObjective n => objectiveTeardown pfx n

/-- The "Write AUX control data" part of `makeFunctionPack` by statement kinds, in the order in
which the source writes the statements. -/
def controlStatements (index : Nat) : List ControlStatement :=
  let control := (List.range (index + 1)).foldl
    (fun control i => control ++ [ControlStatement.dispatch i]) []
  control ++ [ControlStatement.increment] ++ [ControlStatement.removeTickarea (index + 1)] ++
    [ControlStatement.removeObjective (index + 1)]

/-- The state of the game as far as the control script is concerned: the score of the dummy
player on the control objective (`none` when there is no such score) and the statements that
have fired so far in the current tick, in order. -/
structure TickState where
  counter : Option Int
  fired : List ControlStatement

/-- Modelled from the spec: the effect of one statement of the control script on the counter.
A statement guarded by `matches i` fires when the counter exists and equals `i`, the increment
(guarded by `matches 0..`) fires when the counter exists and is at least `0` and then adds `1`,
and the removal of the objective leaves no counter. -/
def execStatement (st : TickState) (s : ControlStatement) : TickState :=
  match s with
  | .dispatch i =>
    if st.counter = some (i : Int) then { st with fired := st.fired ++ [s] } else st
  | .increment =>
    match st.counter with
    | some c => if 0 ≤ c then { counter := some (c + 1), fired := st.fired ++ [s] } else st
    | none => st
  | .removeTickarea n =>
    if st.counter = some (n : Int) then { st with fired := st.fired ++ [s] } else st
  | .removeObjective n =>
    if st.counter = some (n : Int) then { counter := none, fired := st.fired ++ [s] } else st

/-- Modelled from the spec: one tick executes the statements of the control script in order on
the counter. -/
def tick (index : Nat) (counter : Option Int) : TickState :=
  (controlStatements index).foldl execStatement { counter := counter, fired := [] }

/-- Modelled from the spec: the counter at the start of tick `t`, starting from counter `0` at
tick `0`. -/
def counterAt (index : Nat) : Nat → Option Int
  | 0 => some 0
  | t + 1 => (tick index (counterAt index t)).counter

/-- The statements that fire during tick `t`, in order. -/
def firedAt (index t : Nat) : List ControlStatement :=
  (tick index (counterAt index t)).fired

/-! ## The two encodings as volumes -/

/-- Modelled from the spec: the cells a fill from the corner `posFrom` to the corner `posTo`
covers, the box spanned by the two corners, whichever way round they are given. -/
def BlockCluster.covers (c : BlockCluster) (x y z : Int) : Prop :=
  min c.posFrom.x c.posTo.x ≤ x ∧ x ≤ max c.posFrom.x c.posTo.x ∧
  min c.posFrom.y c.posTo.y ≤ y ∧ y ≤ max c.posFrom.y c.posTo.y ∧
  min c.posFrom.z c.posTo.z ≤ z ∧ z ≤ max c.posFrom.z c.posTo.z

instance (c : BlockCluster) (x y z : Int) : Decidable (c.covers x y z) := by
  unfold BlockCluster.covers
  infer_instance

/-- Modelled from the spec: the fills replayed in order onto the volume `volume`; each fill
puts its block id into every cell it covers and leaves the other cells as they are. -/
def replayFrom (volume : Int → Int → Int → String) (clusters : List BlockCluster) :
    Int → Int → Int → String :=
  clusters.foldl (fun volume c => fun x y z => if c.covers x y z then c.blockId else volume x y z)
    volume

/-- Modelled from the spec: the fills replayed in order onto an empty volume (every cell holds
the empty id). -/
def replayFills (clusters : List BlockCluster) : Int → Int → Int → String :=
  replayFrom (fun _ _ _ => "") clusters

/-- Modelled from the spec: the block id the primary index array of a structure decodes to,
through its palette, at the logical coordinate `(x, y, z)`; the array lists the cells with `x`
in the outer, `y` in the middle and `z` in the inner position, as the loops of
`getMcstructure` write them. -/
def Mcstructure.blockAt (s : Mcstructure) (x y z : Nat) : Option String :=
  match s.size with
  | [_, ys, zs] =>
    (s.data1[(x * ys.toNat + y) * zs.toNat + z]?).bind fun i =>
      (s.blockPalette[i]?).map fun b => b.name
  | _ => none

/-- A 2x2x1 grid whose row `y = 0` holds `a a` and whose row `y = 1` holds `b b`. -/
def layerCube : BlockCube :=
  { x := 2, y := 2, z := 1, blockIds := fun _ y _ => if y = 0 then "a" else "b" }

/-- The value the loop body of `hexstrToRgb` reads from a character: the value of the
hexadecimal digit `toupper` maps it to, `none` where the body returns `Rgb()`. -/
def hexValue (ch : Char) : Option Int :=
  let ch := toupper ch
  if '0'.toNat ≤ ch.toNat ∧ ch.toNat ≤ '9'.toNat then some ((ch.toNat : Int) - ('0'.toNat : Int))
  else if 'A'.toNat ≤ ch.toNat ∧ ch.toNat ≤ 'F'.toNat then
    some ((ch.toNat : Int) - ('A'.toNat : Int) + 10)
  else none

/-- The number of entries of the primary index array in a structure tag: the length of the
first member of the list `block_indices` of the compound `structure`. -/
def Tag.primaryLength (tag : Tag) : Option Nat :=
  ((tag.member "structure").bind fun t => t.member "block_indices").bind fun t =>
    t.members.head?.map fun a => a.members.length

/-! # Theorems -/

/-! ## Palette matcher: lemmas -/

theorem square_nonneg (v : ℚ) : 0 ≤ square v := mul_self_nonneg v

theorem chanDiff_sq_le (a b : Fin 256) : square (chanDiff a b) ≤ 65025 := by
  have ha := a.isLt
  have hb := b.isLt
  have h1 : (chanDiff a b) ≤ 255 := by unfold chanDiff; omega
  have h2 : -255 ≤ (chanDiff a b) := by unfold chanDiff; omega
  have h3 : ((chanDiff a b : Int) : ℚ) ≤ 255 := by exact_mod_cast h1
  have h4 : (-255 : ℚ) ≤ ((chanDiff a b : Int) : ℚ) := by exact_mod_cast h2
  unfold square
  nlinarith

/-- In exact arithmetic every similarity score is at least `0`, the initial value of the
running best. -/
theorem rgbSimilarity_nonneg (a b : Rgb) (type : Int) : 0 ≤ rgbSimilarity a b type := by
  have hr := chanDiff_sq_le a.r b.r
  have hg := chanDiff_sq_le a.g b.g
  have hb := chanDiff_sq_le a.b b.b
  unfold rgbSimilarity
  split_ifs
  · rw [sub_nonneg, div_le_one (by norm_num)]
    linarith
  · rw [sub_nonneg, div_le_one (by norm_num)]
    linarith
  · exact le_refl 0

/-- Characterisation of the scan of `rgbNearest`: either no candidate was accepted (all score
strictly below the incoming best), or the final pointer is the last position whose score is
at least the incoming best and at least every other score. -/
theorem rgbNearestLoop_spec (rgb : Rgb) (type : Int) (l : BIModis) :
    ∀ (i : Nat) (st : NearestState),
      (rgbNearestLoop rgb type l i st = st ∧
          ∀ c ∈ l, rgbSimilarity rgb c.color type < st.similarity) ∨
      ∃ j e, l[j]? = some e ∧
        rgbNearestLoop rgb type l i st =
          { result := some (i + j), similarity := rgbSimilarity rgb e.color type } ∧
        st.similarity ≤ rgbSimilarity rgb e.color type ∧
        (∀ c ∈ l, rgbSimilarity rgb c.color type ≤ rgbSimilarity rgb e.color type) ∧
        ∀ j' e', j < j' → l[j']? = some e' →
          rgbSimilarity rgb e'.color type < rgbSimilarity rgb e.color type := by
  induction l with
  | nil =>
    intro i st
    left
    exact ⟨rfl, by simp⟩
  | cons var rest ih =>
    intro i st
    by_cases hgt : st.similarity > rgbSimilarity rgb var.color type
    · have hstep : rgbNearestStep rgb type st i var = st := by
        simp [rgbNearestStep, hgt]
      rcases ih (i + 1) st with ⟨hres, hall⟩ | ⟨j, e, hj, hres, hle, hmax, hlater⟩
      · left
        refine ⟨by simp [rgbNearestLoop, hstep, hres], ?_⟩
        intro c hc
        rcases List.mem_cons.mp hc with rfl | hc
        · exact hgt
        · exact hall c hc
      · right
        refine ⟨j + 1, e, by simpa using hj, ?_, hle, ?_, ?_⟩
        · simp only [rgbNearestLoop, hstep, hres]
          congr 2
          omega
        · intro c hc
          rcases List.mem_cons.mp hc with rfl | hc
          · exact le_of_lt (lt_of_lt_of_le hgt hle)
          · exact hmax c hc
        · intro j' e' hjj' hj'
          obtain ⟨k, rfl⟩ : ∃ k, j' = k + 1 := ⟨j' - 1, by omega⟩
          exact hlater k e' (by omega) (by simpa using hj')
    · have hstep : rgbNearestStep rgb type st i var =
          { result := some i, similarity := rgbSimilarity rgb var.color type } := by
        simp [rgbNearestStep, hgt]
      have hge : st.similarity ≤ rgbSimilarity rgb var.color type := not_lt.mp hgt
      rcases ih (i + 1) { result := some i, similarity := rgbSimilarity rgb var.color type }
        with ⟨hres, hall⟩ | ⟨j, e, hj, hres, hle, hmax, hlater⟩
      · right
        refine ⟨0, var, by simp, by simp [rgbNearestLoop, hstep, hres], hge, ?_, ?_⟩
        · intro c hc
          rcases List.mem_cons.mp hc with rfl | hc
          · exact le_refl _
          · exact le_of_lt (hall c hc)
        · intro j' e' hjj' hj'
          obtain ⟨k, rfl⟩ : ∃ k, j' = k + 1 := ⟨j' - 1, by omega⟩
          have hmem : e' ∈ rest := List.getElem?_mem (by simpa using hj')
          exact hall e' hmem
      · right
        refine ⟨j + 1, e, by simpa using hj, ?_, le_trans hge hle, ?_, ?_⟩
        · simp only [rgbNearestLoop, hstep, hres]
          congr 2
          omega
        · intro c hc
          rcases List.mem_cons.mp hc with rfl | hc
          · exact hle
          · exact hmax c hc
        · intro j' e' hjj' hj'
          obtain ⟨k, rfl⟩ : ∃ k, j' = k + 1 := ⟨j' - 1, by omega⟩
          exact hlater k e' (by omega) (by simpa using hj')

/-- On a non-empty candidate list the scan started by `rgbNearest` always ends on a candidate:
the one at the last position among those with the greatest score. -/
theorem rgbNearest_spec (rgb : Rgb) (modis : BIModis) (type : Int) (hne : modis ≠ []) :
    ∃ j e, modis[j]? = some e ∧ rgbNearestIdx rgb modis type = some j ∧
      rgbNearest rgb modis type = some e ∧
      (∀ c ∈ modis, rgbSimilarity rgb c.color type ≤ rgbSimilarity rgb e.color type) ∧
      ∀ j' e', j < j' → modis[j']? = some e' →
        rgbSimilarity rgb e'.color type < rgbSimilarity rgb e.color type := by
  have hemp : modis.isEmpty = false := by
    cases modis with
    | nil => exact absurd rfl hne
    | cons a l => rfl
  rcases rgbNearestLoop_spec rgb type modis 0 { result := none, similarity := 0 }
    with ⟨_, hall⟩ | ⟨j, e, hj, hres, _, hmax, hlater⟩
  · exfalso
    cases modis with
    | nil => exact hne rfl
    | cons a l =>
      have h1 := hall a (List.mem_cons_self a l)
      have h2 := rgbSimilarity_nonneg rgb a.color type
      simp only at h1
      exact absurd h1 (not_lt.mpr h2)
  · have hidx : rgbNearestIdx rgb modis type = some j := by
      simp [rgbNearestIdx, hemp, hres]
    refine ⟨j, e, hj, hidx, ?_, hmax, hlater⟩
    simp [rgbNearest, hidx, hj]

/-! ## Palette matcher: results -/

/-- C1: for every non-empty candidate list and every colour, `rgbNearest` (default weight set,
exact arithmetic) returns an entry of the list whose similarity to the colour is greater than
or equal to the similarity of every candidate in the list. -/
theorem rgbNearest_maximal (rgb : Rgb) (modis : BIModis) (hne : modis ≠ []) :
    ∃ e, rgbNearest rgb modis 0 = some e ∧ e ∈ modis ∧
      ∀ c ∈ modis, rgbSimilarity rgb c.color 0 ≤ rgbSimilarity rgb e.color 0 := by
  obtain ⟨j, e, hj, _, hres, hmax, _⟩ := rgbNearest_spec rgb modis 0 hne
  exact ⟨e, hres, List.getElem?_mem hj, hmax⟩

/-- C1 at a concrete palette and colour. -/
theorem rgbNearest_maximal_witness :
    samplePalette ≠ [] ∧
    ∃ e, rgbNearest ⟨120, 130, 140⟩ samplePalette 0 = some e ∧ e ∈ samplePalette ∧
      ∀ c ∈ samplePalette,
        rgbSimilarity ⟨120, 130, 140⟩ c.color 0 ≤ rgbSimilarity ⟨120, 130, 140⟩ e.color 0 :=
  ⟨by simp [samplePalette], rgbNearest_maximal ⟨120, 130, 140⟩ samplePalette
    (by simp [samplePalette])⟩

/-- C2 (as stated) fails: in `tiePalette` both entries share the greatest similarity to the
colour `(10, 20, 30)`, the entry at position `0` comes earliest, yet `rgbNearest` returns the
entry at position `1`; both entries have the same colour, so they tie for whatever value the
machine computes as their score, and position `1` is returned for every such value that is not
negative. -/
theorem rgbNearest_first_seen_counterexample :
    tiePalette ≠ [] ∧
    (∀ c ∈ tiePalette, rgbSimilarity ⟨10, 20, 30⟩ c.color 0 = 1) ∧
    rgbNearestIdx ⟨10, 20, 30⟩ tiePalette 0 = some 1 ∧
    rgbNearest ⟨10, 20, 30⟩ tiePalette 0 =
      some { blockId := "b", textureName := "b.png", color := ⟨10, 20, 30⟩ } ∧
    rgbNearestIdx ⟨10, 20, 30⟩ tiePalette 0 ≠ some 0 ∧
    ∀ score : Rgb → Rgb → Int → ℚ, 0 ≤ score ⟨10, 20, 30⟩ ⟨10, 20, 30⟩ 0 →
      rgbNearestIdxBy score ⟨10, 20, 30⟩ tiePalette 0 = some 1 := by
  have hsim : ∀ c ∈ tiePalette, rgbSimilarity ⟨10, 20, 30⟩ c.color 0 = 1 := by
    intro c hc
    simp only [tiePalette, List.mem_cons, List.mem_singleton, List.not_mem_nil, or_false] at hc
    rcases hc with rfl | rfl <;> simp [rgbSimilarity, square, chanDiff]
  have hidx : rgbNearestIdx ⟨10, 20, 30⟩ tiePalette 0 = some 1 := by
    norm_num [rgbNearestIdx, tiePalette, rgbNearestLoop, rgbNearestStep, rgbSimilarity, square,
      chanDiff]
  refine ⟨by simp [tiePalette], hsim, hidx, ?_, by simp [hidx], ?_⟩
  · simp [rgbNearest, hidx]
    simp [tiePalette]
  · intro score hscore
    simp [rgbNearestIdxBy, tiePalette, rgbNearestLoopBy, rgbNearestStepBy, not_lt.mpr hscore]

/-- With the exact scores the loop for computed scores is the loop of the exact model. -/
theorem rgbNearestLoopBy_exact (rgb : Rgb) (type : Int) (l : BIModis) :
    ∀ (i : Nat) (st : NearestState),
      rgbNearestLoopBy rgbSimilarity rgb type l i st = rgbNearestLoop rgb type l i st := by
  induction l with
  | nil => intro i st; rfl
  | cons var rest ih => intro i st; exact ih (i + 1) _

theorem rgbNearestBy_exact (rgb : Rgb) (modis : BIModis) (type : Int) :
    rgbNearestIdxBy rgbSimilarity rgb modis type = rgbNearestIdx rgb modis type ∧
    rgbNearestBy rgbSimilarity rgb modis type = rgbNearest rgb modis type := by
  have hidx : rgbNearestIdxBy rgbSimilarity rgb modis type = rgbNearestIdx rgb modis type := by
    simp only [rgbNearestIdxBy, rgbNearestIdx, rgbNearestLoopBy_exact]
  exact ⟨hidx, by simp only [rgbNearestBy, rgbNearest, hidx]⟩

/-- Characterisation of the scan of `rgbNearest` for arbitrary computed scores: either no
candidate was accepted (all score strictly below the incoming best), or the final pointer is
the last position whose score is at least the incoming best and at least every other score. -/
theorem rgbNearestLoopBy_spec (score : Rgb → Rgb → Int → ℚ) (rgb : Rgb) (type : Int)
    (l : BIModis) :
    ∀ (i : Nat) (st : NearestState),
      (rgbNearestLoopBy score rgb type l i st = st ∧
          ∀ c ∈ l, score rgb c.color type < st.similarity) ∨
      ∃ j e, l[j]? = some e ∧
        rgbNearestLoopBy score rgb type l i st =
          { result := some (i + j), similarity := score rgb e.color type } ∧
        st.similarity ≤ score rgb e.color type ∧
        (∀ c ∈ l, score rgb c.color type ≤ score rgb e.color type) ∧
        ∀ j' e', j < j' → l[j']? = some e' →
          score rgb e'.color type < score rgb e.color type := by
  induction l with
  | nil =>
    intro i st
    left
    exact ⟨rfl, by simp⟩
  | cons var rest ih =>
    intro i st
    by_cases hgt : st.similarity > score rgb var.color type
    · have hstep : rgbNearestStepBy score rgb type st i var = st := by
        simp [rgbNearestStepBy, hgt]
      rcases ih (i + 1) st with ⟨hres, hall⟩ | ⟨j, e, hj, hres, hle, hmax, hlater⟩
      · left
        refine ⟨by simp [rgbNearestLoopBy, hstep, hres], ?_⟩
        intro c hc
        rcases List.mem_cons.mp hc with rfl | hc
        · exact hgt
        · exact hall c hc
      · right
        refine ⟨j + 1, e, by simpa using hj, ?_, hle, ?_, ?_⟩
        · simp only [rgbNearestLoopBy, hstep, hres]
          congr 2
          omega
        · intro c hc
          rcases List.mem_cons.mp hc with rfl | hc
          · exact le_of_lt (lt_of_lt_of_le hgt hle)
          · exact hmax c hc
        · intro j' e' hjj' hj'
          obtain ⟨k, rfl⟩ : ∃ k, j' = k + 1 := ⟨j' - 1, by omega⟩
          exact hlater k e' (by omega) (by simpa using hj')
    · have hstep : rgbNearestStepBy score rgb type st i var =
          { result := some i, similarity := score rgb var.color type } := by
        simp [rgbNearestStepBy, hgt]
      have hge : st.similarity ≤ score rgb var.color type := not_lt.mp hgt
      rcases ih (i + 1) { result := some i, similarity := score rgb var.color type }
        with ⟨hres, hall⟩ | ⟨j, e, hj, hres, hle, hmax, hlater⟩
      · right
        refine ⟨0, var, by simp, by simp [rgbNearestLoopBy, hstep, hres], hge, ?_, ?_⟩
        · intro c hc
          rcases List.mem_cons.mp hc with rfl | hc
          · exact le_refl _
          · exact le_of_lt (hall c hc)
        · intro j' e' hjj' hj'
          obtain ⟨k, rfl⟩ : ∃ k, j' = k + 1 := ⟨j' - 1, by omega⟩
          have hmem : e' ∈ rest := List.getElem?_mem (by simpa using hj')
          exact hall e' hmem
      · right
        refine ⟨j + 1, e, by simpa using hj, ?_, le_trans hge hle, ?_, ?_⟩
        · simp only [rgbNearestLoopBy, hstep, hres]
          congr 2
          omega
        · intro c hc
          rcases List.mem_cons.mp hc with rfl | hc
          · exact hle
          · exact hmax c hc
        · intro j' e' hjj' hj'
          obtain ⟨k, rfl⟩ : ∃ k, j' = k + 1 := ⟨j' - 1, by omega⟩
          exact hlater k e' (by omega) (by simpa using hj')

/-- C2 (amended): for every non-empty candidate list and every colour, when several
candidates share the greatest similarity as the code computes it, `rgbNearest` returns the one
that comes latest in the list. The computed scores are a parameter (any values that are not
negative, as the initial best is `0`), so the statement holds for the scores in `double` as for
the exact ones: every candidate whose computed similarity is at least that of the returned
entry, in particular every candidate with the colour of the returned entry, sits at a position
no later than the returned one. -/
theorem rgbNearest_last_seen_wins (score : Rgb → Rgb → Int → ℚ) (rgb : Rgb) (modis : BIModis)
    (type : Int) (hne : modis ≠ []) (hscore : ∀ c ∈ modis, 0 ≤ score rgb c.color type) :
    ∃ j e, rgbNearestIdxBy score rgb modis type = some j ∧ modis[j]? = some e ∧
      rgbNearestBy score rgb modis type = some e ∧
      (∀ c ∈ modis, score rgb c.color type ≤ score rgb e.color type) ∧
      (∀ j' e', modis[j']? = some e' →
        score rgb e.color type ≤ score rgb e'.color type → j' ≤ j) ∧
      ∀ j' e', modis[j']? = some e' → e'.color = e.color → j' ≤ j := by
  have hemp : modis.isEmpty = false := by
    cases modis with
    | nil => exact absurd rfl hne
    | cons a l => rfl
  rcases rgbNearestLoopBy_spec score rgb type modis 0 { result := none, similarity := 0 }
    with ⟨_, hall⟩ | ⟨j, e, hj, hres, _, hmax, hlater⟩
  · exfalso
    cases modis with
    | nil => exact hne rfl
    | cons a l =>
      have h1 := hall a (List.mem_cons_self a l)
      have h2 := hscore a (List.mem_cons_self a l)
      simp only at h1
      exact absurd h1 (not_lt.mpr h2)
  · have hidx : rgbNearestIdxBy score rgb modis type = some j := by
      simp [rgbNearestIdxBy, hemp, hres]
    have hlast : ∀ j' e', modis[j']? = some e' →
        score rgb e.color type ≤ score rgb e'.color type → j' ≤ j := by
      intro j' e' hj' hle
      by_contra hlt
      exact absurd (hlater j' e' (by omega) hj') (not_lt.mpr hle)
    refine ⟨j, e, hidx, hj, ?_, hmax, hlast, ?_⟩
    · simp [rgbNearestBy, hidx, hj]
    · intro j' e' hj' hcol
      exact hlast j' e' hj' (by rw [hcol])

/-- C2 (amended) at the palette with two entries of the same colour, for the exact scores. -/
theorem rgbNearest_last_seen_wins_witness :
    tiePalette ≠ [] ∧
    (∀ c ∈ tiePalette, 0 ≤ rgbSimilarity ⟨10, 20, 30⟩ c.color 0) ∧
    ∃ j e, rgbNearestIdxBy rgbSimilarity ⟨10, 20, 30⟩ tiePalette 0 = some j ∧
      tiePalette[j]? = some e ∧
      rgbNearestBy rgbSimilarity ⟨10, 20, 30⟩ tiePalette 0 = some e ∧
      (∀ c ∈ tiePalette,
        rgbSimilarity ⟨10, 20, 30⟩ c.color 0 ≤ rgbSimilarity ⟨10, 20, 30⟩ e.color 0) ∧
      (∀ j' e', tiePalette[j']? = some e' →
        rgbSimilarity ⟨10, 20, 30⟩ e.color 0 ≤ rgbSimilarity ⟨10, 20, 30⟩ e'.color 0 →
          j' ≤ j) ∧
      ∀ j' e', tiePalette[j']? = some e' → e'.color = e.color → j' ≤ j :=
  ⟨by simp [tiePalette], fun c _ => rgbSimilarity_nonneg _ _ _,
    rgbNearest_last_seen_wins rgbSimilarity ⟨10, 20, 30⟩ tiePalette 0 (by simp [tiePalette])
      (fun c _ => rgbSimilarity_nonneg _ _ _)⟩

/-! ## Command encoder: lemmas -/

/-- While the scan of a row of equal cells has not reached the last column, nothing is pushed
and the pending cluster grows by one cell per step. -/
theorem scan_uniform_prefix (blocks : BlockCube) (plane : Plane) (y z : Nat) (id : String)
    (hrow : ∀ x, x < blocks.x → blocks.blockIds x y z = id) :
    ∀ n, n + 1 < blocks.x →
      (List.range (n + 1)).foldl (scanStep blocks plane y z) (scanInit blocks y z) =
        { cluster := { blockId := id, posFrom := Posi.ofNat 0 y z, posTo := Posi.ofNat n y z }
          commands := [] } := by
  intro n
  induction n with
  | zero =>
    intro h
    have h0 : blocks.blockIds 0 y z = id := hrow 0 (by omega)
    have hne : ¬ ((0 : Int) = (blocks.x : Int) - 1) := by omega
    simp [List.range_succ, scanStep, scanInit, h0, hne]
  | succ n ih =>
    intro h
    have hcell : blocks.blockIds (n + 1) y z = id := hrow (n + 1) (by omega)
    have hne : ¬ (((n + 1 : Nat) : Int) = (blocks.x : Int) - 1) := by omega
    rw [List.range_succ, List.foldl_append, ih (by omega)]
    simp only [List.foldl_cons, List.foldl_nil, scanStep, hcell, hne, ne_eq, not_true_eq_false,
      or_self, if_false]

/-- A tiling extends by one run at its right end. -/
theorem tiles_append (blocks : BlockCube) (y z : Nat) (c : BlockCluster) (s e : Nat)
    (hse : s ≤ e) (hfrom : c.posFrom = Posi.ofNat s y z) (hto : c.posTo = Posi.ofNat e y z)
    (hid : ∀ x, s ≤ x → x ≤ e → blocks.blockIds x y z = c.blockId) :
    ∀ (runs : List BlockCluster) (a : Nat), Tiles blocks y z runs a s →
      Tiles blocks y z (runs ++ [c]) a (e + 1) := by
  intro runs
  induction runs with
  | nil =>
    intro a h
    have ha : a = s := h
    subst ha
    exact ⟨e, hse, hfrom, hto, hid, rfl⟩
  | cons r runs ih =>
    intro a h
    obtain ⟨e', hae, hf, ht, hi, hrest⟩ := h
    exact ⟨e', hae, hf, ht, hi, ih (e' + 1) hrest⟩

/-- Before the last column of a row is reached, the commands pushed so far tile the columns
before the pending run, and the pending run spans from its start to the current column, all of
whose cells hold its id. -/
theorem scan_prefix_tiles (blocks : BlockCube) (y z : Nat) :
    ∀ n, n + 1 < blocks.x →
      ∃ (runs : List BlockCluster) (s : Nat) (id : String),
        (List.range (n + 1)).foldl (scanStep blocks Plane.XY_Z y z) (scanInit blocks y z) =
          { cluster := { blockId := id, posFrom := Posi.ofNat s y z, posTo := Posi.ofNat n y z }
            commands := runs.map clusterCommand } ∧
        Tiles blocks y z runs 0 s ∧ s ≤ n ∧
        ∀ x, s ≤ x → x ≤ n → blocks.blockIds x y z = id := by
  intro n
  induction n with
  | zero =>
    intro h
    have hne : ¬ ((0 : Int) = (blocks.x : Int) - 1) := by omega
    refine ⟨[], 0, blocks.blockIds 0 y z, ?_, rfl, le_refl 0, ?_⟩
    · simp [List.range_succ, scanStep, scanInit, hne]
    · intro x _ hx
      have : x = 0 := by omega
      rw [this]
  | succ n ih =>
    intro h
    obtain ⟨runs, s, id, hfold, htiles, hsn, hid⟩ := ih (by omega)
    have hne : ¬ (((n + 1 : Nat) : Int) = (blocks.x : Int) - 1) := by omega
    rw [List.range_succ, List.foldl_append, hfold]
    by_cases hcell : blocks.blockIds (n + 1) y z = id
    · refine ⟨runs, s, id, ?_, htiles, by omega, ?_⟩
      · simp only [List.foldl_cons, List.foldl_nil, scanStep, hcell, hne, ne_eq,
          not_true_eq_false, or_self, if_false]
      · intro x hsx hx
        by_cases hxn : x ≤ n
        · exact hid x hsx hxn
        · have : x = n + 1 := by omega
          rw [this, hcell]
    · refine ⟨runs ++ [{ blockId := id, posFrom := Posi.ofNat s y z, posTo := Posi.ofNat n y z }],
        n + 1, blocks.blockIds (n + 1) y z, ?_, ?_, le_refl _, ?_⟩
      · simp only [List.foldl_cons, List.foldl_nil, scanStep, hcell, hne, ne_eq,
          not_false_eq_true, or_false, if_true, if_false, Function.iterate_succ,
          Function.iterate_zero, Function.comp_apply, id_eq, flushOnce, swapPlane,
          List.map_append, List.map_cons, List.map_nil]
      · exact tiles_append blocks y z _ s n hsn rfl rfl hid runs 0 htiles
      · intro x hsx hx
        have : x = n + 1 := by omega
        rw [this]

/-- For a row of width at least 2 under `XY_Z` the x-spans of the commands pushed for the row
cover every column from `0` to `width - 1` exactly once, with no gaps and no overlaps, and each
command carries the block id of every cell of its span. -/
theorem rowCommands_tiles (blocks : BlockCube) (y z : Nat) (hw : 2 ≤ blocks.x) :
    ∃ runs : List BlockCluster,
      rowCommands blocks Plane.XY_Z y z = runs.map clusterCommand ∧
      Tiles blocks y z runs 0 blocks.x := by
  obtain ⟨n, hn⟩ : ∃ n, blocks.x = n + 2 := ⟨blocks.x - 2, by omega⟩
  obtain ⟨runs, s, id, hfold, htiles, hsn, hid⟩ := scan_prefix_tiles blocks y z n (by omega)
  have hlast : ((n + 1 : Nat) : Int) = (blocks.x : Int) - 1 := by omega
  refine ⟨runs ++ [{ blockId := id, posFrom := Posi.ofNat s y z, posTo := Posi.ofNat n y z }] ++
    [{ blockId := blocks.blockIds (n + 1) y z, posFrom := Posi.ofNat (n + 1) y z,
       posTo := Posi.ofNat (n + 1) y z }], ?_, ?_⟩
  · unfold rowCommands
    rw [show List.range blocks.x = List.range (n + 1) ++ [n + 1] by rw [hn, List.range_succ],
      List.foldl_append, hfold]
    simp only [List.foldl_cons, List.foldl_nil, scanStep, hlast, or_true, if_true,
      Function.iterate_succ, Function.iterate_zero, Function.comp_apply, id_eq, flushOnce,
      swapPlane, List.map_append, List.map_cons, List.map_nil, List.append_assoc]
  · rw [hn]
    refine tiles_append blocks y z _ (n + 1) (n + 1) (le_refl _) rfl rfl ?_ _ 0 ?_
    · intro x h1 h2
      have : x = n + 1 := by omega
      rw [this]
    · exact tiles_append blocks y z _ s n hsn rfl rfl hid runs 0 htiles

/-- The row `a a b c c` under `XY_Z`: the runs `a` over `x` in `[0, 1]`, `b` at `x = 2`, `c` at
`x = 3` and, flushed on its own, `c` at the last column `x = 4`. -/
theorem getCommands_stripe :
    getCommands stripeCube Plane.XY_Z =
      ["execute as @p at @s  run fill ~0 ~0 ~0 ~1 ~0 ~0 a replace",
       "execute as @p at @s  run fill ~2 ~0 ~0 ~2 ~0 ~0 b replace",
       "execute as @p at @s  run fill ~3 ~0 ~0 ~3 ~0 ~0 c replace",
       "execute as @p at @s  run fill ~4 ~0 ~0 ~4 ~0 ~0 c replace"] := by
  decide

/-! ## Command encoder: results -/

/-- C3 (the code at grids of width 1): for the 1x1x1 grid holding `"a"` under `XY_Z` the only
row gets two commands, and both of them span `x = 0`; in the 1x2x1 column `"a"`, `"b"` the row
`y = 1` gets two commands for `"b"`, the first of which runs from `(0, 1, 0)` to `(0, 0, 0)`. -/
theorem getCommands_width_one_row :
    rowCommands (uniformCube 1 1 1 "a") Plane.XY_Z 0 0 =
      [clusterCommand { blockId := "a", posFrom := Posi.ofNat 0 0 0, posTo := Posi.ofNat 0 0 0 },
       clusterCommand { blockId := "a", posFrom := Posi.ofNat 0 0 0, posTo := Posi.ofNat 0 0 0 }] ∧
    getCommands (uniformCube 1 1 1 "a") Plane.XY_Z =
      ["execute as @p at @s  run fill ~0 ~0 ~0 ~0 ~0 ~0 a replace",
       "execute as @p at @s  run fill ~0 ~0 ~0 ~0 ~0 ~0 a replace"] ∧
    rowCommands columnCube Plane.XY_Z 1 0 =
      [clusterCommand { blockId := "b", posFrom := Posi.ofNat 0 1 0, posTo := Posi.ofNat 0 0 0 },
       clusterCommand { blockId := "b", posFrom := Posi.ofNat 0 1 0, posTo := Posi.ofNat 0 1 0 }] ∧
    getCommands columnCube Plane.XY_Z =
      ["execute as @p at @s  run fill ~0 ~0 ~0 ~0 ~0 ~0 a replace",
       "execute as @p at @s  run fill ~0 ~0 ~0 ~0 ~0 ~0 a replace",
       "execute as @p at @s  run fill ~0 ~1 ~0 ~0 ~0 ~0 b replace",
       "execute as @p at @s  run fill ~0 ~1 ~0 ~0 ~1 ~0 b replace"] := by
  refine ⟨?_, ?_, ?_, ?_⟩ <;> decide

/-- C4 (as stated) fails: the 2x1x1 grid `["stone", "stone"]` under `XY_Z` yields two commands,
one covering `x = 0` and one covering `x = 1`, not one command covering `x` in `[0, 1]`. -/
theorem getCommands_stone_counterexample :
    getCommands (uniformCube 2 1 1 "stone") Plane.XY_Z =
      ["execute as @p at @s  run fill ~0 ~0 ~0 ~0 ~0 ~0 stone replace",
       "execute as @p at @s  run fill ~1 ~0 ~0 ~1 ~0 ~0 stone replace"] ∧
    (getCommands (uniformCube 2 1 1 "stone") Plane.XY_Z).length ≠ 1 := by
  constructor <;> decide

/-- C4 (amended): for every grid row (fixed `y`, `z`) of width at least 2 whose cells all hold
the same block id, `getCommands` under `XY_Z` emits exactly two commands for that row: the
first spans `x` from `0` to `width - 2` inclusive and the second covers `x = width - 1`
alone, both with that block id. -/
theorem rowCommands_uniform (blocks : BlockCube) (y z : Nat) (id : String)
    (hw : 2 ≤ blocks.x) (hrow : ∀ x, x < blocks.x → blocks.blockIds x y z = id) :
    rowCommands blocks Plane.XY_Z y z =
      [clusterCommand { blockId := id, posFrom := Posi.ofNat 0 y z,
                        posTo := Posi.ofNat (blocks.x - 2) y z },
       clusterCommand { blockId := id, posFrom := Posi.ofNat (blocks.x - 1) y z,
                        posTo := Posi.ofNat (blocks.x - 1) y z }] := by
  obtain ⟨n, hn⟩ : ∃ n, blocks.x = n + 2 := ⟨blocks.x - 2, by omega⟩
  have hpre := scan_uniform_prefix blocks Plane.XY_Z y z id hrow n (by omega)
  have hcell : blocks.blockIds (n + 1) y z = id := hrow (n + 1) (by omega)
  have hlast : ((n + 1 : Nat) : Int) = (blocks.x : Int) - 1 := by omega
  unfold rowCommands
  rw [show List.range blocks.x = List.range (n + 1) ++ [n + 1] by rw [hn, List.range_succ],
    List.foldl_append, hpre]
  simp only [List.foldl_cons, List.foldl_nil, scanStep, hlast, or_true, if_true,
    Function.iterate_succ, Function.iterate_zero, Function.comp_apply, id_eq, flushOnce,
    swapPlane, hcell, List.nil_append, List.cons_append]
  simp [hn]

/-- C4 (amended) at the 2x1x1 grid `["stone", "stone"]`: two commands, covering `x = 0` and
`x = 1`. -/
theorem rowCommands_uniform_witness :
    2 ≤ (uniformCube 2 1 1 "stone").x ∧
    (∀ x, x < (uniformCube 2 1 1 "stone").x →
      (uniformCube 2 1 1 "stone").blockIds x 0 0 = "stone") ∧
    rowCommands (uniformCube 2 1 1 "stone") Plane.XY_Z 0 0 =
      [clusterCommand { blockId := "stone", posFrom := Posi.ofNat 0 0 0,
                        posTo := Posi.ofNat ((uniformCube 2 1 1 "stone").x - 2) 0 0 },
       clusterCommand { blockId := "stone",
                        posFrom := Posi.ofNat ((uniformCube 2 1 1 "stone").x - 1) 0 0,
                        posTo := Posi.ofNat ((uniformCube 2 1 1 "stone").x - 1) 0 0 }] :=
  ⟨by decide, fun _ _ => rfl,
    rowCommands_uniform (uniformCube 2 1 1 "stone") 0 0 "stone" (by decide) (fun _ _ => rfl)⟩

/-- C5 (the code at plane `XZ_Y`): for the 2x2x1 grid of `"a"` the row `y = 1`, `z = 0` has
the run endpoints `(0, 1, 0)` and `(1, 1, 0)`; the origin corners are emitted permuted, as
`(0, 0, 1)` and `(1, 0, 1)`, while the opposite corners are emitted unpermuted, as
`(0, 1, 0)` and `(1, 1, 0)`. Under `ZY_X` the same row has both corners of each run
permuted. -/
theorem getCommands_XZ_Y_corners :
    rowCommands (uniformCube 2 2 1 "a") Plane.XZ_Y 1 0 =
      [clusterCommand { blockId := "a", posFrom := { x := 0, y := 0, z := 1 },
                        posTo := { x := 0, y := 1, z := 0 } },
       clusterCommand { blockId := "a", posFrom := { x := 1, y := 0, z := 1 },
                        posTo := { x := 1, y := 1, z := 0 } }] ∧
    getCommands (uniformCube 2 2 1 "a") Plane.XZ_Y =
      ["execute as @p at @s  run fill ~0 ~0 ~0 ~0 ~0 ~0 a replace",
       "execute as @p at @s  run fill ~1 ~0 ~0 ~1 ~0 ~0 a replace",
       "execute as @p at @s  run fill ~0 ~0 ~1 ~0 ~1 ~0 a replace",
       "execute as @p at @s  run fill ~1 ~0 ~1 ~1 ~1 ~0 a replace"] ∧
    rowCommands (uniformCube 2 2 1 "a") Plane.ZY_X 1 0 =
      [clusterCommand { blockId := "a", posFrom := { x := 0, y := 1, z := 0 },
                        posTo := { x := 0, y := 1, z := 0 } },
       clusterCommand { blockId := "a", posFrom := { x := 0, y := 1, z := 1 },
                        posTo := { x := 0, y := 1, z := 1 } }] := by
  refine ⟨?_, ?_, ?_⟩ <;> decide

/-! ## Structure encoder: lemmas -/

theorem foldl_flatMap_eq {α β γ : Type} (f : β → γ → β) (g : α → List γ) (l : List α) :
    ∀ b : β, (l.flatMap g).foldl f b = l.foldl (fun b a => (g a).foldl f b) b := by
  induction l with
  | nil => intro b; rfl
  | cons a l ih =>
    intro b
    simp only [List.flatMap_cons, List.foldl_append, List.foldl_cons, ih]

/-- The nested loops of `getMcstructure` are one pass over the logical traversal. -/
theorem encodeLoop_eq_foldl (blocks : BlockCube) (plane : Plane) (st : EncState) :
    encodeLoop blocks plane (planeDims blocks plane).1 (planeDims blocks plane).2.1
        (planeDims blocks plane).2.2 st =
      (logicalCells blocks plane).foldl encodeCell st := by
  unfold encodeLoop logicalCells
  rw [foldl_flatMap_eq]
  congr 1
  funext st x
  rw [foldl_flatMap_eq]
  congr 1
  funext st y
  rw [List.foldl_map]

theorem length_flatMap_range {α : Type} (g : Nat → List α) (b : Nat)
    (hlen : ∀ x, (g x).length = b) : ∀ a, ((List.range a).flatMap g).length = a * b := by
  intro a
  induction a with
  | zero => simp
  | succ a ih =>
    rw [List.range_succ, List.flatMap_append, List.length_append, ih]
    simp [hlen, Nat.succ_mul]

/-- Indexing into a concatenation of blocks of equal length. -/
theorem getElem?_flatMap_range {α : Type} (g : Nat → List α) (b : Nat)
    (hlen : ∀ x, (g x).length = b) :
    ∀ a x j, x < a → j < b → ((List.range a).flatMap g)[x * b + j]? = (g x)[j]? := by
  intro a
  induction a with
  | zero => intro x j hx; omega
  | succ a ih =>
    intro x j hx hj
    have hl := length_flatMap_range g b hlen a
    rw [List.range_succ, List.flatMap_append]
    by_cases hxa : x < a
    · have hlt : x * b + j < ((List.range a).flatMap g).length := by
        rw [hl]
        calc x * b + j < x * b + b := by omega
          _ = (x + 1) * b := by rw [Nat.succ_mul]
          _ ≤ a * b := Nat.mul_le_mul_right b hxa
      rw [List.getElem?_append_left hlt]
      exact ih x j hxa hj
    · have hxe : x = a := by omega
      subst hxe
      have hge : ((List.range x).flatMap g).length ≤ x * b + j := by rw [hl]; omega
      rw [List.getElem?_append_right hge, hl]
      simp

/-- The position of a logical coordinate in the logical traversal. -/
theorem logicalCells_getElem? (blocks : BlockCube) (plane : Plane) (x y z : Nat)
    (hx : x < (planeDims blocks plane).1) (hy : y < (planeDims blocks plane).2.1)
    (hz : z < (planeDims blocks plane).2.2) :
    (logicalCells blocks plane)[(x * (planeDims blocks plane).2.1 + y) *
        (planeDims blocks plane).2.2 + z]? = some (planeCell blocks plane x y z) := by
  have hinner : ∀ x y : Nat, ((List.range (planeDims blocks plane).2.2).map
      fun z => planeCell blocks plane x y z).length = (planeDims blocks plane).2.2 := by
    intro x y; simp
  have hmid : ∀ x : Nat, ((List.range (planeDims blocks plane).2.1).flatMap fun y =>
      (List.range (planeDims blocks plane).2.2).map fun z => planeCell blocks plane x y z).length
      = (planeDims blocks plane).2.1 * (planeDims blocks plane).2.2 := by
    intro x
    exact length_flatMap_range _ _ (hinner x) _
  have hyz : y * (planeDims blocks plane).2.2 + z <
      (planeDims blocks plane).2.1 * (planeDims blocks plane).2.2 := by
    calc y * (planeDims blocks plane).2.2 + z
        < y * (planeDims blocks plane).2.2 + (planeDims blocks plane).2.2 := by omega
      _ = (y + 1) * (planeDims blocks plane).2.2 := by rw [Nat.succ_mul]
      _ ≤ (planeDims blocks plane).2.1 * (planeDims blocks plane).2.2 :=
        Nat.mul_le_mul_right _ hy
  have hidx : (x * (planeDims blocks plane).2.1 + y) * (planeDims blocks plane).2.2 + z =
      x * ((planeDims blocks plane).2.1 * (planeDims blocks plane).2.2) +
        (y * (planeDims blocks plane).2.2 + z) := by ring
  unfold logicalCells
  rw [hidx, getElem?_flatMap_range _ _ hmid _ x _ hx hyz,
    getElem?_flatMap_range _ _ (hinner x) _ y z hy hz]
  simp [hz]

theorem encInv_init :
    EncInv [] { map := [], index := 0, data1 := [], data2 := [], blockPalette := [] } where
  index_eq := rfl
  lookup_iff := by intro s i; simp
  mem_iff := by intro s; simp
  order := by simp
  data1_eq := rfl

/-- The loop invariant survives a cell whose id is not yet in the table. -/
theorem encInv_step_new (cs : List String) (st : EncState) (s : String) (h : EncInv cs st)
    (hlook : st.map.lookup s = none) : EncInv (cs ++ [s]) (encodeCell st s) := by
  have hnot : s ∉ (st.blockPalette.map fun b => b.name) := by
    intro hmem
    have hget := List.indexOf_get? hmem
    rw [List.get?_eq_getElem?] at hget
    have := (h.lookup_iff s _).mpr hget
    rw [hlook] at this
    exact absurd this (by simp)
  have hnotcs : s ∉ cs := fun hmem => hnot ((h.mem_iff s).mpr hmem)
  have hlen : (st.blockPalette.map fun b => b.name).length = st.index := by
    rw [h.index_eq]; simp
  have hstep : encodeCell st s =
      { map := (s, st.index) :: st.map, index := st.index + 1, data1 := st.data1 ++ [st.index],
        data2 := st.data2 ++ [-1],
        blockPalette := st.blockPalette ++ [{ version := 18103297, name := s }] } := by
    simp [encodeCell, hlook]
  rw [hstep]
  refine ⟨?_, ?_, ?_, ?_, ?_⟩
  · simp [h.index_eq]
  · intro t i
    simp only [List.map_append, List.map_cons, List.map_nil]
    by_cases hts : t = s
    · subst hts
      simp only [List.lookup_cons, beq_self_eq_true]
      constructor
      · intro hi
        have hi' : i = st.index := by simpa using hi.symm
        subst hi'
        rw [List.getElem?_append_right (by omega), hlen]
        simp
      · intro hi
        by_cases hlt : i < (st.blockPalette.map fun b => b.name).length
        · rw [List.getElem?_append_left hlt] at hi
          exact absurd (List.getElem?_mem hi) hnot
        · have hge : (st.blockPalette.map fun b => b.name).length ≤ i := by omega
          rw [List.getElem?_append_right hge] at hi
          have hi0 : i - (st.blockPalette.map fun b => b.name).length = 0 := by
            by_contra hne
            obtain ⟨k, hk⟩ : ∃ k, i - (st.blockPalette.map fun b => b.name).length = k + 1 :=
              ⟨_, (Nat.succ_pred_eq_of_ne_zero hne).symm⟩
            rw [hk] at hi
            simp at hi
          congr 1
          omega
    · have hne : (t == s) = false := by simpa using hts
      simp only [List.lookup_cons, hne]
      rw [h.lookup_iff t i]
      constructor
      · intro hi
        have hlt : i < (st.blockPalette.map fun b => b.name).length :=
          (List.getElem?_eq_some.mp hi).1
        rw [List.getElem?_append_left hlt]
        exact hi
      · intro hi
        by_cases hlt : i < (st.blockPalette.map fun b => b.name).length
        · rw [List.getElem?_append_left hlt] at hi
          exact hi
        · have hge : (st.blockPalette.map fun b => b.name).length ≤ i := by omega
          rw [List.getElem?_append_right hge] at hi
          have hmem := List.getElem?_mem hi
          simp only [List.mem_singleton] at hmem
          exact absurd hmem hts
  · intro t
    simp only [List.map_append, List.map_cons, List.map_nil, List.mem_append,
      List.mem_singleton, h.mem_iff t]
  · simp only [List.map_append, List.map_cons, List.map_nil]
    rw [List.pairwise_append]
    refine ⟨?_, List.pairwise_singleton _ _, ?_⟩
    · refine h.order.imp_of_mem ?_
      intro a b ha hb hab
      rw [List.indexOf_append_of_mem ((h.mem_iff a).mp ha),
        List.indexOf_append_of_mem ((h.mem_iff b).mp hb)]
      exact hab
    · intro a ha b hb
      have hb' : b = s := by simpa using hb
      subst hb'
      rw [List.indexOf_append_of_mem ((h.mem_iff a).mp ha),
        List.indexOf_append_of_not_mem hnotcs]
      have := List.indexOf_lt_length.mpr ((h.mem_iff a).mp ha)
      omega
  · simp only [List.map_append, List.map_cons, List.map_nil]
    rw [h.data1_eq]
    congr 1
    · apply List.map_congr_left
      intro c hc
      rw [List.indexOf_append_of_mem ((h.mem_iff c).mpr hc)]
    · rw [List.indexOf_append_of_not_mem hnot, hlen]
      simp

/-- The loop invariant survives a cell whose id is already in the table. -/
theorem encInv_step_old (cs : List String) (st : EncState) (s : String) (i : Nat)
    (h : EncInv cs st) (hlook : st.map.lookup s = some i) :
    EncInv (cs ++ [s]) (encodeCell st s) := by
  have hget : (st.blockPalette.map fun b => b.name)[i]? = some s := (h.lookup_iff s i).mp hlook
  have hmem : s ∈ (st.blockPalette.map fun b => b.name) := List.getElem?_mem hget
  have hmemcs : s ∈ cs := (h.mem_iff s).mp hmem
  have hidx : (st.blockPalette.map fun b => b.name).indexOf s = i := by
    have hget' := List.indexOf_get? hmem
    rw [List.get?_eq_getElem?] at hget'
    have h1 := (h.lookup_iff s _).mpr hget'
    rw [hlook] at h1
    exact (Option.some.inj h1).symm
  have hstep : encodeCell st s =
      { st with data1 := st.data1 ++ [i], data2 := st.data2 ++ [-1] } := by
    simp [encodeCell, hlook]
  rw [hstep]
  refine ⟨h.index_eq, h.lookup_iff, ?_, ?_, ?_⟩
  · intro t
    simp only [List.mem_append, List.mem_singleton, h.mem_iff t]
    constructor
    · exact Or.inl
    · rintro (ht | rfl)
      · exact ht
      · exact hmemcs
  · refine h.order.imp_of_mem ?_
    intro a b ha hb hab
    rw [List.indexOf_append_of_mem ((h.mem_iff a).mp ha),
      List.indexOf_append_of_mem ((h.mem_iff b).mp hb)]
    exact hab
  · simp only [List.map_append, List.map_cons, List.map_nil]
    rw [h.data1_eq, hidx]

theorem encInv_step (cs : List String) (st : EncState) (s : String) (h : EncInv cs st) :
    EncInv (cs ++ [s]) (encodeCell st s) := by
  cases hlook : st.map.lookup s with
  | none => exact encInv_step_new cs st s h hlook
  | some i => exact encInv_step_old cs st s i h hlook

theorem encInv_foldl (l : List String) :
    ∀ (cs : List String) (st : EncState), EncInv cs st →
      EncInv (cs ++ l) (l.foldl encodeCell st) := by
  induction l with
  | nil => intro cs st h; simpa using h
  | cons s l ih =>
    intro cs st h
    have := ih (cs ++ [s]) (encodeCell st s) (encInv_step cs st s h)
    simpa using this

/-- The loop invariant holds for the state from which `getMcstructure` builds its result. -/
theorem encInv_getMcstructure (blocks : BlockCube) (plane : Plane) :
    EncInv (logicalCells blocks plane)
      (encodeLoop blocks plane (planeDims blocks plane).1 (planeDims blocks plane).2.1
        (planeDims blocks plane).2.2
        { map := [], index := 0, data1 := [], data2 := [], blockPalette := [] }) := by
  rw [encodeLoop_eq_foldl]
  simpa using encInv_foldl (logicalCells blocks plane) [] _ encInv_init

/-! ## Structure encoder: results -/

/-- C6: for every plane and grid, decoding the primary index array of `getMcstructure` through
its block palette reproduces the grid: with `[xs, ys, zs]` the emitted size, for every logical
coordinate `x < xs`, `y < ys`, `z < zs` the palette entry named by the index at position
`(x * ys + y) * zs + z` is the block id of the grid cell the plane maps `(x, y, z)` to
(`grid[x][y][z]` for `XY_Z`, `grid[z][y][x]` for `ZY_X`, `grid[x][z][y]` for `XZ_Y`), and
under `XY_Z` the logical dimensions are the grid's own. -/
theorem getMcstructure_decode (blocks : BlockCube) (plane : Plane) (xs ys zs x y z : Nat)
    (hsize : (getMcstructure blocks plane).size = [(xs : Int), (ys : Int), (zs : Int)])
    (hx : x < xs) (hy : y < ys) (hz : z < zs) :
    (∃ i b, (getMcstructure blocks plane).data1[(x * ys + y) * zs + z]? = some i ∧
      (getMcstructure blocks plane).blockPalette[i]? = some b ∧
      b.name = (match plane with
        | .XY_Z => blocks.blockIds x y z
        | .ZY_X => blocks.blockIds z y x
        | .XZ_Y => blocks.blockIds x z y)) ∧
    (plane = Plane.XY_Z → xs = blocks.x ∧ ys = blocks.y ∧ zs = blocks.z) := by
  have hdims : (planeDims blocks plane).1 = xs ∧ (planeDims blocks plane).2.1 = ys ∧
      (planeDims blocks plane).2.2 = zs := by
    simp only [getMcstructure, List.cons.injEq, Nat.cast_inj, and_true] at hsize
    exact hsize
  obtain ⟨h1, h2, h3⟩ := hdims
  have hinv := encInv_getMcstructure blocks plane
  have hcell := logicalCells_getElem? blocks plane x y z (by omega) (by omega) (by omega)
  rw [h2, h3] at hcell
  have hmemc : planeCell blocks plane x y z ∈ logicalCells blocks plane :=
    List.getElem?_mem hcell
  have hmemn := (hinv.mem_iff _).mpr hmemc
  have hname := List.indexOf_get? hmemn
  rw [List.get?_eq_getElem?, List.getElem?_map] at hname
  constructor
  · obtain ⟨b, hb, hbn⟩ := Option.map_eq_some'.mp hname
    refine ⟨_, b, ?_, hb, ?_⟩
    · show (encodeLoop blocks plane _ _ _ _).data1[_]? = _
      rw [hinv.data1_eq, List.getElem?_map, hcell]
      rfl
    · rw [hbn]
      cases plane <;> rfl
  · intro hp
    subst hp
    exact ⟨h1.symm, h2.symm, h3.symm⟩

/-- C6 at the 2x2x3 sample grid under `ZY_X` (logical size 3x2x2) and the logical coordinate
`(2, 1, 0)`. -/
theorem getMcstructure_decode_witness :
    (getMcstructure sampleCube Plane.ZY_X).size = [((3 : Nat) : Int), ((2 : Nat) : Int),
      ((2 : Nat) : Int)] ∧ 2 < 3 ∧ 1 < 2 ∧ 0 < 2 ∧
    ((∃ i b, (getMcstructure sampleCube Plane.ZY_X).data1[(2 * 2 + 1) * 2 + 0]? = some i ∧
      (getMcstructure sampleCube Plane.ZY_X).blockPalette[i]? = some b ∧
      b.name = sampleCube.blockIds 0 1 2) ∧
    (Plane.ZY_X = Plane.XY_Z → 3 = sampleCube.x ∧ 2 = sampleCube.y ∧ 2 = sampleCube.z)) :=
  ⟨by decide, by decide, by decide, by decide,
    getMcstructure_decode sampleCube Plane.ZY_X 3 2 2 2 1 0 (by decide) (by decide) (by decide)
      (by decide)⟩

/-- C7: for every plane and grid the block palette emitted by `getMcstructure` contains no
block id twice, holds exactly the block ids of the grid's logical traversal (x outer, y middle,
z inner), lists them in the order of their first occurrence in that traversal, and the primary
array holds for every cell the position of its id in the palette (so the ids are numbered
0, 1, 2, ... in first-seen order); a 1x1x1 grid holding `"air"` yields the palette `["air"]`
and the primary array `[0]`. -/
theorem getMcstructure_palette (blocks : BlockCube) (plane : Plane) :
    (paletteNames (getMcstructure blocks plane)).Nodup ∧
    (∀ s, s ∈ paletteNames (getMcstructure blocks plane) ↔ s ∈ logicalCells blocks plane) ∧
    (paletteNames (getMcstructure blocks plane)).Pairwise
      (fun a b => (logicalCells blocks plane).indexOf a < (logicalCells blocks plane).indexOf b) ∧
    (getMcstructure blocks plane).data1 =
      (logicalCells blocks plane).map
        (fun s => (paletteNames (getMcstructure blocks plane)).indexOf s) ∧
    paletteNames (getMcstructure (uniformCube 1 1 1 "air") plane) = ["air"] ∧
    (getMcstructure (uniformCube 1 1 1 "air") plane).data1 = [0] := by
  have hinv := encInv_getMcstructure blocks plane
  refine ⟨?_, hinv.mem_iff, hinv.order, hinv.data1_eq, ?_, ?_⟩
  · refine hinv.order.imp ?_
    intro a b hab heq
    rw [heq] at hab
    exact absurd hab (lt_irrefl _)
  · cases plane <;> decide
  · cases plane <;> decide

/-! ## Pack assembler: lemmas -/

theorem packInv_init : PackInv [] { count := 0, index := 0, files := fun _ => [] } where
  start := fun _ => ⟨rfl, rfl⟩
  count_nonneg := le_refl 0
  concat := by simp
  beyond := fun _ _ => rfl
  used := fun h => absurd rfl h

/-- Appending to the file of the current index keeps the invariant. -/
theorem packInv_step_same (m : Int) (cs : List String) (st : PackState) (var : String)
    (h : PackInv cs st) (hle : ¬ st.count + 1 > m) :
    PackInv (cs ++ [var]) (packStep m st var) := by
  have hstep : packStep m st var =
      { count := st.count + 1, index := st.index,
        files := fun i => if i = st.index then st.files i ++ [var] else st.files i } := by
    simp [packStep, hle]
  rw [hstep]
  refine ⟨by simp, ?_, ?_, ?_, ?_⟩
  · have := h.count_nonneg
    show (0 : Int) ≤ st.count + 1
    omega
  · show (List.range (st.index + 1)).flatMap _ = _
    rw [List.range_succ, List.flatMap_append, ← h.concat, List.range_succ, List.flatMap_append]
    simp only [List.flatMap_cons, List.flatMap_nil, List.append_nil, if_true, List.append_assoc]
    congr 1
    apply List.flatMap_congr
    intro i hi
    have : i ≠ st.index := by
      have := List.mem_range.mp hi
      omega
    simp [this]
  · intro i hi
    have : i ≠ st.index := by
      have : st.index < i := hi
      omega
    simp only [this, if_false]
    exact h.beyond i hi
  · intro _ i hi
    show (if i = st.index then st.files i ++ [var] else st.files i) ≠ []
    by_cases hieq : i = st.index
    · simp [hieq]
    · simp only [hieq, if_false]
      have hcs : cs ≠ [] := by
        intro hnil
        have := (h.start hnil).2
        have : i ≤ st.index := hi
        omega
      exact h.used hcs i hi

/-- Moving on to the next index keeps the invariant, provided some command was written
before. -/
theorem packInv_step_next (m : Int) (cs : List String) (st : PackState) (var : String)
    (h : PackInv cs st) (hcs : cs ≠ []) (hgt : st.count + 1 > m) :
    PackInv (cs ++ [var]) (packStep m st var) := by
  have hstep : packStep m st var =
      { count := 0, index := st.index + 1,
        files := fun i => if i = st.index + 1 then st.files i ++ [var] else st.files i } := by
    simp [packStep, hgt]
  rw [hstep]
  refine ⟨by simp, le_refl 0, ?_, ?_, ?_⟩
  · show (List.range (st.index + 1 + 1)).flatMap _ = _
    rw [List.range_succ, List.flatMap_append, ← h.concat]
    simp only [List.flatMap_cons, List.flatMap_nil, List.append_nil, if_true]
    rw [h.beyond (st.index + 1) (by omega), List.nil_append]
    congr 1
    apply List.flatMap_congr
    intro i hi
    have : i ≠ st.index + 1 := by
      have := List.mem_range.mp hi
      omega
    simp [this]
  · intro i hi
    have hi' : st.index + 1 < i := hi
    have : i ≠ st.index + 1 := by omega
    simp only [this, if_false]
    exact h.beyond i (by omega)
  · intro _ i hi
    have hi' : i ≤ st.index + 1 := hi
    show (if i = st.index + 1 then st.files i ++ [var] else st.files i) ≠ []
    by_cases hieq : i = st.index + 1
    · simp [hieq]
    · simp only [hieq, if_false]
      exact h.used hcs i (by omega)

theorem packInv_step (m : Int) (hm : 1 ≤ m) (cs : List String) (st : PackState) (var : String)
    (h : PackInv cs st) : PackInv (cs ++ [var]) (packStep m st var) := by
  by_cases hgt : st.count + 1 > m
  · refine packInv_step_next m cs st var h ?_ hgt
    intro hnil
    have := (h.start hnil).1
    omega
  · exact packInv_step_same m cs st var h hgt

theorem packInv_foldl (m : Int) (hm : 1 ≤ m) (l : List String) :
    ∀ (cs : List String) (st : PackState), PackInv cs st →
      PackInv (cs ++ l) (l.foldl (packStep m) st) := by
  induction l with
  | nil => intro cs st h; simpa using h
  | cons var l ih =>
    intro cs st h
    have := ih (cs ++ [var]) (packStep m st var) (packInv_step m hm cs st var h)
    simpa using this

/-! ## Pack assembler: results -/

set_option maxRecDepth 100000

/-- C8 (the code at three commands and `maxCommandCount = 1`): the chunk file `d0` gets one
command and the last chunk file `d1` gets two, more than `maxCommandCount`. -/
theorem makeFunctionPack_chunk_overfull :
    (packLoop ["c0", "c1", "c2"] 1).index = 1 ∧
    (packLoop ["c0", "c1", "c2"] 1).files 0 = ["c0"] ∧
    (packLoop ["c0", "c1", "c2"] 1).files 1 = ["c1", "c2"] ∧
    ¬ (((packLoop ["c0", "c1", "c2"] 1).files 1).length ≤ 1) := by
  refine ⟨?_, ?_, ?_, ?_⟩ <;> decide

/-- C9 (the code at 25 commands and `maxCommandCount = 10`): the chunk files `d0`, `d1`, `d2`
get 10, 11 and 4 commands, `d1` holding the commands at positions 10 to 20 and `d2` those at
positions 21 to 24. -/
theorem makeFunctionPack_chunks_25_10 :
    (packLoop (numberedCommands 25) 10).index = 2 ∧
    (List.range 4).map (fun i => ((packLoop (numberedCommands 25) 10).files i).length) =
      [10, 11, 4, 0] ∧
    (packLoop (numberedCommands 25) 10).files 1 =
      ["c10", "c11", "c12", "c13", "c14", "c15", "c16", "c17", "c18", "c19", "c20"] ∧
    (packLoop (numberedCommands 25) 10).files 2 = ["c21", "c22", "c23", "c24"] := by
  refine ⟨?_, ?_, ?_, ?_⟩ <;> decide

/-- C10: for every command sequence and every `maxCommandCount >= 1`, the chunk files written
by `makeFunctionPack` are exactly those with the indices `0, ..., index` (none when there is no
command), and concatenating their commands in index order reproduces the original command
sequence. -/
theorem makeFunctionPack_chunks_concat (commands : List String) (maxCommandCount : Int)
    (hm : 1 ≤ maxCommandCount) :
    (∀ i, (packLoop commands maxCommandCount).files i ≠ [] ↔
      (commands ≠ [] ∧ i ≤ (packLoop commands maxCommandCount).index)) ∧
    (List.range ((packLoop commands maxCommandCount).index + 1)).flatMap
      (packLoop commands maxCommandCount).files = commands := by
  have hinv : PackInv commands (packLoop commands maxCommandCount) := by
    have := packInv_foldl maxCommandCount hm commands [] _ packInv_init
    simpa [packLoop] using this
  refine ⟨?_, hinv.concat⟩
  intro i
  constructor
  · intro hne
    have hidx : i ≤ (packLoop commands maxCommandCount).index := by
      by_contra hlt
      exact hne (hinv.beyond i (by omega))
    refine ⟨?_, hidx⟩
    intro hnil
    have hc := hinv.concat.trans hnil
    have hmem : (packLoop commands maxCommandCount).files i ⊆ [] := by
      rw [← hc]
      intro c hcm
      exact List.mem_flatMap.mpr ⟨i, List.mem_range.mpr (by omega), hcm⟩
    exact hne (List.eq_nil_of_subset_nil hmem)
  · rintro ⟨hne, hidx⟩
    exact hinv.used hne i hidx

/-- C10 at 25 commands and `maxCommandCount = 10`. -/
theorem makeFunctionPack_chunks_concat_witness :
    (1 : Int) ≤ 10 ∧
    (∀ i, (packLoop (numberedCommands 25) 10).files i ≠ [] ↔
      (numberedCommands 25 ≠ [] ∧ i ≤ (packLoop (numberedCommands 25) 10).index)) ∧
    (List.range ((packLoop (numberedCommands 25) 10).index + 1)).flatMap
      (packLoop (numberedCommands 25) 10).files = numberedCommands 25 :=
  ⟨by decide, makeFunctionPack_chunks_concat (numberedCommands 25) 10 (by decide)⟩

/-! ## Voxelizer: lemmas -/

theorem foldlM_eq_some_foldl {α β : Type} (f : β → α → Option β) (g : β → α → β)
    (h : ∀ b a, f b a = some (g b a)) :
    ∀ (l : List α) (b : β), l.foldlM f b = some (l.foldl g b) := by
  intro l
  induction l with
  | nil => intro b; rfl
  | cons a l ih =>
    intro b
    simp only [List.foldlM_cons, List.foldl_cons, h b a, Option.bind_eq_bind, Option.some_bind, ih]

/-- With a non-empty palette the loop body of `getBlocks` succeeds at every pixel. -/
theorem getBlocksPixel_eq (img : Mat) (modis : BIModis) (hne : modis ≠ []) (result : BlockCube)
    (row col : Nat) :
    getBlocksPixel img modis result row col =
      some (result.set col (img.rows - 1 - row) 0 (nearestId (bgrToRgb (img.pixel row col)) modis)) := by
  obtain ⟨j, e, _, _, hres, _, _⟩ := rgbNearest_spec (bgrToRgb (img.pixel row col)) modis 0 hne
  simp [getBlocksPixel, nearestId, hres]

/-- With a non-empty palette the block id stored for a colour is that of the entry
`rgbNearest` returns, an entry of the palette. -/
theorem nearestId_spec (rgb : Rgb) (modis : BIModis) (hne : modis ≠ []) :
    ∃ e, rgbNearest rgb modis 0 = some e ∧ e ∈ modis ∧ nearestId rgb modis = e.blockId := by
  obtain ⟨j, e, hj, _, hres, _, _⟩ := rgbNearest_spec rgb modis 0 hne
  exact ⟨e, hres, List.getElem?_mem hj, by simp [nearestId, hres]⟩

/-- A run of cell assignments leaves the dimensions of a grid as they are. -/
theorem foldl_set_dims {α : Type} (key : α → Nat × Nat × Nat) (val : α → String) :
    ∀ (l : List α) (init : BlockCube),
      (l.foldl (fun res b => res.set (key b).1 (key b).2.1 (key b).2.2 (val b)) init).x = init.x ∧
      (l.foldl (fun res b => res.set (key b).1 (key b).2.1 (key b).2.2 (val b)) init).y = init.y ∧
      (l.foldl (fun res b => res.set (key b).1 (key b).2.1 (key b).2.2 (val b)) init).z = init.z := by
  intro l
  induction l with
  | nil => intro init; exact ⟨rfl, rfl, rfl⟩
  | cons b l ih =>
    intro init
    simpa [BlockCube.set] using ih (init.set (key b).1 (key b).2.1 (key b).2.2 (val b))

/-- After a run of cell assignments a cell holds the value assigned for `a`, provided every
assignment to the same cell assigns that value and `a` is among the assignments. -/
theorem foldl_set_cell {α : Type} (key : α → Nat × Nat × Nat) (val : α → String) (a : α) :
    ∀ (l : List α) (init : BlockCube),
      (∀ b ∈ l, key b = key a → val b = val a) →
      (a ∈ l ∨ init.blockIds (key a).1 (key a).2.1 (key a).2.2 = val a) →
      (l.foldl (fun res b => res.set (key b).1 (key b).2.1 (key b).2.2 (val b)) init).blockIds
        (key a).1 (key a).2.1 (key a).2.2 = val a := by
  intro l
  induction l with
  | nil =>
    intro init _ h
    rcases h with h | h
    · exact absurd h (List.not_mem_nil a)
    · exact h
  | cons b l ih =>
    intro init hsame h
    rw [List.foldl_cons]
    apply ih
    · intro c hc
      exact hsame c (List.mem_cons_of_mem b hc)
    · by_cases hmem : a ∈ l
      · exact Or.inl hmem
      · right
        by_cases hk : key b = key a
        · have hv := hsame b (List.mem_cons_self b l) hk
          simp [BlockCube.set, hk, hv]
        · have hinit : init.blockIds (key a).1 (key a).2.1 (key a).2.2 = val a := by
            rcases h with h | h
            · rcases List.mem_cons.mp h with rfl | h
              · exact absurd rfl hk
              · exact absurd h hmem
            · exact h
          have hne : ¬ ((key a).1 = (key b).1 ∧ (key a).2.1 = (key b).2.1 ∧
              (key a).2.2 = (key b).2.2) := by
            rintro ⟨h1, h2, h3⟩
            exact hk (Prod.ext h1.symm (Prod.ext h2.symm h3.symm))
          simp [BlockCube.set, hne, hinit]

theorem mem_pixelOrder (rows cols row col : Nat) :
    (row, col) ∈ pixelOrder rows cols ↔ row < rows ∧ col < cols := by
  simp [pixelOrder, List.mem_flatMap, List.mem_map, List.mem_range]

/-- With a non-empty palette `getBlocks` runs to its end, and its result is the grid obtained
by the cell assignments of all pixels of the mirrored image in loop order. -/
theorem getBlocksScaled_eq (img : Mat) (modis : BIModis) (hne : modis ≠ []) :
    getBlocksScaled img modis =
      some ((pixelOrder img.rows img.cols).foldl
        (fun res p => res.set p.2 (img.rows - 1 - p.1) 0
          (nearestId (bgrToRgb ((flipHorizontal img).pixel p.1 p.2)) modis))
        (BlockCube.new img.cols img.rows 1)) := by
  unfold getBlocksScaled pixelOrder
  rw [foldl_flatMap_eq]
  simp only [List.foldl_map]
  apply foldlM_eq_some_foldl
  intro result row
  apply foldlM_eq_some_foldl
  intro result col
  exact getBlocksPixel_eq (flipHorizontal img) modis hne result row col

/-- The cells of the grid `getBlocks` returns, for a non-empty palette. -/
theorem getBlocksScaled_cells (img : Mat) (modis : BIModis) (hne : modis ≠ []) :
    ∃ grid, getBlocksScaled img modis = some grid ∧
      grid.x = img.cols ∧ grid.y = img.rows ∧ grid.z = 1 ∧
      ∀ row col, row < img.rows → col < img.cols →
        grid.blockIds col (img.rows - 1 - row) 0 =
          nearestId (bgrToRgb (img.pixel row (img.cols - 1 - col))) modis := by
  refine ⟨_, getBlocksScaled_eq img modis hne, ?_, ?_, ?_, ?_⟩
  · exact (foldl_set_dims (fun p : Nat × Nat => (p.2, img.rows - 1 - p.1, 0)) _ _ _).1
  · exact (foldl_set_dims (fun p : Nat × Nat => (p.2, img.rows - 1 - p.1, 0)) _ _ _).2.1
  · exact (foldl_set_dims (fun p : Nat × Nat => (p.2, img.rows - 1 - p.1, 0)) _ _ _).2.2
  · intro row col hrow hcol
    have h := foldl_set_cell (fun p : Nat × Nat => (p.2, img.rows - 1 - p.1, 0))
      (fun p => nearestId (bgrToRgb ((flipHorizontal img).pixel p.1 p.2)) modis) (row, col)
      (pixelOrder img.rows img.cols) (BlockCube.new img.cols img.rows 1) ?_ ?_
    · exact h
    · rintro ⟨r, c⟩ hmem hkey
      have hr := ((mem_pixelOrder _ _ r c).mp hmem).1
      simp only [Prod.mk.injEq, and_true] at hkey
      obtain ⟨hc, hrr⟩ := hkey
      have : r = row := by omega
      subst this
      subst hc
      rfl
    · exact Or.inl ((mem_pixelOrder _ _ row col).mpr ⟨hrow, hcol⟩)

/-! ## Voxelizer: results -/

/-- C11: for every image of width `w` and height `h` (as resizing left it) and every non-empty
palette, the image `getBlocks` returns a grid of dimensions `(w, h, 1)` in which, for every row
`r < h` and column `c < w`, cell `(c, h-1-r, 0)` holds the block id of `rgbNearest` applied to
the pixel at row `r`, column `c` of the horizontally mirrored image, that is, row `r`, column
`w-1-c` of the original. -/
theorem getBlocks_cells (img : Mat) (modis : BIModis) (hne : modis ≠ []) :
    ∃ grid, getBlocksScaled img modis = some grid ∧
      grid.x = img.cols ∧ grid.y = img.rows ∧ grid.z = 1 ∧
      ∀ r c, r < img.rows → c < img.cols →
        (flipHorizontal img).pixel r c = img.pixel r (img.cols - 1 - c) ∧
        ∃ e, rgbNearest (bgrToRgb (img.pixel r (img.cols - 1 - c))) modis 0 = some e ∧
          grid.blockIds c (img.rows - 1 - r) 0 = e.blockId := by
  obtain ⟨grid, hgrid, hx, hy, hz, hcells⟩ := getBlocksScaled_cells img modis hne
  refine ⟨grid, hgrid, hx, hy, hz, ?_⟩
  intro r c hr hc
  obtain ⟨e, he, _, hid⟩ := nearestId_spec (bgrToRgb (img.pixel r (img.cols - 1 - c))) modis hne
  exact ⟨rfl, e, he, by rw [hcells r c hr hc, hid]⟩

/-- C11 at the 2x3 sample image and the three-entry sample palette. -/
theorem getBlocks_cells_witness :
    samplePalette ≠ [] ∧
    ∃ grid, getBlocksScaled sampleImage samplePalette = some grid ∧
      grid.x = sampleImage.cols ∧ grid.y = sampleImage.rows ∧ grid.z = 1 ∧
      ∀ r c, r < sampleImage.rows → c < sampleImage.cols →
        (flipHorizontal sampleImage).pixel r c =
          sampleImage.pixel r (sampleImage.cols - 1 - c) ∧
        ∃ e, rgbNearest (bgrToRgb (sampleImage.pixel r (sampleImage.cols - 1 - c)))
            samplePalette 0 = some e ∧
          grid.blockIds c (sampleImage.rows - 1 - r) 0 = e.blockId :=
  ⟨by simp [samplePalette], getBlocks_cells sampleImage samplePalette (by simp [samplePalette])⟩

/-- C12: for every image and every non-empty palette, every cell of the grid returned by
`getBlocks` holds the `blockId` of some entry of the palette used to build it. -/
theorem getBlocks_cells_in_palette (img : Mat) (modis : BIModis) (hne : modis ≠ []) :
    ∃ grid, getBlocksScaled img modis = some grid ∧
      ∀ x y z, x < grid.x → y < grid.y → z < grid.z →
        ∃ e, e ∈ modis ∧ grid.blockIds x y z = e.blockId := by
  obtain ⟨grid, hgrid, hx, hy, hz, hcells⟩ := getBlocksScaled_cells img modis hne
  refine ⟨grid, hgrid, ?_⟩
  intro x y z hxlt hylt hzlt
  have hz0 : z = 0 := by omega
  subst hz0
  have hcell := hcells (img.rows - 1 - y) x (by omega) (by omega)
  have hyy : img.rows - 1 - (img.rows - 1 - y) = y := by omega
  rw [hyy] at hcell
  obtain ⟨e, _, hmem, hid⟩ :=
    nearestId_spec (bgrToRgb (img.pixel (img.rows - 1 - y) (img.cols - 1 - x))) modis hne
  exact ⟨e, hmem, by rw [hcell, hid]⟩

/-- C12 at the 2x3 sample image and the three-entry sample palette. -/
theorem getBlocks_cells_in_palette_witness :
    samplePalette ≠ [] ∧
    ∃ grid, getBlocksScaled sampleImage samplePalette = some grid ∧
      ∀ x y z, x < grid.x → y < grid.y → z < grid.z →
        ∃ e, e ∈ samplePalette ∧ grid.blockIds x y z = e.blockId :=
  ⟨by simp [samplePalette],
    getBlocks_cells_in_palette sampleImage samplePalette (by simp [samplePalette])⟩

/-- C13: `rgbNearest` called with an empty candidate list returns no entry (its assertion
fails; without assertions it returns `nullptr`), and `getBlocks` on an image with at least one
pixel and an empty palette does not produce a grid. -/
theorem getBlocks_empty_palette (rgb : Rgb) (type : Int) (img : Mat)
    (hrows : 0 < img.rows) (hcols : 0 < img.cols) :
    rgbNearestIdx rgb [] type = none ∧ rgbNearest rgb [] type = none ∧
      getBlocksScaled img [] = none := by
  refine ⟨rfl, rfl, ?_⟩
  obtain ⟨m, hm⟩ : ∃ m, img.rows = m + 1 := ⟨img.rows - 1, by omega⟩
  obtain ⟨n, hn⟩ : ∃ n, img.cols = n + 1 := ⟨img.cols - 1, by omega⟩
  have hpix : ∀ (im : Mat) (res : BlockCube) (row col : Nat),
      getBlocksPixel im [] res row col = none := fun _ _ _ _ => rfl
  simp only [getBlocksScaled, flipHorizontal, hm, hn, List.range_succ_eq_map, List.foldlM_cons,
    hpix, Option.bind_eq_bind, Option.none_bind]

/-- C13 at the 2x3 sample image. -/
theorem getBlocks_empty_palette_witness :
    0 < sampleImage.rows ∧ 0 < sampleImage.cols ∧
    rgbNearestIdx ⟨1, 2, 3⟩ [] 0 = none ∧ rgbNearest ⟨1, 2, 3⟩ [] 0 = none ∧
      getBlocksScaled sampleImage [] = none :=
  ⟨by decide, by decide, getBlocks_empty_palette ⟨1, 2, 3⟩ 0 sampleImage (by decide) (by decide)⟩

/-! ## Command encoder: ordering -/

/-- During the scan of a row under `XY_Z` the fills pushed so far all start in that row, none
to the right of the pending run, and they are pushed in the order of their starting columns. -/
theorem scan_starts_sorted (blocks : BlockCube) (y z : Nat) :
    ∀ n, ∃ (runs : List BlockCluster) (s : Nat),
      ((List.range n).foldl (scanStep blocks Plane.XY_Z y z) (scanInit blocks y z)).commands =
        runs.map clusterCommand ∧
      ((List.range n).foldl (scanStep blocks Plane.XY_Z y z)
        (scanInit blocks y z)).cluster.posFrom = Posi.ofNat s y z ∧
      s ≤ n ∧
      (∀ r ∈ runs, ∃ a, a ≤ s ∧ r.posFrom = Posi.ofNat a y z) ∧
      runs.Pairwise (fun r₁ r₂ => r₁.posFrom.x ≤ r₂.posFrom.x) := by
  intro n
  induction n with
  | zero => exact ⟨[], 0, rfl, rfl, le_refl 0, by simp, List.Pairwise.nil⟩
  | succ n ih =>
    obtain ⟨runs, s, hcmd, hfrom, hsn, hruns, hsorted⟩ := ih
    rw [List.range_succ, List.foldl_append]
    generalize (List.range n).foldl (scanStep blocks Plane.XY_Z y z) (scanInit blocks y z) = st
      at hcmd hfrom
    obtain ⟨cluster, commands⟩ := st
    simp only at hcmd hfrom
    have hpair : ∀ (extra : List BlockCluster),
        (∀ r ∈ extra, ∃ a, s ≤ a ∧ r.posFrom = Posi.ofNat a y z) →
        extra.Pairwise (fun r₁ r₂ => r₁.posFrom.x ≤ r₂.posFrom.x) →
        (runs ++ extra).Pairwise (fun r₁ r₂ => r₁.posFrom.x ≤ r₂.posFrom.x) := by
      intro extra hextra hp
      rw [List.pairwise_append]
      refine ⟨hsorted, hp, ?_⟩
      intro r₁ h₁ r₂ h₂
      obtain ⟨a, ha, hr₁⟩ := hruns r₁ h₁
      obtain ⟨b, hb, hr₂⟩ := hextra r₂ h₂
      rw [hr₁, hr₂]
      simp only [Posi.ofNat]
      omega
    by_cases hcond : blocks.blockIds n y z ≠ cluster.blockId ∨ (n : Int) = (blocks.x : Int) - 1
    · by_cases hlast : (n : Int) = (blocks.x : Int) - 1
      · refine ⟨runs ++ [cluster,
            { blockId := blocks.blockIds n y z, posFrom := Posi.ofNat n y z,
              posTo := Posi.ofNat n y z }], n, ?_, ?_, by omega, ?_, ?_⟩
        · simp [scanStep, hlast, flushOnce, swapPlane, hcmd]
        · simp [scanStep, hlast, flushOnce, swapPlane]
        · intro r hr
          rcases List.mem_append.mp hr with hr | hr
          · obtain ⟨a, ha, hra⟩ := hruns r hr
            exact ⟨a, by omega, hra⟩
          · simp only [List.mem_cons, List.mem_singleton, List.not_mem_nil, or_false] at hr
            rcases hr with rfl | rfl
            · exact ⟨s, hsn, hfrom⟩
            · exact ⟨n, le_refl n, rfl⟩
        · apply hpair
          · intro r hr
            simp only [List.mem_cons, List.mem_singleton, List.not_mem_nil, or_false] at hr
            rcases hr with rfl | rfl
            · exact ⟨s, le_refl s, hfrom⟩
            · exact ⟨n, hsn, rfl⟩
          · simp only [List.pairwise_cons, List.mem_singleton, forall_eq, List.not_mem_nil,
              false_implies, implies_true, List.Pairwise.nil, and_true, hfrom, Posi.ofNat]
            omega
      · have hne : ¬ blocks.blockIds n y z = cluster.blockId := by
          rcases hcond with h | h
          · exact h
          · exact absurd h hlast
        refine ⟨runs ++ [cluster], n, ?_, ?_, by omega, ?_, ?_⟩
        · simp [scanStep, hne, hlast, flushOnce, swapPlane, hcmd]
        · simp [scanStep, hne, hlast, flushOnce, swapPlane]
        · intro r hr
          rcases List.mem_append.mp hr with hr | hr
          · obtain ⟨a, ha, hra⟩ := hruns r hr
            exact ⟨a, by omega, hra⟩
          · simp only [List.mem_singleton] at hr
            subst hr
            exact ⟨s, hsn, hfrom⟩
        · apply hpair
          · intro r hr
            simp only [List.mem_singleton] at hr
            subst hr
            exact ⟨s, le_refl s, hfrom⟩
          · exact List.pairwise_singleton _ _
    · refine ⟨runs, s, ?_, ?_, by omega, hruns, hsorted⟩
      · simp [scanStep, hcond, hcmd]
      · simp [scanStep, hcond, hfrom]

/-- The fills of one row under `XY_Z` start in that row, in the order of their starting
columns. -/
theorem rowCommands_starts_sorted (blocks : BlockCube) (y z : Nat) :
    ∃ runs : List BlockCluster,
      rowCommands blocks Plane.XY_Z y z = runs.map clusterCommand ∧
      (∀ r ∈ runs, r.posFrom.y = (y : Int) ∧ r.posFrom.z = (z : Int)) ∧
      runs.Pairwise (fun r₁ r₂ => r₁.posFrom.x ≤ r₂.posFrom.x) := by
  obtain ⟨runs, s, hcmd, _, _, hruns, hsorted⟩ := scan_starts_sorted blocks y z blocks.x
  refine ⟨runs, hcmd, ?_, hsorted⟩
  intro r hr
  obtain ⟨a, _, hra⟩ := hruns r hr
  rw [hra]
  exact ⟨rfl, rfl⟩

/-- C14: for every grid with positive dimensions under `XY_Z`, the commands returned by
`getCommands` are the fills of a list of runs ordered row by row: rows in ascending `z`, then
ascending `y`, and within one row the starting `x` coordinates in non-decreasing order. -/
theorem getCommands_row_order (blocks : BlockCube) (_hx : 0 < blocks.x) (_hy : 0 < blocks.y)
    (_hz : 0 < blocks.z) :
    ∃ clusters : List BlockCluster,
      getCommands blocks Plane.XY_Z = clusters.map clusterCommand ∧
      clusters.Pairwise RowOrder := by
  choose runs hcmd hrow hsorted using rowCommands_starts_sorted blocks
  refine ⟨(List.range blocks.z).flatMap fun z => (List.range blocks.y).flatMap fun y => runs y z,
    ?_, ?_⟩
  · simp only [getCommands, List.map_flatMap, hcmd]
  · rw [List.pairwise_flatMap]
    constructor
    · intro z _
      rw [List.pairwise_flatMap]
      constructor
      · intro y _
        refine (hsorted y z).imp_of_mem ?_
        intro r₁ r₂ h₁ h₂ hle
        right
        refine ⟨by rw [(hrow y z r₁ h₁).2, (hrow y z r₂ h₂).2], Or.inr ⟨?_, hle⟩⟩
        rw [(hrow y z r₁ h₁).1, (hrow y z r₂ h₂).1]
      · refine (List.pairwise_lt_range blocks.y).imp ?_
        intro y₁ y₂ hlt r₁ h₁ r₂ h₂
        right
        refine ⟨by rw [(hrow y₁ z r₁ h₁).2, (hrow y₂ z r₂ h₂).2], Or.inl ?_⟩
        rw [(hrow y₁ z r₁ h₁).1, (hrow y₂ z r₂ h₂).1]
        exact_mod_cast hlt
    · refine (List.pairwise_lt_range blocks.z).imp ?_
      intro z₁ z₂ hlt r₁ h₁ r₂ h₂
      obtain ⟨y₁, _, h₁⟩ := List.mem_flatMap.mp h₁
      obtain ⟨y₂, _, h₂⟩ := List.mem_flatMap.mp h₂
      left
      rw [(hrow y₁ z₁ r₁ h₁).2, (hrow y₂ z₂ r₂ h₂).2]
      exact_mod_cast hlt

/-- C14 at the 2x2x3 sample grid. -/
theorem getCommands_row_order_witness :
    0 < sampleCube.x ∧ 0 < sampleCube.y ∧ 0 < sampleCube.z ∧
    ∃ clusters : List BlockCluster,
      getCommands sampleCube Plane.XY_Z = clusters.map clusterCommand ∧
      clusters.Pairwise RowOrder :=
  ⟨by decide, by decide, by decide,
    getCommands_row_order sampleCube (by decide) (by decide) (by decide)⟩

/-! ## Structure encoder: index arrays, header and the air-filled variant -/

theorem logicalCells_length (blocks : BlockCube) (plane : Plane) :
    (logicalCells blocks plane).length =
      (planeDims blocks plane).1 * (planeDims blocks plane).2.1 * (planeDims blocks plane).2.2 := by
  unfold logicalCells
  rw [length_flatMap_range _ ((planeDims blocks plane).2.1 * (planeDims blocks plane).2.2),
    Nat.mul_assoc]
  intro x
  exact length_flatMap_range _ _ (fun y => by simp) _

/-- Every cell appends one sentinel to the secondary array. -/
theorem foldl_encodeCell_data2 (l : List String) :
    ∀ st : EncState,
      (l.foldl encodeCell st).data2 = st.data2 ++ List.replicate l.length (-1) := by
  induction l with
  | nil => intro st; simp
  | cons s l ih =>
    intro st
    have hstep : (encodeCell st s).data2 = st.data2 ++ [-1] := by
      unfold encodeCell
      cases st.map.lookup s <;> rfl
    rw [List.foldl_cons, ih, hstep, List.length_cons, List.replicate_succ, List.append_assoc]
    rfl

/-- Once the table holds only `s`, cells holding `s` append the index `0` and the sentinel. -/
theorem foldl_encodeCell_const (s : String) (l : List String) (hl : ∀ c ∈ l, c = s) :
    ∀ (d1 : List Nat) (d2 : List Int),
      l.foldl encodeCell
          { map := [(s, 0)], index := 1, data1 := d1, data2 := d2,
            blockPalette := [{ version := 18103297, name := s }] } =
        { map := [(s, 0)], index := 1, data1 := d1 ++ List.replicate l.length 0,
          data2 := d2 ++ List.replicate l.length (-1),
          blockPalette := [{ version := 18103297, name := s }] } := by
  induction l with
  | nil => intro d1 d2; simp
  | cons c l ih =>
    intro d1 d2
    have hc : c = s := hl c (List.mem_cons_self c l)
    subst hc
    have hstep : encodeCell
        { map := [(c, 0)], index := 1, data1 := d1, data2 := d2,
          blockPalette := [{ version := 18103297, name := c }] } c =
        { map := [(c, 0)], index := 1, data1 := d1 ++ [0], data2 := d2 ++ [-1],
          blockPalette := [{ version := 18103297, name := c }] } := by
      simp [encodeCell, List.lookup]
    rw [List.foldl_cons, hstep, ih (fun c' hc' => hl c' (List.mem_cons_of_mem _ hc'))]
    simp [List.replicate_succ]

/-- The loop of `getAirStructure` fills both arrays with constants. -/
theorem airArrays_eq (n : Nat) :
    (List.range n).foldl (fun (d : List Nat × List Int) _ => (d.1 ++ [0], d.2 ++ [-1])) ([], []) =
      (List.replicate n 0, List.replicate n (-1)) := by
  induction n with
  | zero => rfl
  | succ n ih =>
    rw [List.range_succ, List.foldl_append, ih]
    simp [List.replicate_succ']

/-- The structure `getMcstructure` emits for a non-empty grid all of whose cells hold `s`. -/
theorem getMcstructure_uniform (x y z : Nat) (s : String) (plane : Plane)
    (hx : 0 < x) (hy : 0 < y) (hz : 0 < z) :
    getMcstructure (uniformCube x y z s) plane =
      { formatVersion := 1
        size := [((planeDims (uniformCube x y z s) plane).1 : Int),
          ((planeDims (uniformCube x y z s) plane).2.1 : Int),
          ((planeDims (uniformCube x y z s) plane).2.2 : Int)]
        data1 := List.replicate (x * y * z) 0
        data2 := List.replicate (x * y * z) (-1)
        blockPalette := [{ version := 18103297, name := s }]
        structureWorldOrigin := [0, 0, 0] } := by
  have hall : ∀ c ∈ logicalCells (uniformCube x y z s) plane, c = s := by
    intro c hc
    simp only [logicalCells, List.mem_flatMap, List.mem_map] at hc
    obtain ⟨_, _, _, _, _, _, rfl⟩ := hc
    cases plane <;> rfl
  have hlen : (logicalCells (uniformCube x y z s) plane).length = x * y * z := by
    rw [logicalCells_length]
    cases plane <;> simp only [planeDims, uniformCube] <;> ring
  have hpos : 0 < x * y * z := Nat.mul_pos (Nat.mul_pos hx hy) hz
  unfold getMcstructure
  simp only [encodeLoop_eq_foldl]
  cases hcells : logicalCells (uniformCube x y z s) plane with
  | nil =>
    rw [hcells] at hlen
    simp only [List.length_nil] at hlen
    omega
  | cons c l =>
    rw [hcells] at hall hlen
    have hc : c = s := hall c (List.mem_cons_self c l)
    subst hc
    have hfirst : encodeCell
        { map := [], index := 0, data1 := [], data2 := [], blockPalette := [] } c =
        { map := [(c, 0)], index := 1, data1 := [] ++ [0], data2 := [] ++ [-1],
          blockPalette := [{ version := 18103297, name := c }] } := by
      simp [encodeCell, List.lookup]
    rw [List.foldl_cons, hfirst,
      foldl_encodeCell_const c l (fun c' hc' => hall c' (List.mem_cons_of_mem _ hc'))]
    simp only [List.length_cons] at hlen
    simp only [List.nil_append, List.singleton_append, ← List.replicate_succ, hlen]

/-- C15: for every plane and grid, with `(xs, ys, zs)` the logical dimensions emitted as the
size triple, both index arrays emitted by `getMcstructure` have exactly `xs * ys * zs` entries
(one per voxel), and every entry of the secondary array is the sentinel `-1`. -/
theorem getMcstructure_array_sizes (blocks : BlockCube) (plane : Plane) :
    (getMcstructure blocks plane).size =
      [((planeDims blocks plane).1 : Int), ((planeDims blocks plane).2.1 : Int),
        ((planeDims blocks plane).2.2 : Int)] ∧
    (getMcstructure blocks plane).data1.length =
      (planeDims blocks plane).1 * (planeDims blocks plane).2.1 * (planeDims blocks plane).2.2 ∧
    (getMcstructure blocks plane).data2.length =
      (planeDims blocks plane).1 * (planeDims blocks plane).2.1 * (planeDims blocks plane).2.2 ∧
    ∀ v ∈ (getMcstructure blocks plane).data2, v = -1 := by
  have hinv := encInv_getMcstructure blocks plane
  have hd2 : (getMcstructure blocks plane).data2 =
      List.replicate (logicalCells blocks plane).length (-1) := by
    show (encodeLoop blocks plane _ _ _ _).data2 = _
    rw [encodeLoop_eq_foldl, foldl_encodeCell_data2]
    rfl
  refine ⟨rfl, ?_, ?_, ?_⟩
  · show (encodeLoop blocks plane _ _ _ _).data1.length = _
    rw [hinv.data1_eq, List.length_map, logicalCells_length]
  · rw [hd2, List.length_replicate, logicalCells_length]
  · intro v hv
    rw [hd2] at hv
    exact List.eq_of_mem_replicate hv

/-- C16: for every grid of physical dimensions `(X, Y, Z)`, `getMcstructure` emits the size
triple `(X, Y, Z)` under `XY_Z`, `(Z, Y, X)` under `ZY_X` and `(X, Z, Y)` under `XZ_Y`; the
world-origin triple is always `(0, 0, 0)` and the version marker is `1`. -/
theorem getMcstructure_header (blocks : BlockCube) :
    (getMcstructure blocks Plane.XY_Z).size =
      [(blocks.x : Int), (blocks.y : Int), (blocks.z : Int)] ∧
    (getMcstructure blocks Plane.ZY_X).size =
      [(blocks.z : Int), (blocks.y : Int), (blocks.x : Int)] ∧
    (getMcstructure blocks Plane.XZ_Y).size =
      [(blocks.x : Int), (blocks.z : Int), (blocks.y : Int)] ∧
    ∀ plane, (getMcstructure blocks plane).structureWorldOrigin = [0, 0, 0] ∧
      (getMcstructure blocks plane).formatVersion = 1 :=
  ⟨rfl, rfl, rfl, fun _ => ⟨rfl, rfl⟩⟩

/-- An `int` result that fits into 32 bits is the exact result. -/
theorem wrapInt32_of_fits (v : Int) (h0 : 0 ≤ v) (h1 : v < 2 ^ 31) : wrapInt32 v = v := by
  unfold wrapInt32
  have hmod : v % 2 ^ 32 = v := Int.emod_eq_of_lt h0 (by omega)
  simp only [hmod, if_pos h1]

/-- The structure `getAirStructure` emits at `(65536, 65536, 1)`: the product `2^32` is `0`
as an `int`, so the loop does not run. -/
theorem getAirStructure_wrapped :
    getAirStructure 65536 65536 1 Plane.XY_Z =
      { formatVersion := 1
        size := [65536, 65536, 1]
        data1 := []
        data2 := []
        blockPalette := [{ version := 18103297, name := "minecraft:air" }]
        structureWorldOrigin := [0, 0, 0] } := by
  have h1 : wrapInt32 (65536 * 65536) = 0 := by decide
  have h2 : wrapInt32 (0 * 1) = 0 := by decide
  simp only [getAirStructure, h1, h2]
  rfl

/-- C17 (amended): for every plane and all positive `x`, `y`, `z` whose product `x * y * z`
is below `2^31`, so that it fits the `int` in which `getAirStructure` counts,
`getAirStructure(x, y, z, plane)` produces the same tag tree as `getMcstructure` applied to an
`x`-by-`y`-by-`z` grid whose every cell is `"minecraft:air"`: same size triple, same index
arrays, and a single-entry palette. -/
theorem getAirStructure_eq_getMcstructure (plane : Plane) (x y z : Nat)
    (hx : 0 < x) (hy : 0 < y) (hz : 0 < z) (hfit : x * y * z < 2 ^ 31) :
    getAirStructure (x : Int) (y : Int) (z : Int) plane =
      getMcstructure (uniformCube x y z "minecraft:air") plane ∧
    getAirStructureTag (x : Int) (y : Int) (z : Int) plane =
      getMcstructureTag (uniformCube x y z "minecraft:air") plane ∧
    (getAirStructure (x : Int) (y : Int) (z : Int) plane).blockPalette.length = 1 := by
  have hxy : x * y ≤ x * y * z := Nat.le_mul_of_pos_right _ hz
  have hwrap1 : wrapInt32 ((x : Int) * (y : Int)) = ((x * y : Nat) : Int) := by
    rw [← Nat.cast_mul]
    exact wrapInt32_of_fits _ (by omega) (by omega)
  have hwrap2 : wrapInt32 (((x * y : Nat) : Int) * (z : Int)) = ((x * y * z : Nat) : Int) := by
    rw [← Nat.cast_mul]
    exact wrapInt32_of_fits _ (by omega) (by omega)
  have heq : getAirStructure (x : Int) (y : Int) (z : Int) plane =
      getMcstructure (uniformCube x y z "minecraft:air") plane := by
    rw [getMcstructure_uniform x y z "minecraft:air" plane hx hy hz]
    unfold getAirStructure
    simp only [hwrap1, hwrap2, Int.toNat_ofNat, airArrays_eq]
    cases plane <;> rfl
  exact ⟨heq, by rw [getAirStructureTag, getMcstructureTag, heq], rfl⟩

/-- C17 (amended) at a 2-by-3-by-1 volume under `ZY_X`. -/
theorem getAirStructure_eq_getMcstructure_witness :
    0 < 2 ∧ 0 < 3 ∧ 0 < 1 ∧ 2 * 3 * 1 < 2 ^ 31 ∧
    (getAirStructure ((2 : Nat) : Int) ((3 : Nat) : Int) ((1 : Nat) : Int) Plane.ZY_X =
      getMcstructure (uniformCube 2 3 1 "minecraft:air") Plane.ZY_X ∧
    getAirStructureTag ((2 : Nat) : Int) ((3 : Nat) : Int) ((1 : Nat) : Int) Plane.ZY_X =
      getMcstructureTag (uniformCube 2 3 1 "minecraft:air") Plane.ZY_X ∧
    (getAirStructure ((2 : Nat) : Int) ((3 : Nat) : Int) ((1 : Nat) : Int)
      Plane.ZY_X).blockPalette.length = 1) :=
  ⟨by decide, by decide, by decide, by decide,
    getAirStructure_eq_getMcstructure Plane.ZY_X 2 3 1 (by decide) (by decide) (by decide)
      (by decide)⟩

/-! ## Pack assembler: control script and boundary inputs -/

/-- The loop that writes the dispatch statements writes one per index, in ascending order. -/
theorem dispatchLoop_eq (pfx : String) (n : Nat) :
    (List.range n).foldl (fun control i => control ++ [dispatchStatement pfx i]) [] =
      (List.range n).map (dispatchStatement pfx) := by
  induction n with
  | zero => rfl
  | succ n ih => rw [List.range_succ, List.foldl_append, ih]; simp

theorem controlScript_eq (pfx : String) (index : Nat) :
    controlScript pfx index =
      (List.range (index + 1)).map (dispatchStatement pfx) ++
        [incrementStatement pfx, tickareaTeardown pfx (index + 1),
          objectiveTeardown pfx (index + 1)] := by
  unfold controlScript
  simp only [dispatchLoop_eq, List.append_assoc, List.singleton_append, List.cons_append,
    List.nil_append]

/-- With `maxCommandCount <= 0` every command opens a new chunk file: after the commands `cs`
the index is their number, `d0` is unwritten and `d<k+1>` holds the command at position `k`. -/
theorem packLoop_nonpos_foldl (m : Int) (hm : m ≤ 0) (l : List String) :
    ∀ (cs : List String) (st : PackState),
      st.count = 0 → st.index = cs.length → st.files 0 = [] →
      (∀ k, st.files (k + 1) = (cs[k]?).toList) →
      (l.foldl (packStep m) st).count = 0 ∧
      (l.foldl (packStep m) st).index = (cs ++ l).length ∧
      (l.foldl (packStep m) st).files 0 = [] ∧
      ∀ k, (l.foldl (packStep m) st).files (k + 1) = ((cs ++ l)[k]?).toList := by
  induction l with
  | nil =>
    intro cs st hc hi h0 hk
    simpa using ⟨hc, hi, h0, hk⟩
  | cons var l ih =>
    intro cs st hc hi h0 hk
    have hgt : st.count + 1 > m := by omega
    have hstep : packStep m st var =
        { count := 0, index := st.index + 1,
          files := fun i => if i = st.index + 1 then st.files i ++ [var] else st.files i } := by
      simp [packStep, hgt]
    have := ih (cs ++ [var]) (packStep m st var) (by rw [hstep]) (by rw [hstep]; simp [hi])
      (by rw [hstep]; simp [h0]) ?_
    · simpa using this
    · intro k
      rw [hstep]
      simp only [Nat.add_right_cancel_iff]
      by_cases hkl : k = st.index
      · subst hkl
        rw [if_pos rfl, hk, hi]
        simp
      · rw [if_neg hkl, hk]
        by_cases hlt : k < cs.length
        · rw [List.getElem?_append_left hlt]
        · have hge : cs.length < k := by omega
          rw [List.getElem?_eq_none (by omega), List.getElem?_eq_none (by simp; omega)]

/-- C18 (as stated) fails: with `maxCommandCount = 0` and the commands `c0`, `c1` the chunk
files `d1` and `d2` are written and so is a control script. -/
theorem makeFunctionPack_nonpos_counterexample :
    (makeFunctionPackFiles ["c0", "c1"] "pic" 0).dataFiles 1 = ["c0"] ∧
    (makeFunctionPackFiles ["c0", "c1"] "pic" 0).dataFiles 2 = ["c1"] ∧
    (makeFunctionPackFiles ["c0", "c1"] "pic" 0).control =
      ["execute if score pic_Dummy pic_Control matches 0 run function pic/data/d0",
       "execute if score pic_Dummy pic_Control matches 1 run function pic/data/d1",
       "execute if score pic_Dummy pic_Control matches 2 run function pic/data/d2",
       "execute if score pic_Dummy pic_Control matches 0.. run scoreboard players add pic_Dummy pic_Control 1",
       "execute if score pic_Dummy pic_Control matches 3 run tickingarea remove pic_Tickarea",
       "execute if score pic_Dummy pic_Control matches 3 run scoreboard objectives remove pic_Control"] := by
  refine ⟨?_, ?_, ?_⟩ <;> decide

/-- C18 (amended): `makeFunctionPack` called with `maxCommandCount <= 0` does not fail: it
writes every command to a chunk file of its own, the command at position `k` (from 0) alone
into `d<k+1>`, leaves `d0` unwritten, and writes a control script with the dispatch statements
for the indices `0` to `n`, the increment statement and the teardown statements for `n + 1`,
where `n` is the number of commands. -/
theorem makeFunctionPack_nonpos (commands : List String) (pfx : String) (maxCommandCount : Int)
    (hm : maxCommandCount ≤ 0) :
    (makeFunctionPackFiles commands pfx maxCommandCount).dataFiles 0 = [] ∧
    (∀ k, (makeFunctionPackFiles commands pfx maxCommandCount).dataFiles (k + 1) =
      (commands[k]?).toList) ∧
    (makeFunctionPackFiles commands pfx maxCommandCount).control =
      (List.range (commands.length + 1)).map (dispatchStatement pfx) ++
        [incrementStatement pfx, tickareaTeardown pfx (commands.length + 1),
          objectiveTeardown pfx (commands.length + 1)] := by
  have h := packLoop_nonpos_foldl maxCommandCount hm commands []
    { count := 0, index := 0, files := fun _ => [] } rfl rfl rfl (fun k => by simp)
  simp only [List.nil_append] at h
  obtain ⟨_, hidx, h0, hk⟩ := h
  refine ⟨h0, hk, ?_⟩
  show controlScript pfx (packLoop commands maxCommandCount).index = _
  rw [controlScript_eq]
  unfold packLoop
  rw [hidx]

/-- C18 (amended) at two commands and `maxCommandCount = 0`. -/
theorem makeFunctionPack_nonpos_witness :
    (0 : Int) ≤ 0 ∧
    (makeFunctionPackFiles ["c0", "c1"] "pic" 0).dataFiles 0 = [] ∧
    (∀ k, (makeFunctionPackFiles ["c0", "c1"] "pic" 0).dataFiles (k + 1) =
      (["c0", "c1"][k]?).toList) ∧
    (makeFunctionPackFiles ["c0", "c1"] "pic" 0).control =
      (List.range (["c0", "c1"].length + 1)).map (dispatchStatement "pic") ++
        [incrementStatement "pic", tickareaTeardown "pic" (["c0", "c1"].length + 1),
          objectiveTeardown "pic" (["c0", "c1"].length + 1)] :=
  ⟨by decide, makeFunctionPack_nonpos ["c0", "c1"] "pic" 0 (by decide)⟩

/-- C19 (as stated) fails: for an empty command sequence the control script starts with the
dispatch statement for `d0` and goes on with the increment statement, and its two teardown
statements are guarded by the counter being equal to 1. -/
theorem makeFunctionPack_empty_counterexample :
    (makeFunctionPackFiles [] "pic" 10).control =
      ["execute if score pic_Dummy pic_Control matches 0 run function pic/data/d0",
       "execute if score pic_Dummy pic_Control matches 0.. run scoreboard players add pic_Dummy pic_Control 1",
       "execute if score pic_Dummy pic_Control matches 1 run tickingarea remove pic_Tickarea",
       "execute if score pic_Dummy pic_Control matches 1 run scoreboard objectives remove pic_Control"] ∧
    (makeFunctionPackFiles [] "pic" 10).control ≠
      ["execute if score pic_Dummy pic_Control matches 0 run tickingarea remove pic_Tickarea",
       "execute if score pic_Dummy pic_Control matches 0 run scoreboard objectives remove pic_Control"] := by
  constructor <;> decide

/-- C19 (amended): when the command sequence is empty, `makeFunctionPack` writes no chunk
file, and its control script consists of the dispatch statement for index 0, the increment
statement and the two teardown statements guarded by the counter being equal to 1. -/
theorem makeFunctionPack_empty (pfx : String) (maxCommandCount : Int) :
    (∀ i, (makeFunctionPackFiles [] pfx maxCommandCount).dataFiles i = []) ∧
    (makeFunctionPackFiles [] pfx maxCommandCount).control =
      [dispatchStatement pfx 0, incrementStatement pfx, tickareaTeardown pfx 1,
        objectiveTeardown pfx 1] :=
  ⟨fun _ => rfl, rfl⟩

/-- C20: for every non-empty command sequence and `maxCommandCount >= 1`, with `n` the number
of chunk files written (the files `d0`, ..., `d<n-1>`), the control script consists of one
dispatch statement per chunk file in ascending index order, statement `i` guarded by
`matches i` and running the function `<prefix>/data/d<i>`, followed by the increment statement
guarded by `matches 0..`, followed by the two teardown statements guarded by the counter being
equal to `n`; the instance with 25 commands, `maxCommandCount = 10` and prefix `pic` is
spelled out. -/
theorem makeFunctionPack_control (commands : List String) (pfx : String)
    (maxCommandCount : Int) (hne : commands ≠ []) (hm : 1 ≤ maxCommandCount) :
    (∃ n, (∀ i, (makeFunctionPackFiles commands pfx maxCommandCount).dataFiles i ≠ [] ↔ i < n) ∧
      (makeFunctionPackFiles commands pfx maxCommandCount).control =
        (List.range n).map
          (fun i => "execute if score " ++ (pfx ++ "_Dummy") ++ " " ++ (pfx ++ "_Control") ++
            " matches " ++ toString i ++ " run function " ++ pfx ++ "/data/d" ++ toString i) ++
        [incrementStatement pfx, tickareaTeardown pfx n, objectiveTeardown pfx n]) ∧
    incrementStatement pfx =
      "execute if score " ++ (pfx ++ "_Dummy") ++ " " ++ (pfx ++ "_Control") ++
        " matches 0.. run " ++ "scoreboard players add " ++ (pfx ++ "_Dummy") ++ " " ++
        (pfx ++ "_Control") ++ " 1" ∧
    (makeFunctionPackFiles (numberedCommands 25) "pic" 10).control =
      ["execute if score pic_Dummy pic_Control matches 0 run function pic/data/d0",
       "execute if score pic_Dummy pic_Control matches 1 run function pic/data/d1",
       "execute if score pic_Dummy pic_Control matches 2 run function pic/data/d2",
       "execute if score pic_Dummy pic_Control matches 0.. run scoreboard players add pic_Dummy pic_Control 1",
       "execute if score pic_Dummy pic_Control matches 3 run tickingarea remove pic_Tickarea",
       "execute if score pic_Dummy pic_Control matches 3 run scoreboard objectives remove pic_Control"] := by
  have hinv : PackInv commands (packLoop commands maxCommandCount) := by
    have := packInv_foldl maxCommandCount hm commands [] _ packInv_init
    simpa [packLoop] using this
  refine ⟨⟨(packLoop commands maxCommandCount).index + 1, ?_, ?_⟩, rfl, by decide⟩
  · intro i
    show (packLoop commands maxCommandCount).files i ≠ [] ↔ _
    constructor
    · intro hfile
      by_contra hlt
      exact hfile (hinv.beyond i (by omega))
    · intro hlt
      exact hinv.used hne i (by omega)
  · show controlScript pfx (packLoop commands maxCommandCount).index = _
    rw [controlScript_eq]
    rfl

/-- C20 at 25 commands, `maxCommandCount = 10` and the prefix `pic`. -/
theorem makeFunctionPack_control_witness :
    numberedCommands 25 ≠ [] ∧ (1 : Int) ≤ 10 ∧
    ((∃ n, (∀ i, (makeFunctionPackFiles (numberedCommands 25) "pic" 10).dataFiles i ≠ [] ↔ i < n) ∧
      (makeFunctionPackFiles (numberedCommands 25) "pic" 10).control =
        (List.range n).map
          (fun i => "execute if score " ++ ("pic" ++ "_Dummy") ++ " " ++ ("pic" ++ "_Control") ++
            " matches " ++ toString i ++ " run function " ++ "pic" ++ "/data/d" ++ toString i) ++
        [incrementStatement "pic", tickareaTeardown "pic" n, objectiveTeardown "pic" n]) ∧
    incrementStatement "pic" =
      "execute if score " ++ ("pic" ++ "_Dummy") ++ " " ++ ("pic" ++ "_Control") ++
        " matches 0.. run " ++ "scoreboard players add " ++ ("pic" ++ "_Dummy") ++ " " ++
        ("pic" ++ "_Control") ++ " 1" ∧
    (makeFunctionPackFiles (numberedCommands 25) "pic" 10).control =
      ["execute if score pic_Dummy pic_Control matches 0 run function pic/data/d0",
       "execute if score pic_Dummy pic_Control matches 1 run function pic/data/d1",
       "execute if score pic_Dummy pic_Control matches 2 run function pic/data/d2",
       "execute if score pic_Dummy pic_Control matches 0.. run scoreboard players add pic_Dummy pic_Control 1",
       "execute if score pic_Dummy pic_Control matches 3 run tickingarea remove pic_Tickarea",
       "execute if score pic_Dummy pic_Control matches 3 run scoreboard objectives remove pic_Control"]) :=
  ⟨by decide, by decide, makeFunctionPack_control (numberedCommands 25) "pic" 10 (by decide) (by decide)⟩

/-! ## Resizing: lemmas -/

/-- A truncation is pinned down by the unit interval it comes from. -/
theorem truncToInt_eq (q : ℚ) (z : Int)
    (h : (0 ≤ q ∧ (z : ℚ) ≤ q ∧ q < (z : ℚ) + 1) ∨ (q < 0 ∧ (z : ℚ) - 1 < q ∧ q ≤ (z : ℚ))) :
    truncToInt q = z := by
  unfold truncToInt
  rcases h with ⟨h0, h1, h2⟩ | ⟨h0, h1, h2⟩
  · rw [if_pos h0, Int.floor_eq_iff]
    exact ⟨h1, h2⟩
  · rw [if_neg (not_le.mpr h0), Int.ceil_eq_iff]
    exact ⟨h1, h2⟩

theorem truncToInt_intCast (z : Int) : truncToInt (z : ℚ) = z := by
  unfold truncToInt
  split_ifs
  · exact Int.floor_intCast z
  · exact Int.ceil_intCast z

/-- Truncating a non-negative value does not exceed an integer bound of the value. -/
theorem truncToInt_le_of_le (q : ℚ) (b : Int) (h0 : 0 ≤ q) (hb : q ≤ (b : ℚ)) :
    truncToInt q ≤ b := by
  unfold truncToInt
  rw [if_pos h0]
  have h := Int.floor_le q
  have : ((⌊q⌋ : Int) : ℚ) ≤ (b : ℚ) := le_trans h hb
  exact_mod_cast this

/-- When the bounds are not both `-1`, an image that satisfies every bound other than `-1` is
not resized. -/
theorem limitScaleTarget_within (width height maxWidth maxHeight : Int)
    (hboth : ¬ (maxWidth = -1 ∧ maxHeight = -1))
    (hw : maxWidth = -1 ∨ width ≤ maxWidth) (hh : maxHeight = -1 ∨ height ≤ maxHeight) :
    limitScaleTarget width height maxWidth maxHeight = none := by
  unfold limitScaleTarget
  by_cases h0 : maxWidth = 0 ∨ maxHeight = 0
  · rw [if_pos h0]
  · rw [if_neg h0]
    by_cases hW : maxWidth = -1
    · have hH : maxHeight ≠ -1 := fun h => hboth ⟨hW, h⟩
      have hle : height ≤ maxHeight := hh.resolve_left hH
      simp [hW, hH, hle]
    · have hle : width ≤ maxWidth := hw.resolve_left hW
      by_cases hH : maxHeight = -1
      · simp [hW, hH, hle]
      · have hle' : height ≤ maxHeight := hh.resolve_left hH
        simp [hW, hH, hle, hle']

/-- C26: for every non-empty image of size `w` x `h` and bounds that are each positive or `-1`
(not both `-1`), the dimensions `limitScale` targets (in exact arithmetic, with truncation to
integers; the old dimensions when it does not resize) satisfy `w' <= w`, `h' <= h`,
`w' <= maxWidth` when `maxWidth` is not `-1` and `h' <= maxHeight` when `maxHeight` is not
`-1`, both dimensions being the old ones scaled by one common ratio in `(0, 1]`. -/
theorem limitScale_dims_bounded (w h maxWidth maxHeight : Int) (hw : 1 ≤ w) (hh : 1 ≤ h)
    (hW : maxWidth = -1 ∨ 0 < maxWidth) (hH : maxHeight = -1 ∨ 0 < maxHeight)
    (hboth : ¬ (maxWidth = -1 ∧ maxHeight = -1)) :
    (limitScaleDims w h maxWidth maxHeight).1 ≤ w ∧
    (limitScaleDims w h maxWidth maxHeight).2 ≤ h ∧
    (maxWidth ≠ -1 → (limitScaleDims w h maxWidth maxHeight).1 ≤ maxWidth) ∧
    (maxHeight ≠ -1 → (limitScaleDims w h maxWidth maxHeight).2 ≤ maxHeight) ∧
    ∃ ratio : ℚ, 0 < ratio ∧ ratio ≤ 1 ∧
      limitScaleDims w h maxWidth maxHeight =
        (truncToInt ((w : ℚ) * ratio), truncToInt ((h : ℚ) * ratio)) := by
  have hwq : (0 : ℚ) < (w : ℚ) := by exact_mod_cast (by omega : (0 : Int) < w)
  have hhq : (0 : ℚ) < (h : ℚ) := by exact_mod_cast (by omega : (0 : Int) < h)
  -- the case in which the image is resized with a given ratio
  have key : ∀ ratio : ℚ, 0 < ratio → ratio ≤ 1 →
      (maxWidth ≠ -1 → (w : ℚ) * ratio ≤ (maxWidth : ℚ)) →
      (maxHeight ≠ -1 → (h : ℚ) * ratio ≤ (maxHeight : ℚ)) →
      limitScaleDims w h maxWidth maxHeight =
        (truncToInt ((w : ℚ) * ratio), truncToInt ((h : ℚ) * ratio)) →
      (limitScaleDims w h maxWidth maxHeight).1 ≤ w ∧
      (limitScaleDims w h maxWidth maxHeight).2 ≤ h ∧
      (maxWidth ≠ -1 → (limitScaleDims w h maxWidth maxHeight).1 ≤ maxWidth) ∧
      (maxHeight ≠ -1 → (limitScaleDims w h maxWidth maxHeight).2 ≤ maxHeight) ∧
      ∃ ratio : ℚ, 0 < ratio ∧ ratio ≤ 1 ∧
        limitScaleDims w h maxWidth maxHeight =
          (truncToInt ((w : ℚ) * ratio), truncToInt ((h : ℚ) * ratio)) := by
    intro ratio hpos hle hbw hbh hdims
    have h1 : 0 ≤ (w : ℚ) * ratio := le_of_lt (mul_pos hwq hpos)
    have h2 : 0 ≤ (h : ℚ) * ratio := le_of_lt (mul_pos hhq hpos)
    have h3 : (w : ℚ) * ratio ≤ (w : ℚ) := by nlinarith
    have h4 : (h : ℚ) * ratio ≤ (h : ℚ) := by nlinarith
    rw [hdims]
    exact ⟨truncToInt_le_of_le _ _ h1 h3, truncToInt_le_of_le _ _ h2 h4,
      fun hne => truncToInt_le_of_le _ _ h1 (hbw hne),
      fun hne => truncToInt_le_of_le _ _ h2 (hbh hne), ratio, hpos, hle, rfl⟩
  have hW0 : maxWidth ≠ 0 := by omega
  have hH0 : maxHeight ≠ 0 := by omega
  by_cases hcW : maxWidth = -1
  · -- only the height is bounded
    have hcH : maxHeight ≠ -1 := fun hc => hboth ⟨hcW, hc⟩
    have hHpos : 0 < maxHeight := by omega
    by_cases hle : h ≤ maxHeight
    · apply key 1 one_pos (le_refl 1) (fun hne => absurd hcW hne)
        (fun _ => by rw [mul_one]; exact_mod_cast hle)
      simp [limitScaleDims, limitScaleTarget, hcW, hcH, hH0, hle, truncToInt_intCast]
    · have hlt : maxHeight < h := not_le.mp hle
      have hHq : (0 : ℚ) < (maxHeight : ℚ) := by exact_mod_cast hHpos
      have hltq : (maxHeight : ℚ) < (h : ℚ) := by exact_mod_cast hlt
      apply key ((maxHeight : ℚ) / (h : ℚ)) (div_pos hHq hhq)
        (le_of_lt ((div_lt_one hhq).mpr hltq)) (fun hne => absurd hcW hne)
        (fun _ => by rw [mul_div_cancel₀ _ (ne_of_gt hhq)])
      simp [limitScaleDims, limitScaleTarget, hcW, hcH, hH0, hle]
  · have hWpos : 0 < maxWidth := by omega
    have hWq : (0 : ℚ) < (maxWidth : ℚ) := by exact_mod_cast hWpos
    by_cases hcH : maxHeight = -1
    · -- only the width is bounded
      by_cases hle : w ≤ maxWidth
      · apply key 1 one_pos (le_refl 1) (fun _ => by rw [mul_one]; exact_mod_cast hle)
          (fun hne => absurd hcH hne)
        simp [limitScaleDims, limitScaleTarget, hcW, hcH, hW0, hle, truncToInt_intCast]
      · have hlt : maxWidth < w := not_le.mp hle
        have hltq : (maxWidth : ℚ) < (w : ℚ) := by exact_mod_cast hlt
        apply key ((maxWidth : ℚ) / (w : ℚ)) (div_pos hWq hwq)
          (le_of_lt ((div_lt_one hwq).mpr hltq))
          (fun _ => by rw [mul_div_cancel₀ _ (ne_of_gt hwq)]) (fun hne => absurd hcH hne)
        simp [limitScaleDims, limitScaleTarget, hcW, hcH, hW0, hle]
    · -- both bounds are given
      have hHpos : 0 < maxHeight := by omega
      have hHq : (0 : ℚ) < (maxHeight : ℚ) := by exact_mod_cast hHpos
      by_cases hle : w ≤ maxWidth ∧ h ≤ maxHeight
      · apply key 1 one_pos (le_refl 1) (fun _ => by rw [mul_one]; exact_mod_cast hle.1)
          (fun _ => by rw [mul_one]; exact_mod_cast hle.2)
        simp [limitScaleDims, limitScaleTarget, hcW, hcH, hW0, hH0, hle, truncToInt_intCast]
      · have hone : (maxWidth : ℚ) / (w : ℚ) < 1 ∨ (maxHeight : ℚ) / (h : ℚ) < 1 := by
          by_cases hle1 : w ≤ maxWidth
          · right
            have hlt : maxHeight < h := by
              by_contra hc
              exact hle ⟨hle1, not_lt.mp hc⟩
            exact (div_lt_one hhq).mpr (by exact_mod_cast hlt)
          · left
            exact (div_lt_one hwq).mpr (by exact_mod_cast (not_le.mp hle1))
        have hwid : (w : ℚ) * ((maxWidth : ℚ) / (w : ℚ)) = (maxWidth : ℚ) :=
          mul_div_cancel₀ _ (ne_of_gt hwq)
        have hhei : (h : ℚ) * ((maxHeight : ℚ) / (h : ℚ)) = (maxHeight : ℚ) :=
          mul_div_cancel₀ _ (ne_of_gt hhq)
        by_cases hcmp : (maxWidth : ℚ) / (w : ℚ) < (maxHeight : ℚ) / (h : ℚ)
        · apply key ((maxWidth : ℚ) / (w : ℚ)) (div_pos hWq hwq)
          · rcases hone with h1 | h1
            · exact le_of_lt h1
            · exact le_of_lt (lt_trans hcmp h1)
          · intro _
            rw [hwid]
          · intro _
            calc (h : ℚ) * ((maxWidth : ℚ) / (w : ℚ))
                ≤ (h : ℚ) * ((maxHeight : ℚ) / (h : ℚ)) :=
                  mul_le_mul_of_nonneg_left (le_of_lt hcmp) (le_of_lt hhq)
              _ = (maxHeight : ℚ) := hhei
          · simp [limitScaleDims, limitScaleTarget, hcW, hcH, hW0, hH0, hle, hcmp]
        · have hge : (maxHeight : ℚ) / (h : ℚ) ≤ (maxWidth : ℚ) / (w : ℚ) := not_lt.mp hcmp
          apply key ((maxHeight : ℚ) / (h : ℚ)) (div_pos hHq hhq)
          · rcases hone with h1 | h1
            · exact le_of_lt (lt_of_le_of_lt hge h1)
            · exact le_of_lt h1
          · intro _
            calc (w : ℚ) * ((maxHeight : ℚ) / (h : ℚ))
                ≤ (w : ℚ) * ((maxWidth : ℚ) / (w : ℚ)) :=
                  mul_le_mul_of_nonneg_left hge (le_of_lt hwq)
              _ = (maxWidth : ℚ) := hwid
          · intro _
            rw [hhei]
          · simp [limitScaleDims, limitScaleTarget, hcW, hcH, hW0, hH0, hle, hcmp]

/-- C26 at a 100 x 50 image with the bounds 10 and 20. -/
theorem limitScale_dims_bounded_witness :
    (1 : Int) ≤ 100 ∧ (1 : Int) ≤ 50 ∧ ((10 : Int) = -1 ∨ (0 : Int) < 10) ∧
    ((20 : Int) = -1 ∨ (0 : Int) < 20) ∧ ¬ ((10 : Int) = -1 ∧ (20 : Int) = -1) ∧
    ((limitScaleDims 100 50 10 20).1 ≤ 100 ∧
    (limitScaleDims 100 50 10 20).2 ≤ 50 ∧
    ((10 : Int) ≠ -1 → (limitScaleDims 100 50 10 20).1 ≤ 10) ∧
    ((20 : Int) ≠ -1 → (limitScaleDims 100 50 10 20).2 ≤ 20) ∧
    ∃ ratio : ℚ, 0 < ratio ∧ ratio ≤ 1 ∧
      limitScaleDims 100 50 10 20 =
        (truncToInt (((100 : Int) : ℚ) * ratio), truncToInt (((50 : Int) : ℚ) * ratio))) :=
  ⟨by decide, by decide, by decide, by decide, by decide,
    limitScale_dims_bounded 100 50 10 20 (by decide) (by decide) (by decide) (by decide)
      (by decide)⟩

/-- C24 (the code at a 4 x 2 image with both bounds `-1`): `limitScale` does not return early;
it computes the ratio `-1/2` and calls `cv::resize` with the target size `(-2, -1)`. -/
theorem limitScale_both_unbounded (resize : Mat → Int → Int → Option Mat) :
    wideImage.empty = false ∧
    limitScaleTarget 4 2 (-1) (-1) = some (-2, -1) ∧
    limitScale resize wideImage (-1) (-1) = resize wideImage (-2) (-1) := by
  have htarget : limitScaleTarget 4 2 (-1) (-1) = some (-2, -1) := by
    simp only [limitScaleTarget]
    norm_num
    exact ⟨truncToInt_eq _ _ (by norm_num), truncToInt_eq _ _ (by norm_num)⟩
  refine ⟨by decide, htarget, ?_⟩
  have hempty : wideImage.empty = false := by decide
  have hcols : (wideImage.cols : Int) = 4 := rfl
  have hrows : (wideImage.rows : Int) = 2 := rfl
  simp only [limitScale, hempty, hcols, hrows, htarget]
  rfl

/-- C25 (the code at the 3 x 2 sample image with both bounds `-1`): no bound other than `-1` is
given, yet `limitScale` does not leave the image as it is; it calls `cv::resize` with the
target size `(-1, -1)`. -/
theorem limitScale_unbounded_not_unchanged (resize : Mat → Int → Int → Option Mat) :
    sampleImage.empty = false ∧
    limitScaleTarget 3 2 (-1) (-1) = some (-1, -1) ∧
    limitScale resize sampleImage (-1) (-1) = resize sampleImage (-1) (-1) := by
  have htarget : limitScaleTarget 3 2 (-1) (-1) = some (-1, -1) := by
    simp only [limitScaleTarget]
    norm_num
    exact ⟨truncToInt_eq _ _ (by norm_num), truncToInt_eq _ _ (by norm_num)⟩
  refine ⟨by decide, htarget, ?_⟩
  have hempty : sampleImage.empty = false := by decide
  have hcols : (sampleImage.cols : Int) = 3 := rfl
  have hrows : (sampleImage.rows : Int) = 2 := rfl
  simp only [limitScale, hempty, hcols, hrows, htarget]
  rfl

/-! ## Voxelizer: video, lemmas -/

theorem foldlM_eq_some_foldl_of_inv {α β : Type} (P : β → Prop) (f : β → α → Option β)
    (g : β → α → β) (l : List α)
    (h : ∀ b, P b → ∀ a ∈ l, f b a = some (g b a) ∧ P (g b a)) :
    ∀ b, P b → l.foldlM f b = some (l.foldl g b) ∧ P (l.foldl g b) := by
  induction l with
  | nil => intro b hb; exact ⟨rfl, hb⟩
  | cons a l ih =>
    intro b hb
    obtain ⟨hf, hP⟩ := h b hb a (List.mem_cons_self a l)
    have ih' := ih (fun b' hb' a' ha' => h b' hb' a' (List.mem_cons_of_mem a ha')) (g b a) hP
    simp only [List.foldlM_cons, List.foldl_cons, hf, Option.bind_eq_bind, Option.some_bind]
    exact ih'

/-- A run of cell assignments does not change a cell that none of them addresses. -/
theorem foldl_set_other {α : Type} (key : α → Nat × Nat × Nat) (val : α → String)
    (x y z : Nat) :
    ∀ (l : List α) (init : BlockCube), (∀ b ∈ l, key b ≠ (x, y, z)) →
      (l.foldl (fun res b => res.set (key b).1 (key b).2.1 (key b).2.2 (val b)) init).blockIds
        x y z = init.blockIds x y z := by
  intro l
  induction l with
  | nil => intro init _; rfl
  | cons b l ih =>
    intro init h
    rw [List.foldl_cons, ih _ (fun c hc => h c (List.mem_cons_of_mem b hc))]
    have hb := h b (List.mem_cons_self b l)
    have hne : ¬ (x = (key b).1 ∧ y = (key b).2.1 ∧ z = (key b).2.2) := by
      rintro ⟨h1, h2, h3⟩
      exact hb (Prod.ext h1.symm (Prod.ext h2.symm h3.symm))
    simp [BlockCube.set, hne]

/-- With a non-empty palette and a grid as wide and high as the frame, the pixel loops of the
video `getBlocks` run to their end for a frame index inside the grid, and their result is the
grid obtained by the cell assignments of all pixels in loop order. -/
theorem getBlocksFrame_eq (frame : Mat) (modis : BIModis) (hne : modis ≠ []) (result : BlockCube)
    (z : Nat) (hx : result.x = frame.cols) (hy : result.y = frame.rows) (hz : z < result.z) :
    getBlocksFrame frame modis result z =
      some ((pixelOrder frame.rows frame.cols).foldl
        (fun res p => res.set p.2 (frame.rows - 1 - p.1) z
          (nearestId (bgrToRgb (frame.pixel p.1 p.2)) modis)) result) := by
  have hvoxel : ∀ (res : BlockCube), (res.x = frame.cols ∧ res.y = frame.rows ∧ z < res.z) →
      ∀ row, row ∈ List.range frame.rows → ∀ col, col ∈ List.range frame.cols →
        getBlocksVoxel frame modis res row col z =
          some (res.set col (frame.rows - 1 - row) z
            (nearestId (bgrToRgb (frame.pixel row col)) modis)) ∧
        ((res.set col (frame.rows - 1 - row) z
            (nearestId (bgrToRgb (frame.pixel row col)) modis)).x = frame.cols ∧
          (res.set col (frame.rows - 1 - row) z
            (nearestId (bgrToRgb (frame.pixel row col)) modis)).y = frame.rows ∧
          z < (res.set col (frame.rows - 1 - row) z
            (nearestId (bgrToRgb (frame.pixel row col)) modis)).z) := by
    intro res hres row hrow col hcol
    obtain ⟨e, he, _, hid⟩ := nearestId_spec (bgrToRgb (frame.pixel row col)) modis hne
    have hrow' := List.mem_range.mp hrow
    have hcol' := List.mem_range.mp hcol
    have hin : col < res.x ∧ frame.rows - 1 - row < res.y ∧ z < res.z :=
      ⟨by omega, by omega, hres.2.2⟩
    refine ⟨?_, hres⟩
    simp [getBlocksVoxel, he, hin, hid]
  unfold getBlocksFrame pixelOrder
  rw [foldl_flatMap_eq]
  simp only [List.foldl_map]
  refine (foldlM_eq_some_foldl_of_inv
    (fun res => res.x = frame.cols ∧ res.y = frame.rows ∧ z < res.z) _ _ _ ?_ result
    ⟨hx, hy, hz⟩).1
  intro res hres row hrow
  exact foldlM_eq_some_foldl_of_inv
    (fun res => res.x = frame.cols ∧ res.y = frame.rows ∧ z < res.z) _ _ _
    (fun res' hres' col hcol => hvoxel res' hres' row hrow col hcol) res hres

/-- The grid after the pixel loops of the video `getBlocks` for one frame: the layer of the
frame holds the nearest block ids of its pixels, and the other layers are as before. -/
theorem getBlocksFrame_cells (frame : Mat) (modis : BIModis) (hne : modis ≠ [])
    (result : BlockCube) (z : Nat) (hx : result.x = frame.cols) (hy : result.y = frame.rows)
    (hz : z < result.z) :
    ∃ grid, getBlocksFrame frame modis result z = some grid ∧
      grid.x = result.x ∧ grid.y = result.y ∧ grid.z = result.z ∧
      (∀ row col, row < frame.rows → col < frame.cols →
        grid.blockIds col (frame.rows - 1 - row) z =
          nearestId (bgrToRgb (frame.pixel row col)) modis) ∧
      ∀ x y z', z' ≠ z → grid.blockIds x y z' = result.blockIds x y z' := by
  refine ⟨_, getBlocksFrame_eq frame modis hne result z hx hy hz, ?_, ?_, ?_, ?_, ?_⟩
  · exact (foldl_set_dims (fun p : Nat × Nat => (p.2, frame.rows - 1 - p.1, z)) _ _ _).1
  · exact (foldl_set_dims (fun p : Nat × Nat => (p.2, frame.rows - 1 - p.1, z)) _ _ _).2.1
  · exact (foldl_set_dims (fun p : Nat × Nat => (p.2, frame.rows - 1 - p.1, z)) _ _ _).2.2
  · intro row col hrow hcol
    have h := foldl_set_cell (fun p : Nat × Nat => (p.2, frame.rows - 1 - p.1, z))
      (fun p => nearestId (bgrToRgb (frame.pixel p.1 p.2)) modis) (row, col)
      (pixelOrder frame.rows frame.cols) result ?_ ?_
    · exact h
    · rintro ⟨r, c⟩ hmem hkey
      have hr := ((mem_pixelOrder _ _ r c).mp hmem).1
      simp only [Prod.mk.injEq, and_true] at hkey
      obtain ⟨hc, hrr⟩ := hkey
      have : r = row := by omega
      subst this
      subst hc
      rfl
    · exact Or.inl ((mem_pixelOrder _ _ row col).mpr ⟨hrow, hcol⟩)
  · intro x y z' hz'
    exact foldl_set_other (fun p : Nat × Nat => (p.2, frame.rows - 1 - p.1, z)) _ x y z' _ result
      (fun p _ hkey => hz' (by simpa using (congrArg (fun t => t.2.2) hkey).symm))

/-- The loop of the video `getBlocks` from frame index `z` on, when enough frames are left to
reach the clamped frame count `M` and all frames have the size `r` x `c` after `limitScale`:
it returns a grid of dimensions `(c, r, M)` whose layers `z, ..., M - 1` hold the nearest block
ids of the frames delivered, and whose other layers are those of the grid it started from. -/
theorem getBlocksVideoLoop_spec (resize : Mat → Int → Int → Option Mat) (modis : BIModis)
    (hne : modis ≠ []) (maxWidth maxHeight : Int) (M r c : Nat) :
    ∀ (fs : List Mat) (z : Nat) (result : BlockCube),
      (∀ f ∈ fs, ∃ g, limitScale resize f maxWidth maxHeight = some g ∧ g.rows = r ∧ g.cols = c) →
      z < M → M ≤ z + fs.length →
      (z ≠ 0 → result.x = c ∧ result.y = r ∧ result.z = M) →
      ∃ grid, getBlocksVideoLoop resize modis maxWidth maxHeight (M : Int) fs z result = some grid ∧
        grid.x = c ∧ grid.y = r ∧ grid.z = M ∧
        (∀ k f, fs[k]? = some f → z + k < M →
          ∃ g, limitScale resize f maxWidth maxHeight = some g ∧
            ∀ row col, row < r → col < c →
              grid.blockIds col (r - 1 - row) (z + k) =
                nearestId (bgrToRgb (g.pixel row (c - 1 - col))) modis) ∧
        ∀ x y j, (j < z ∨ M ≤ j) →
          grid.blockIds x y j = (if z = 0 then BlockCube.new c r M else result).blockIds x y j := by
  intro fs
  induction fs with
  | nil =>
    intro z result _ hz hM _
    simp only [List.length_nil] at hM
    omega
  | cons f rest ih =>
    intro z result hfs hz hM hres
    obtain ⟨g, hg, hgr, hgc⟩ := hfs f (List.mem_cons_self f rest)
    have hfresh : (if z = 0 then
          if (M : Int) < 0 then none
          else some (BlockCube.new (flipHorizontal g).cols (flipHorizontal g).rows (M : Int).toNat)
        else some result) = some (if z = 0 then BlockCube.new c r M else result) := by
      by_cases hz0 : z = 0
      · have hM0 : ¬ ((M : Int) < 0) := by omega
        simp only [hz0, if_true, hM0, if_false, Int.toNat_ofNat, flipHorizontal, hgr, hgc]
      · simp only [hz0, if_false]
    have hbase : (if z = 0 then BlockCube.new c r M else result).x = (flipHorizontal g).cols ∧
        (if z = 0 then BlockCube.new c r M else result).y = (flipHorizontal g).rows ∧
        (if z = 0 then BlockCube.new c r M else result).z = M := by
      by_cases hz0 : z = 0
      · simp only [hz0, if_true, BlockCube.new, flipHorizontal, hgr, hgc, and_self]
      · simp only [hz0, if_false, flipHorizontal, hgr, hgc]
        exact hres hz0
    obtain ⟨grid1, hframe, h1x, h1y, h1z, hlayer, hother⟩ :=
      getBlocksFrame_cells (flipHorizontal g) modis hne
        (if z = 0 then BlockCube.new c r M else result) z hbase.1 hbase.2.1 (by rw [hbase.2.2]; exact hz)
    have hlayer' : ∀ row col, row < r → col < c →
        grid1.blockIds col (r - 1 - row) z =
          nearestId (bgrToRgb (g.pixel row (c - 1 - col))) modis := by
      intro row col hrow hcol
      have := hlayer row col (by simp only [flipHorizontal, hgr]; exact hrow)
        (by simp only [flipHorizontal, hgc]; exact hcol)
      simpa only [flipHorizontal, hgr, hgc] using this
    have hdims1 : grid1.x = c ∧ grid1.y = r ∧ grid1.z = M := by
      refine ⟨?_, ?_, ?_⟩
      · rw [h1x, hbase.1]; simp only [flipHorizontal, hgc]
      · rw [h1y, hbase.2.1]; simp only [flipHorizontal, hgr]
      · rw [h1z, hbase.2.2]
    by_cases hlast : z + 1 = M
    · have hcond : ((z + 1 : Nat) : Int) = (M : Int) := by omega
      refine ⟨grid1, ?_, hdims1.1, hdims1.2.1, hdims1.2.2, ?_, ?_⟩
      · simp only [getBlocksVideoLoop, hg, hfresh, Option.some_bind, hframe, hcond, if_true]
      · intro k f' hk hzk
        have hk0 : k = 0 := by omega
        subst hk0
        simp only [List.getElem?_cons_zero, Option.some.injEq] at hk
        subst hk
        exact ⟨g, hg, hlayer'⟩
      · intro x y j hj
        exact hother x y j (by omega)
    · have hcond : ¬ (((z + 1 : Nat) : Int) = (M : Int)) := by omega
      obtain ⟨grid, hloop, hx, hy, hzz, hlayers, hrest⟩ :=
        ih (z + 1) grid1 (fun f' hf' => hfs f' (List.mem_cons_of_mem f hf')) (by omega)
          (by simp only [List.length_cons] at hM; omega) (fun _ => hdims1)
      have hz1 : ¬ (z + 1 = 0) := by omega
      simp only [hz1, if_false] at hrest
      refine ⟨grid, ?_, hx, hy, hzz, ?_, ?_⟩
      · simp only [getBlocksVideoLoop, hg, hfresh, Option.some_bind, hframe, hcond, if_false]
        exact hloop
      · intro k f' hk hzk
        cases k with
        | zero =>
          simp only [List.getElem?_cons_zero, Option.some.injEq] at hk
          subst hk
          refine ⟨g, hg, ?_⟩
          intro row col hrow hcol
          rw [Nat.add_zero, hrest col (r - 1 - row) z (Or.inl (by omega))]
          exact hlayer' row col hrow hcol
        | succ k =>
          simp only [List.getElem?_cons_succ] at hk
          obtain ⟨g', hg', hcells⟩ := hlayers k f' hk (by omega)
          refine ⟨g', hg', ?_⟩
          intro row col hrow hcol
          have := hcells row col hrow hcol
          rw [show z + (k + 1) = z + 1 + k by omega]
          exact this
      · intro x y j hj
        rw [hrest x y j (by omega)]
        exact hother x y j (by omega)

/-- When the bounds are not both `-1`, `limitScale` leaves an image as it is that satisfies
every bound other than `-1`. -/
theorem limitScale_within (resize : Mat → Int → Int → Option Mat) (image : Mat)
    (maxWidth maxHeight : Int) (hboth : ¬ (maxWidth = -1 ∧ maxHeight = -1))
    (hw : maxWidth = -1 ∨ (image.cols : Int) ≤ maxWidth)
    (hh : maxHeight = -1 ∨ (image.rows : Int) ≤ maxHeight) :
    limitScale resize image maxWidth maxHeight = some image := by
  unfold limitScale
  split_ifs
  · rfl
  · rw [limitScaleTarget_within _ _ _ _ hboth hw hh]

/-! ## Voxelizer: video, results -/

/-- C21: for a video stream that reports and delivers `n >= 1` frames, all of the size
`r` x `c` after `limitScale`, a frame cap `m >= 1` and a non-empty palette, the video
`getBlocks` returns a grid of dimensions `(c, r, min(n, m))` whose layer `z = k`, for every
`k < min(n, m)`, is the grid the image `getBlocks` returns for the `k`-th frame in arrival
order, and no frame is written to a layer from `min(n, m)` on. -/
theorem getBlocksVideo_layers (resize : Mat → Int → Int → Option Mat) (video : VideoCapture)
    (modis : BIModis) (maxWidth maxHeight maxFrameCount : Int) (n r c : Nat)
    (hn : 1 ≤ n) (hm : 1 ≤ maxFrameCount) (hcount : video.frameCount = (n : Int))
    (hlen : video.frames.length = n) (hne : modis ≠ [])
    (hsize : ∀ f ∈ video.frames,
      ∃ g, limitScale resize f maxWidth maxHeight = some g ∧ g.rows = r ∧ g.cols = c) :
    ∃ grid, getBlocksVideo resize video modis maxWidth maxHeight maxFrameCount = some grid ∧
      grid.x = c ∧ grid.y = r ∧ (grid.z : Int) = min (n : Int) maxFrameCount ∧
      (∀ k frame, video.frames[k]? = some frame → k < grid.z →
        ∃ layer, getBlocks resize frame modis maxWidth maxHeight = some layer ∧
          ∀ x y, x < c → y < r → grid.blockIds x y k = layer.blockIds x y 0) ∧
      ∀ x y k, grid.z ≤ k → grid.blockIds x y k = "" := by
  obtain ⟨M, hM⟩ : ∃ M : Nat, (M : Int) = min (n : Int) maxFrameCount :=
    ⟨(min (n : Int) maxFrameCount).toNat, Int.toNat_of_nonneg (by omega)⟩
  have hclamp : (if video.frameCount > maxFrameCount then maxFrameCount else video.frameCount) =
      (M : Int) := by
    rw [hcount, hM]
    split_ifs <;> omega
  obtain ⟨grid, hloop, hx, hy, hz, hlayers, hrest⟩ :=
    getBlocksVideoLoop_spec resize modis hne maxWidth maxHeight M r c video.frames 0
      (BlockCube.new 0 0 0) hsize (by omega) (by omega) (fun h => absurd rfl h)
  refine ⟨grid, ?_, hx, hy, by rw [hz, hM], ?_, ?_⟩
  · simp only [getBlocksVideo, hclamp]
    exact hloop
  · intro k frame hk hkz
    obtain ⟨g, hg, hcells⟩ := hlayers k frame hk (by omega)
    obtain ⟨g', hg', hgr, hgc⟩ := hsize frame (List.getElem?_mem hk)
    have hgg : g' = g := by
      rw [hg] at hg'
      exact (Option.some.inj hg').symm
    subst hgg
    obtain ⟨layer, hlayer, _, _, _, hlcells⟩ := getBlocksScaled_cells g' modis hne
    refine ⟨layer, by simp only [getBlocks, hg, Option.some_bind, hlayer], ?_⟩
    intro x y hxc hyr
    have h1 := hcells (r - 1 - y) x (by omega) hxc
    have h2 := hlcells (r - 1 - y) x (by omega) (by omega)
    rw [hgr, hgc] at h2
    have hyy : r - 1 - (r - 1 - y) = y := by omega
    rw [hyy, Nat.zero_add] at h1
    rw [hyy] at h2
    rw [h1, h2]
  · intro x y k hk
    rw [hrest x y k (Or.inr (by omega))]
    rfl

/-- C21 at the three-frame sample video with the frame cap 2. -/
theorem getBlocksVideo_layers_witness :
    1 ≤ 3 ∧ (1 : Int) ≤ 2 ∧ sampleVideo.frameCount = ((3 : Nat) : Int) ∧
    sampleVideo.frames.length = 3 ∧ samplePalette ≠ [] ∧
    (∀ f ∈ sampleVideo.frames,
      ∃ g, limitScale (fun _ _ _ => none) f 5 5 = some g ∧ g.rows = 1 ∧ g.cols = 1) ∧
    ∃ grid, getBlocksVideo (fun _ _ _ => none) sampleVideo samplePalette 5 5 2 = some grid ∧
      grid.x = 1 ∧ grid.y = 1 ∧ (grid.z : Int) = min ((3 : Nat) : Int) 2 ∧
      (∀ k frame, sampleVideo.frames[k]? = some frame → k < grid.z →
        ∃ layer, getBlocks (fun _ _ _ => none) frame samplePalette 5 5 = some layer ∧
          ∀ x y, x < 1 → y < 1 → grid.blockIds x y k = layer.blockIds x y 0) ∧
      ∀ x y k, grid.z ≤ k → grid.blockIds x y k = "" :=
  have hsize : ∀ f ∈ sampleVideo.frames,
      ∃ g, limitScale (fun _ _ _ => none) f 5 5 = some g ∧ g.rows = 1 ∧ g.cols = 1 := by
    intro f hf
    simp only [sampleVideo, List.mem_cons, List.mem_singleton, List.not_mem_nil, or_false] at hf
    rcases hf with rfl | rfl | rfl <;>
      exact ⟨_, limitScale_within _ _ 5 5 (by decide) (by decide) (by decide), rfl, rfl⟩
  ⟨by decide, by decide, rfl, rfl, by simp [samplePalette], hsize,
    getBlocksVideo_layers (fun _ _ _ => none) sampleVideo samplePalette 5 5 2 3 1 1 (by decide)
      (by decide) rfl rfl (by simp [samplePalette]) hsize⟩

/-- C22 (the code at the three-frame sample video with `maxWidth = 5`, `maxHeight = 2` and
`maxFrameCount = 3`): `makeStructurePack` encodes the grid of the video `getBlocks` called with
the width bound 3, the height bound 5 and the frame cap 2, so the combined structure has
depth 2, the value of `maxHeight`, and not `min(3, maxFrameCount) = 3`. -/
theorem makeStructurePack_video_depth (resize : Mat → Int → Int → Option Mat) :
    ∃ blocks, getBlocksVideo resize sampleVideo samplePalette 3 5 2 = some blocks ∧
      makeStructurePackVideo resize sampleVideo samplePalette Plane.XY_Z 5 2 3 =
        some (getMcstructure blocks Plane.XY_Z) ∧
      (getMcstructure blocks Plane.XY_Z).size = [1, 1, 2] := by
  have hsize : ∀ f ∈ sampleVideo.frames,
      ∃ g, limitScale resize f 3 5 = some g ∧ g.rows = 1 ∧ g.cols = 1 := by
    intro f hf
    simp only [sampleVideo, List.mem_cons, List.mem_singleton, List.not_mem_nil, or_false] at hf
    rcases hf with rfl | rfl | rfl <;>
      exact ⟨_, limitScale_within _ _ 3 5 (by decide) (by decide) (by decide), rfl, rfl⟩
  obtain ⟨grid, hloop, hx, hy, hz, _, _⟩ :=
    getBlocksVideoLoop_spec resize samplePalette (by simp [samplePalette]) 3 5 2 1 1
      sampleVideo.frames 0 (BlockCube.new 0 0 0) hsize (by decide) (by decide)
      (fun h => absurd rfl h)
  have hvideo : getBlocksVideo resize sampleVideo samplePalette 3 5 2 = some grid := by
    have hclamp : (if sampleVideo.frameCount > 2 then (2 : Int) else sampleVideo.frameCount) =
        ((2 : Nat) : Int) := by decide
    simp only [getBlocksVideo, hclamp]
    exact hloop
  refine ⟨grid, hvideo, ?_, ?_⟩
  · simp only [makeStructurePackVideo, hvideo, Option.map_some']
  · show [((planeDims grid Plane.XY_Z).1 : Int), ((planeDims grid Plane.XY_Z).2.1 : Int),
      ((planeDims grid Plane.XY_Z).2.2 : Int)] = [1, 1, 2]
    simp only [planeDims, hx, hy, hz]
    rfl

/-! ## Voxelizer: usage counts -/

theorem lookup_bump (t : String) (l : List (String × Int)) (s : String) :
    (l.map fun e => if e.1 = t then (e.1, e.2 + 1) else e).lookup s =
      if s = t then (l.lookup s).map (· + 1) else l.lookup s := by
  induction l with
  | nil => simp
  | cons e l ih =>
    obtain ⟨k, v⟩ := e
    by_cases hsk : s = k
    · subst hsk
      by_cases hst : s = t
      · simp [List.lookup_cons, hst]
      · simp [List.lookup_cons, hst]
    · have hne : (s == k) = false := by simpa using hsk
      by_cases hkt : k = t
      · simp only [List.map_cons, hkt, if_true, List.lookup_cons]
        rw [← hkt, hne]
        simp only [hkt]
        exact ih
      · simp only [List.map_cons, hkt, if_false, List.lookup_cons, hne]
        exact ih

/-- After the block ids `ids` have been recorded in an empty map, the map holds exactly the ids
that occurred, each with the number of its occurrences less one. -/
theorem recordUsage_foldl (ids : List String) :
    ∀ s, (ids.foldl recordUsage []).lookup s =
      if s ∈ ids then some ((ids.count s : Int) - 1) else none := by
  induction ids using List.reverseRecOn with
  | nil => intro s; simp
  | append_singleton ids t ih =>
    intro s
    rw [List.foldl_append, List.foldl_cons, List.foldl_nil]
    by_cases ht : t ∈ ids
    · have hlook : (ids.foldl recordUsage []).lookup t = some ((ids.count t : Int) - 1) := by
        rw [ih t, if_pos ht]
      have hstep : recordUsage (ids.foldl recordUsage []) t =
          (ids.foldl recordUsage []).map fun e => if e.1 = t then (e.1, e.2 + 1) else e := by
        simp only [recordUsage, hlook]
      rw [hstep, lookup_bump]
      by_cases hst : s = t
      · subst hst
        simp [hlook, ht]
      · have hts : ¬ t = s := fun h => hst h.symm
        rw [if_neg hst, ih s]
        simp [hst, hts, List.count_singleton]
    · have hlook : (ids.foldl recordUsage []).lookup t = none := by
        rw [ih t, if_neg ht]
      have hstep : recordUsage (ids.foldl recordUsage []) t =
          ids.foldl recordUsage [] ++ [(t, 0)] := by
        simp only [recordUsage, hlook]
      rw [hstep, List.lookup_append, ih s]
      by_cases hs : s ∈ ids
      · have hst : ¬ s = t := fun h => ht (h ▸ hs)
        have hts : ¬ t = s := fun h => hst h.symm
        simp [hs, hst, hts, List.count_singleton]
      · by_cases hst : s = t
        · subst hst
          simp [hs, List.count_eq_zero.mpr hs]
        · have hne : (s == t) = false := by simpa using hst
          simp [hs, hst, List.lookup_cons, hne]

theorem foldl_pair_snd {α β γ : Type} (F : β → α → β) (G : γ → α → γ) :
    ∀ (l : List α) (b : β) (c : γ),
      (l.foldl (fun st p => (F st.1 p, G st.2 p)) (b, c)).2 = l.foldl G c := by
  intro l
  induction l with
  | nil => intro b c; rfl
  | cons a l ih => intro b c; simp only [List.foldl_cons, ih]

/-- With a non-empty palette the counting `getBlocks` runs to its end; the map it leaves is the
one obtained by recording the nearest block id of every pixel of the mirrored image in loop
order. -/
theorem getBlocksScaledInfo_counts (img : Mat) (modis : BIModis) (hne : modis ≠ [])
    (blocksInfo : List (String × Int)) :
    (getBlocksScaledInfo img modis blocksInfo).map (fun r => r.2) =
      some (((pixelOrder img.rows img.cols).map fun p =>
        nearestId (bgrToRgb ((flipHorizontal img).pixel p.1 p.2)) modis).foldl
          recordUsage blocksInfo) := by
  have hpixel : ∀ (st : BlockCube × List (String × Int)) (row col : Nat),
      getBlocksPixelInfo (flipHorizontal img) modis st row col =
        some (st.1.set col ((flipHorizontal img).rows - 1 - row) 0
            (nearestId (bgrToRgb ((flipHorizontal img).pixel row col)) modis),
          recordUsage st.2 (nearestId (bgrToRgb ((flipHorizontal img).pixel row col)) modis)) := by
    intro st row col
    obtain ⟨e, he, _, hid⟩ :=
      nearestId_spec (bgrToRgb ((flipHorizontal img).pixel row col)) modis hne
    simp [getBlocksPixelInfo, he, hid]
  have hrun : getBlocksScaledInfo img modis blocksInfo =
      some ((pixelOrder img.rows img.cols).foldl
        (fun st p => (st.1.set p.2 ((flipHorizontal img).rows - 1 - p.1) 0
            (nearestId (bgrToRgb ((flipHorizontal img).pixel p.1 p.2)) modis),
          recordUsage st.2 (nearestId (bgrToRgb ((flipHorizontal img).pixel p.1 p.2)) modis)))
        (BlockCube.new img.cols img.rows 1, blocksInfo)) := by
    unfold getBlocksScaledInfo pixelOrder
    rw [foldl_flatMap_eq]
    simp only [List.foldl_map]
    apply foldlM_eq_some_foldl
    intro st row
    apply foldlM_eq_some_foldl
    intro st col
    exact hpixel st row col
  rw [hrun, Option.map_some', List.foldl_map]
  congr 1
  exact foldl_pair_snd
    (fun (g : BlockCube) (p : Nat × Nat) => g.set p.2 ((flipHorizontal img).rows - 1 - p.1) 0
      (nearestId (bgrToRgb ((flipHorizontal img).pixel p.1 p.2)) modis))
    (fun (m : List (String × Int)) (p : Nat × Nat) =>
      recordUsage m (nearestId (bgrToRgb ((flipHorizontal img).pixel p.1 p.2)) modis)) _ _ _

/-- C23 (the code at the 2 x 4 all-black image with the single-entry palette `stone`): all
eight pixels are matched to `stone`, and the usage-count map, empty before the call, records
the count 7 for `stone`. -/
theorem getBlocks_usage_count_short :
    (pixelOrder wideImage.rows wideImage.cols).length = 8 ∧
    (∀ row col, rgbNearest (bgrToRgb ((flipHorizontal wideImage).pixel row col)) stonePalette 0 =
      some { blockId := "stone", textureName := "stone.png", color := ⟨125, 125, 125⟩ }) ∧
    (getBlocksScaledInfo wideImage stonePalette []).map (fun r => r.2) = some [("stone", 7)] := by
  have hstone : ∀ rgb : Rgb, rgbNearest rgb stonePalette 0 =
      some { blockId := "stone", textureName := "stone.png", color := ⟨125, 125, 125⟩ } := by
    intro rgb
    obtain ⟨e, he, hmem, _⟩ := nearestId_spec rgb stonePalette (by simp [stonePalette])
    simp only [stonePalette, List.mem_singleton] at hmem
    rw [he, hmem]
  have hid : ∀ rgb : Rgb, nearestId rgb stonePalette = "stone" := by
    intro rgb
    simp only [nearestId, hstone]
  refine ⟨by decide, fun _ _ => hstone _, ?_⟩
  rw [getBlocksScaledInfo_counts wideImage stonePalette (by simp [stonePalette])]
  simp only [hid]
  decide

/-! ## Encoders on grids without voxels -/

/-- For a grid without voxels `getCommands` returns no command (the result of the embedding,
which does not see whether a read was out of range). -/
theorem getCommands_no_voxels (blocks : BlockCube) (plane : Plane)
    (h : blocks.x = 0 ∨ blocks.y = 0 ∨ blocks.z = 0) : getCommands blocks plane = [] := by
  unfold getCommands
  rcases h with h | h | h
  · have hrow : ∀ y z, rowCommands blocks plane y z = [] := by
      intro y z
      simp [rowCommands, h, scanInit]
    simp [hrow]
  · simp [h]
  · simp [h]

/-- For a grid without voxels `getMcstructure` emits empty index arrays and an empty palette;
its loops do not run, so it reads no cell. -/
theorem getMcstructure_no_voxels (blocks : BlockCube) (plane : Plane)
    (h : blocks.x = 0 ∨ blocks.y = 0 ∨ blocks.z = 0) :
    (getMcstructure blocks plane).data1 = [] ∧ (getMcstructure blocks plane).data2 = [] ∧
      (getMcstructure blocks plane).blockPalette = [] := by
  have hcells : logicalCells blocks plane = [] := by
    apply List.eq_nil_of_length_eq_zero
    rw [logicalCells_length]
    cases plane <;> simp only [planeDims] <;> rcases h with h | h | h <;> simp [h]
  have hrun : getMcstructure blocks plane =
      { formatVersion := 1
        size := [((planeDims blocks plane).1 : Int), ((planeDims blocks plane).2.1 : Int),
          ((planeDims blocks plane).2.2 : Int)]
        data1 := [], data2 := [], blockPalette := [], structureWorldOrigin := [0, 0, 0] } := by
    unfold getMcstructure
    simp only [encodeLoop_eq_foldl, hcells, List.foldl_nil]
  rw [hrun]
  exact ⟨rfl, rfl, rfl⟩

/-- The sample catalog filtered for the face mask `Side`, the alignment `Vertical`, the
attribute mask 0 and the threshold 1.0.0: the lamp (attribute outside the mask) and the carpet
(only horizontal) are skipped. -/
theorem rawsToModis_sample :
    (rawsToModis sampleCatalog 31 2 0 ⟨1, 0, 0⟩).map (fun l => l.map fun m => m.blockId) =
      some ["stone", "cherry"] := by
  decide

/-! ## Structure encoder: the tag tree -/

theorem foldl_push_list {α : Type} (f : α → Tag) (name : String) (l : List α) :
    ∀ items : List Tag,
      l.foldl (fun tag v => tag.push (f v)) (Tag.list name items) =
        Tag.list name (items ++ l.map f) := by
  induction l with
  | nil => intro items; simp
  | cons a l ih =>
    intro items
    rw [List.foldl_cons]
    show l.foldl (fun tag v => tag.push (f v)) (Tag.list name (items ++ [f a])) = _
    rw [ih]
    simp

/-- C29 (as stated) fails: in the tag tree of the 1x1x1 grid holding `air` the root carries,
in this order, `format_version`, `size`, `structure` and `structure_world_origin`, so the
world-origin triple comes last, after the index arrays and the palette, which sit inside
`structure` next to the further fields `entities` and `block_position_data`. -/
theorem structure_tag_order_counterexample :
    (getMcstructureTag (uniformCube 1 1 1 "air") Plane.XY_Z).memberNames =
      ["format_version", "size", "structure", "structure_world_origin"] ∧
    ((getMcstructureTag (uniformCube 1 1 1 "air") Plane.XY_Z).member "structure").map
      Tag.memberNames = some ["block_indices", "entities", "palette"] ∧
    ((((getMcstructureTag (uniformCube 1 1 1 "air") Plane.XY_Z).member "structure").bind
      fun t => t.member "palette").bind fun t => t.member "default").map
      Tag.memberNames = some ["block_position_data", "block_palette"] ∧
    (getMcstructureTag (uniformCube 1 1 1 "air") Plane.XY_Z).memberNames ≠
      ["format_version", "size", "structure_world_origin", "block_indices", "block_palette"] := by
  refine ⟨?_, ?_, ?_, ?_⟩ <;> decide

/-- C29 (amended): the tag tree produced by `getMcstructure` (and by `getAirStructure`) is the
tree of its structure `s` that carries, in this order, the version marker `format_version`,
the size triple `size`, the compound `structure` (holding the list `block_indices` with the
primary and then the secondary index array, an empty list `entities`, and the compound
`palette` with the compound `default`, which holds an empty compound `block_position_data` and
the ordered block palette list `block_palette`) and, last, the world-origin triple
`structure_world_origin`. -/
theorem structure_tag_layout (blocks : BlockCube) (plane : Plane) (x y z : Int)
    (s : Mcstructure) :
    getMcstructureTag blocks plane = structureTag (getMcstructure blocks plane) ∧
    getAirStructureTag x y z plane = structureTag (getAirStructure x y z plane) ∧
    structureTag s =
      Tag.compound ""
        [Tag.int "format_version" s.formatVersion,
         Tag.list "size" (s.size.map fun v => Tag.int "" v),
         Tag.compound "structure"
           [Tag.list "block_indices"
              [Tag.list "" (s.data1.map fun (v : Nat) => Tag.int "" (v : Int)),
               Tag.list "" (s.data2.map fun v => Tag.int "" v)],
            Tag.list "entities" [],
            Tag.compound "palette"
              [Tag.compound "default"
                 [Tag.compound "block_position_data" [],
                  Tag.list "block_palette"
                    (s.blockPalette.map fun block =>
                      Tag.compound ""
                        [Tag.compound "states" [], Tag.int "version" block.version,
                         Tag.string "name" block.name])]]],
         Tag.list "structure_world_origin"
           (s.structureWorldOrigin.map fun v => Tag.int "" v)] := by
  refine ⟨rfl, rfl, ?_⟩
  unfold structureTag
  simp only [foldl_push_list]
  simp only [Tag.push, List.nil_append, List.cons_append]
  rfl

/-! ## Pack manifest -/

theorem hexmap_mem (k : Nat) (hk : k ≤ 15) : hexmap.getD k '0' ∈ "0123456789abcdef".toList := by
  interval_cases k <;> decide

theorem hexmap_variant (k : Nat) (h8 : 8 ≤ k) (h11 : k ≤ 11) :
    hexmap.getD k '0' = '8' ∨ hexmap.getD k '0' = '9' ∨ hexmap.getD k '0' = 'a' ∨
      hexmap.getD k '0' = 'b' := by
  interval_cases k <;> decide

/-- The characters of the string `genUuidV4` returns, written out. -/
theorem genUuidV4_data (uni : Nat → Nat) (uni2 : Nat) :
    (genUuidV4 uni uni2).data =
      [hexmap.getD (uni 0) '0', hexmap.getD (uni 1) '0', hexmap.getD (uni 2) '0',
       hexmap.getD (uni 3) '0', hexmap.getD (uni 4) '0', hexmap.getD (uni 5) '0',
       hexmap.getD (uni 6) '0', hexmap.getD (uni 7) '0', '-',
       hexmap.getD (uni 8) '0', hexmap.getD (uni 9) '0', hexmap.getD (uni 10) '0',
       hexmap.getD (uni 11) '0', '-',
       '4', hexmap.getD (uni 13) '0', hexmap.getD (uni 14) '0', hexmap.getD (uni 15) '0', '-',
       hexmap.getD uni2 '0', hexmap.getD (uni 17) '0', hexmap.getD (uni 18) '0',
       hexmap.getD (uni 19) '0', '-',
       hexmap.getD (uni 20) '0', hexmap.getD (uni 21) '0', hexmap.getD (uni 22) '0',
       hexmap.getD (uni 23) '0', hexmap.getD (uni 24) '0', hexmap.getD (uni 25) '0',
       hexmap.getD (uni 26) '0', hexmap.getD (uni 27) '0', hexmap.getD (uni 28) '0',
       hexmap.getD (uni 29) '0', hexmap.getD (uni 30) '0', hexmap.getD (uni 31) '0'] := by
  have hrange : List.range 32 =
      [0, 1, 2, 3, 4, 5, 6, 7, 8, 9, 10, 11, 12, 13, 14, 15, 16, 17, 18, 19, 20, 21, 22, 23, 24,
       25, 26, 27, 28, 29, 30, 31] := by decide
  unfold genUuidV4
  rw [hrange]
  simp

/-- C30: for every outcome of the random draws (values of `uni` in `0..15`, value of `uni2` in
`8..11`), `genUuidV4` returns a well-formed UUID version 4 string: 36 characters, hyphens
exactly at the positions 8, 13, 18 and 23, lowercase hexadecimal digits elsewhere, the
character at position 14 is `4` and the character at position 19 is one of `8`, `9`, `a`,
`b`. -/
theorem genUuidV4_wellformed (uni : Nat → Nat) (uni2 : Nat) (huni : ∀ i, uni i ≤ 15)
    (h8 : 8 ≤ uni2) (h11 : uni2 ≤ 11) :
    (genUuidV4 uni uni2).length = 36 ∧
    (∀ p, p < 36 →
      ∃ ch, (genUuidV4 uni uni2).data[p]? = some ch ∧
        if p = 8 ∨ p = 13 ∨ p = 18 ∨ p = 23 then ch = '-'
        else ch ∈ "0123456789abcdef".toList) ∧
    (genUuidV4 uni uni2).data[14]? = some '4' ∧
    ∃ ch, (genUuidV4 uni uni2).data[19]? = some ch ∧
      (ch = '8' ∨ ch = '9' ∨ ch = 'a' ∨ ch = 'b') := by
  have hdata := genUuidV4_data uni uni2
  have hhex : ∀ i, hexmap.getD (uni i) '0' ∈ "0123456789abcdef".toList :=
    fun i => hexmap_mem (uni i) (huni i)
  have hhex2 : hexmap.getD uni2 '0' ∈ "0123456789abcdef".toList :=
    hexmap_mem uni2 (by omega)
  refine ⟨?_, ?_, ?_, ?_⟩
  · show (genUuidV4 uni uni2).data.length = 36
    rw [hdata]
    rfl
  · intro p hp
    rw [hdata]
    interval_cases p
    all_goals refine ⟨_, rfl, ?_⟩
    all_goals clear hdata
    all_goals split_ifs
    all_goals first
      | rfl
      | (exfalso; simp at *; done)
      | exact hhex _
      | exact hhex2
      | (show '4' ∈ _; decide)
  · rw [hdata]
    rfl
  · rw [hdata]
    exact ⟨_, rfl, hexmap_variant uni2 h8 h11⟩

/-- C30 at the draws `uni i = i % 16` and `uni2 = 9`. -/
theorem genUuidV4_wellformed_witness :
    (∀ i, (fun i => i % 16) i ≤ 15) ∧ 8 ≤ 9 ∧ 9 ≤ 11 ∧
    ((genUuidV4 (fun i => i % 16) 9).length = 36 ∧
    (∀ p, p < 36 →
      ∃ ch, (genUuidV4 (fun i => i % 16) 9).data[p]? = some ch ∧
        if p = 8 ∨ p = 13 ∨ p = 18 ∨ p = 23 then ch = '-'
        else ch ∈ "0123456789abcdef".toList) ∧
    (genUuidV4 (fun i => i % 16) 9).data[14]? = some '4' ∧
    ∃ ch, (genUuidV4 (fun i => i % 16) 9).data[19]? = some ch ∧
      (ch = '8' ∨ ch = '9' ∨ ch = 'a' ∨ ch = 'b')) :=
  ⟨fun i => Nat.le_of_lt_succ (Nat.mod_lt i (by decide)), by decide, by decide,
    genUuidV4_wellformed (fun i => i % 16) 9
      (fun i => Nat.le_of_lt_succ (Nat.mod_lt i (by decide))) (by decide) (by decide)⟩

/-- The string `genUuidV4` returns for the draws `uni i = i % 16` and `uni2 = 9`. -/
theorem genUuidV4_sample :
    genUuidV4 (fun i => i % 16) 9 = "01234567-89ab-4def-9123-456789abcdef" := by
  decide

/-! ## Palette matcher: range and symmetry of the score -/

theorem chanDiff_eq_zero_iff (a b : Fin 256) : chanDiff a b = 0 ↔ a = b := by
  unfold chanDiff
  constructor
  · intro h
    apply Fin.ext
    omega
  · intro h
    rw [h]
    omega

theorem square_chanDiff_comm (a b : Fin 256) :
    square ((chanDiff a b : Int) : ℚ) = square ((chanDiff b a : Int) : ℚ) := by
  have h : (chanDiff b a : Int) = -(chanDiff a b) := by unfold chanDiff; omega
  rw [h]
  unfold square
  push_cast
  ring

theorem square_chanDiff_eq_zero_iff (a b : Fin 256) :
    square ((chanDiff a b : Int) : ℚ) = 0 ↔ a = b := by
  rw [← chanDiff_eq_zero_iff]
  unfold square
  constructor
  · intro h
    have h2 : ((chanDiff a b : Int) : ℚ) = 0 := by
      rcases mul_eq_zero.mp h with h | h <;> exact h
    exact_mod_cast h2
  · intro h
    rw [h]
    norm_num

/-- A weighted sum of the three squared channel differences with positive weights is `0` only
for equal colours. -/
theorem weighted_sum_eq_zero_iff (a b : Rgb) (wr wg wb : ℚ) (hr : 0 < wr) (hg : 0 < wg)
    (hb : 0 < wb) :
    square ((chanDiff a.r b.r : Int) : ℚ) * wr + square ((chanDiff a.g b.g : Int) : ℚ) * wg +
      square ((chanDiff a.b b.b : Int) : ℚ) * wb = 0 ↔ a = b := by
  have h1 := square_nonneg ((chanDiff a.r b.r : Int) : ℚ)
  have h2 := square_nonneg ((chanDiff a.g b.g : Int) : ℚ)
  have h3 := square_nonneg ((chanDiff a.b b.b : Int) : ℚ)
  constructor
  · intro h
    have e1 : square ((chanDiff a.r b.r : Int) : ℚ) = 0 := by nlinarith
    have e2 : square ((chanDiff a.g b.g : Int) : ℚ) = 0 := by nlinarith
    have e3 : square ((chanDiff a.b b.b : Int) : ℚ) = 0 := by nlinarith
    have r1 := (square_chanDiff_eq_zero_iff _ _).mp e1
    have r2 := (square_chanDiff_eq_zero_iff _ _).mp e2
    have r3 := (square_chanDiff_eq_zero_iff _ _).mp e3
    cases a
    cases b
    simp only at r1 r2 r3
    rw [r1, r2, r3]
  · intro h
    rw [h, (square_chanDiff_eq_zero_iff b.r b.r).mpr rfl,
      (square_chanDiff_eq_zero_iff b.g b.g).mpr rfl, (square_chanDiff_eq_zero_iff b.b b.b).mpr rfl]
    ring

/-- C33: for all pairs of 8-bit colours and for both supported weight sets (type 0 and
type 1), `rgbSimilarity` computed in exact arithmetic lies in the closed interval `[0, 1]`,
equals `1` exactly when the two colours are equal, and is symmetric in its two colour
arguments. -/
theorem rgbSimilarity_unit_interval (a b : Rgb) :
    (0 ≤ rgbSimilarity a b 0 ∧ rgbSimilarity a b 0 ≤ 1 ∧ (rgbSimilarity a b 0 = 1 ↔ a = b) ∧
      rgbSimilarity a b 0 = rgbSimilarity b a 0) ∧
    (0 ≤ rgbSimilarity a b 1 ∧ rgbSimilarity a b 1 ≤ 1 ∧ (rgbSimilarity a b 1 = 1 ↔ a = b) ∧
      rgbSimilarity a b 1 = rgbSimilarity b a 1) := by
  have h1 := square_nonneg ((chanDiff a.r b.r : Int) : ℚ)
  have h2 := square_nonneg ((chanDiff a.g b.g : Int) : ℚ)
  have h3 := square_nonneg ((chanDiff a.b b.b : Int) : ℚ)
  have c1 := square_chanDiff_comm a.r b.r
  have c2 := square_chanDiff_comm a.g b.g
  have c3 := square_chanDiff_comm a.b b.b
  have z0 := weighted_sum_eq_zero_iff a b 0.32 0.52 0.16 (by norm_num) (by norm_num)
    (by norm_num)
  have z1 := weighted_sum_eq_zero_iff a b 0.299 0.587 0.114 (by norm_num) (by norm_num)
    (by norm_num)
  refine ⟨⟨rgbSimilarity_nonneg a b 0, ?_, ?_, ?_⟩, ⟨rgbSimilarity_nonneg a b 1, ?_, ?_, ?_⟩⟩
  · simp only [rgbSimilarity, if_true]
    rw [sub_le_self_iff]
    apply div_nonneg _ (by norm_num)
    nlinarith
  · simp only [rgbSimilarity, if_true]
    rw [← z0]
    constructor
    · intro h
      have : (square ((chanDiff a.r b.r : Int) : ℚ) * 0.32 +
          square ((chanDiff a.g b.g : Int) : ℚ) * 0.52 +
          square ((chanDiff a.b b.b : Int) : ℚ) * 0.16) / 65025 = 0 := by linarith
      rcases div_eq_zero_iff.mp this with h | h
      · exact h
      · norm_num at h
    · intro h
      rw [h]
      norm_num
  · simp only [rgbSimilarity, if_true]
    rw [c1, c2, c3]
  · simp only [rgbSimilarity, one_ne_zero, if_false, if_true]
    rw [sub_le_self_iff]
    apply div_nonneg _ (by norm_num)
    nlinarith
  · simp only [rgbSimilarity, one_ne_zero, if_false, if_true]
    rw [← z1]
    constructor
    · intro h
      have : (square ((chanDiff a.r b.r : Int) : ℚ) * 0.299 +
          square ((chanDiff a.g b.g : Int) : ℚ) * 0.587 +
          square ((chanDiff a.b b.b : Int) : ℚ) * 0.114) / 65025 = 0 := by linarith
      rcases div_eq_zero_iff.mp this with h | h
      · exact h
      · norm_num at h
    · intro h
      rw [h]
      norm_num
  · simp only [rgbSimilarity, one_ne_zero, if_false, if_true]
    rw [c1, c2, c3]

/-! ## Structure encoder: grid accesses -/

theorem planeCell_eq_index (blocks : BlockCube) (plane : Plane) (x y z : Nat) :
    planeCell blocks plane x y z =
      blocks.blockIds (planeIndex plane x y z).1 (planeIndex plane x y z).2.1
        (planeIndex plane x y z).2.2 := by
  cases plane <;> rfl

theorem mem_getMcstructureReads (blocks : BlockCube) (plane : Plane) (p : Nat × Nat × Nat) :
    p ∈ getMcstructureReads blocks plane ↔
      ∃ x y z, x < (planeDims blocks plane).1 ∧ y < (planeDims blocks plane).2.1 ∧
        z < (planeDims blocks plane).2.2 ∧ planeIndex plane x y z = p := by
  simp only [getMcstructureReads, List.mem_flatMap, List.mem_map, List.mem_range]
  constructor
  · rintro ⟨x, hx, y, hy, z, hz, rfl⟩
    exact ⟨x, y, z, hx, hy, hz, rfl⟩
  · rintro ⟨x, y, z, hx, hy, hz, rfl⟩
    exact ⟨x, hx, y, hy, z, hz, rfl⟩

/-- C36: for every plane and every grid, every grid cell lookup performed by `getMcstructure`
is within the bounds of the grid: the lookups are the images of the logical index box
`[0,xs) x [0,ys) x [0,zs)` under the coordinate permutation of the plane, the cell read at a
logical index is the grid cell at its image, and the permutation maps the logical box
one-to-one onto the index box `[0,X) x [0,Y) x [0,Z)` of the grid. -/
theorem getMcstructure_reads_in_bounds (blocks : BlockCube) (plane : Plane) :
    (∀ p ∈ getMcstructureReads blocks plane, blocks.InRange p) ∧
    (∀ x y z, planeCell blocks plane x y z =
      blocks.blockIds (planeIndex plane x y z).1 (planeIndex plane x y z).2.1
        (planeIndex plane x y z).2.2) ∧
    (∀ x y z, x < (planeDims blocks plane).1 → y < (planeDims blocks plane).2.1 →
      z < (planeDims blocks plane).2.2 → blocks.InRange (planeIndex plane x y z)) ∧
    (∀ x y z x' y' z', planeIndex plane x y z = planeIndex plane x' y' z' →
      x = x' ∧ y = y' ∧ z = z') ∧
    (∀ p, blocks.InRange p →
      ∃ x y z, x < (planeDims blocks plane).1 ∧ y < (planeDims blocks plane).2.1 ∧
        z < (planeDims blocks plane).2.2 ∧ planeIndex plane x y z = p) ∧
    (getMcstructureReads blocks plane).Nodup := by
  have hbox : ∀ x y z, x < (planeDims blocks plane).1 → y < (planeDims blocks plane).2.1 →
      z < (planeDims blocks plane).2.2 → blocks.InRange (planeIndex plane x y z) := by
    intro x y z hx hy hz
    cases plane <;> exact ⟨by assumption, by assumption, by assumption⟩
  have hinj : ∀ x y z x' y' z', planeIndex plane x y z = planeIndex plane x' y' z' →
      x = x' ∧ y = y' ∧ z = z' := by
    intro x y z x' y' z' h
    cases plane <;> simp only [planeIndex, Prod.mk.injEq] at h <;>
      exact ⟨by omega, by omega, by omega⟩
  refine ⟨?_, planeCell_eq_index blocks plane, hbox, hinj, ?_, ?_⟩
  · intro p hp
    obtain ⟨x, y, z, hx, hy, hz, rfl⟩ := (mem_getMcstructureReads blocks plane p).mp hp
    exact hbox x y z hx hy hz
  · rintro ⟨px, py, pz⟩ ⟨h1, h2, h3⟩
    cases plane
    · exact ⟨px, py, pz, h1, h2, h3, rfl⟩
    · exact ⟨pz, py, px, h3, h2, h1, rfl⟩
    · exact ⟨px, pz, py, h1, h3, h2, rfl⟩
  · unfold getMcstructureReads
    rw [List.nodup_flatMap]
    refine ⟨?_, ?_⟩
    · intro x _
      rw [List.nodup_flatMap]
      refine ⟨?_, ?_⟩
      · intro y _
        refine List.Nodup.map ?_ (List.nodup_range _)
        intro z z' h
        exact (hinj x y z x y z' h).2.2
      · refine List.Pairwise.imp_of_mem ?_ (List.nodup_range _)
        intro y y' _ _ hne
        simp only [Function.onFun, List.disjoint_left, List.mem_map, List.mem_range]
        rintro p ⟨z, _, rfl⟩ ⟨z', _, h⟩
        exact hne (hinj x y' z' x y z h).2.1.symm
    · refine List.Pairwise.imp_of_mem ?_ (List.nodup_range _)
      intro x x' _ _ hne
      simp only [Function.onFun, List.disjoint_left, List.mem_flatMap, List.mem_map,
        List.mem_range]
      rintro p ⟨y, _, z, _, rfl⟩ ⟨y', _, z', _, h⟩
      exact hne (hinj x' y' z' x y z h).1.symm

/-! ## Command encoder: form of the commands, the full signature -/

/-- The string pushed for a cluster, written out. -/
theorem clusterCommand_eq (c : BlockCluster) :
    clusterCommand c =
      "execute as @p at @s  run fill ~" ++ toString c.posFrom.x ++ " ~" ++
        toString c.posFrom.y ++ " ~" ++ toString c.posFrom.z ++ " ~" ++ toString c.posTo.x ++
        " ~" ++ toString c.posTo.y ++ " ~" ++ toString c.posTo.z ++ " " ++ c.blockId ++
        " replace" := by
  apply String.ext
  simp [clusterCommand, execute, executeRaw, fill, selectorStr, posModeStr, String.data_append]

/-- Every command pushed during the scan of a row is the string of a cluster. -/
theorem scan_commands_clusters (blocks : BlockCube) (plane : Plane) (y z : Nat) :
    ∀ n, ∀ cmd ∈ ((List.range n).foldl (scanStep blocks plane y z)
      (scanInit blocks y z)).commands, ∃ c : BlockCluster, cmd = clusterCommand c := by
  intro n
  induction n with
  | zero =>
    intro cmd hcmd
    simp [scanInit] at hcmd
  | succ n ih =>
    intro cmd hcmd
    rw [List.range_succ, List.foldl_append] at hcmd
    simp only [List.foldl_cons, List.foldl_nil, scanStep] at hcmd
    split_ifs at hcmd with h1 h2
    · simp only [Function.iterate_succ, Function.iterate_zero, Function.comp_apply, id_eq,
        flushOnce, List.mem_append, List.mem_singleton] at hcmd
      rcases hcmd with (hcmd | hcmd) | hcmd
      · exact ih cmd hcmd
      · exact ⟨_, hcmd⟩
      · exact ⟨_, hcmd⟩
    · simp only [Function.iterate_succ, Function.iterate_zero, Function.comp_apply, id_eq,
        flushOnce, List.mem_append, List.mem_singleton] at hcmd
      rcases hcmd with hcmd | hcmd
      · exact ih cmd hcmd
      · exact ⟨_, hcmd⟩
    · exact ih cmd hcmd

/-- C34: every string returned by `getCommands` is a relative-position fill run from the
executing actor's own location: it has the form
`execute as @p at @s  run fill ~a ~b ~c ~d ~e ~f <blockId> replace` for integers `a` to `f`,
as built by `Command::execute` and `Command::fill`, so every one of its six coordinates
carries the relative mark `~` and no absolute coordinate appears. -/
theorem getCommands_relative_fill (blocks : BlockCube) (plane : Plane) :
    ∀ cmd ∈ getCommands blocks plane, ∃ (blockId : String) (a b c d e f : Int),
      cmd = execute Selector.Nearest Selector.Own
        (fill blockId { x := a, y := b, z := c } { x := d, y := e, z := f } PosMode.Relative) ∧
      cmd = "execute as @p at @s  run fill ~" ++ toString a ++ " ~" ++ toString b ++ " ~" ++
        toString c ++ " ~" ++ toString d ++ " ~" ++ toString e ++ " ~" ++ toString f ++ " " ++
        blockId ++ " replace" := by
  intro cmd hcmd
  simp only [getCommands, List.mem_flatMap, List.mem_range] at hcmd
  obtain ⟨z, _, y, _, hrow⟩ := hcmd
  obtain ⟨c, rfl⟩ := scan_commands_clusters blocks plane y z blocks.x cmd hrow
  exact ⟨c.blockId, c.posFrom.x, c.posFrom.y, c.posFrom.z, c.posTo.x, c.posTo.y, c.posTo.z,
    rfl, clusterCommand_eq c⟩

/-- C34 at the first command of the row `a a b c c`. -/
theorem getCommands_relative_fill_witness :
    "execute as @p at @s  run fill ~0 ~0 ~0 ~1 ~0 ~0 a replace" ∈
      getCommands stripeCube Plane.XY_Z ∧
    ∃ (blockId : String) (a b c d e f : Int),
      "execute as @p at @s  run fill ~0 ~0 ~0 ~1 ~0 ~0 a replace" =
        execute Selector.Nearest Selector.Own
          (fill blockId { x := a, y := b, z := c } { x := d, y := e, z := f }
            PosMode.Relative) ∧
      "execute as @p at @s  run fill ~0 ~0 ~0 ~1 ~0 ~0 a replace" =
        "execute as @p at @s  run fill ~" ++ toString a ++ " ~" ++ toString b ++ " ~" ++
          toString c ++ " ~" ++ toString d ++ " ~" ++ toString e ++ " ~" ++ toString f ++ " " ++
          blockId ++ " replace" :=
  ⟨by decide, getCommands_relative_fill stripeCube Plane.XY_Z _ (by decide)⟩

theorem getCommandsArgs_default (blocks : BlockCube) (plane : Plane) :
    getCommandsArgs blocks plane true { x := 0, y := 0, z := 1 } = getCommands blocks plane :=
  rfl

/-- C40: the output of `getCommands` does not depend on its `useNewExecute` and `offset`
arguments: for every grid and plane, any two calls that differ only in `useNewExecute` or
`offset` return the identical command sequence, and the commands `makeFunctionPack` generates
do not depend on its `useNewExecute` flag; with `useNewExecute = false` and the offset
`(7, 8, 9)` the row `a a b c c` still yields the four `execute as @p at @s` fills at the
coordinates of its runs. -/
theorem getCommands_ignores_flags (blocks : BlockCube) (plane : Plane)
    (useNewExecute useNewExecute' : Bool) (offset offset' : Posli)
    (resize : Mat → Int → Int → Option Mat) (img : Mat) (modis : BIModis)
    (maxWidth maxHeight : Int) :
    getCommandsArgs blocks plane useNewExecute offset =
      getCommandsArgs blocks plane useNewExecute' offset' ∧
    makeFunctionPackCommands resize img modis plane maxWidth maxHeight useNewExecute =
      makeFunctionPackCommands resize img modis plane maxWidth maxHeight useNewExecute' ∧
    getCommandsArgs stripeCube Plane.XY_Z false { x := 7, y := 8, z := 9 } =
      ["execute as @p at @s  run fill ~0 ~0 ~0 ~1 ~0 ~0 a replace",
       "execute as @p at @s  run fill ~2 ~0 ~0 ~2 ~0 ~0 b replace",
       "execute as @p at @s  run fill ~3 ~0 ~0 ~3 ~0 ~0 c replace",
       "execute as @p at @s  run fill ~4 ~0 ~0 ~4 ~0 ~0 c replace"] := by
  refine ⟨rfl, rfl, ?_⟩
  decide

/-! ## Version comparison -/

/-- A left shift combined by exclusive or with a number below the shifted range is a sum. -/
theorem shiftLeft_xor_eq_add (a b i : Nat) (hb : b < 2 ^ i) : (a <<< i) ^^^ b = 2 ^ i * a + b := by
  apply Nat.eq_of_testBit_eq
  intro j
  rw [Nat.testBit_xor, Nat.testBit_shiftLeft, Nat.testBit_mul_pow_two_add a hb]
  by_cases hj : j < i
  · have hge : ¬ (j ≥ i) := by omega
    simp [hj, hge]
  · have hij : i ≤ j := by omega
    have hbit : b.testBit j = false :=
      Nat.testBit_lt_two_pow (lt_of_lt_of_le hb (Nat.pow_le_pow_right (by norm_num) hij))
    simp [hj, hij, hbit]

/-- The value of `Version::data` as a number: the packed triple, less `2^32` when the top bit
of `major` is set. -/
theorem Version.data_eq (v : Version) :
    v.data =
      if v.major.val < 128 then
        (v.major.val : Int) * 16777216 + (v.minor.val : Int) * 65536 + (v.patch.val : Int)
      else
        (v.major.val : Int) * 16777216 + (v.minor.val : Int) * 65536 + (v.patch.val : Int) -
          4294967296 := by
  have h1 := v.major.isLt
  have h2 := v.minor.isLt
  have h3 := v.patch.isLt
  have hlow : (v.minor.val <<< 16) ^^^ v.patch.val = 2 ^ 16 * v.minor.val + v.patch.val :=
    shiftLeft_xor_eq_add _ _ 16 (by omega)
  have hall : (v.major.val <<< 24) ^^^ (v.minor.val <<< 16) ^^^ v.patch.val =
      2 ^ 24 * v.major.val + (2 ^ 16 * v.minor.val + v.patch.val) := by
    rw [Nat.xor_assoc, hlow]
    exact shiftLeft_xor_eq_add _ _ 24 (by omega)
  unfold Version.data
  simp only [hall]
  have hmod : (2 ^ 24 * v.major.val + (2 ^ 16 * v.minor.val + v.patch.val)) % 2 ^ 32 =
      2 ^ 24 * v.major.val + (2 ^ 16 * v.minor.val + v.patch.val) :=
    Nat.mod_eq_of_lt (by omega)
  rw [hmod]
  split_ifs <;> push_cast <;> omega

/-- The operator `==` of `Version` holds exactly for equal triples. -/
theorem Version.eq_iff (a b : Version) : a.eq b = true ↔ a = b := by
  have ha := a.data_eq
  have hb := b.data_eq
  have a1 := a.major.isLt
  have a2 := a.minor.isLt
  have a3 := a.patch.isLt
  have b1 := b.major.isLt
  have b2 := b.minor.isLt
  have b3 := b.patch.isLt
  simp only [Version.eq, decide_eq_true_eq]
  constructor
  · intro h
    rw [ha, hb] at h
    have hmaj : a.major.val = b.major.val := by split_ifs at h <;> omega
    have hmin : a.minor.val = b.minor.val := by split_ifs at h <;> omega
    have hpat : a.patch.val = b.patch.val := by split_ifs at h <;> omega
    cases a
    cases b
    simp only at hmaj hmin hpat
    rw [Fin.ext hmaj, Fin.ext hmin, Fin.ext hpat]
  · intro h
    rw [h]

/-- For two versions whose `major` is below 128 the operator `<` of `Version` is the
lexicographic order of the triples. -/
theorem Version.lt_iff_of_major_lt (a b : Version) (ha : a.major.val < 128)
    (hb : b.major.val < 128) : a.lt b = true ↔ a.lexLt b := by
  have a2 := a.minor.isLt
  have a3 := a.patch.isLt
  have b2 := b.minor.isLt
  have b3 := b.patch.isLt
  simp only [Version.lt, decide_eq_true_eq, Version.lexLt, Fin.lt_def, Fin.ext_iff]
  rw [a.data_eq, b.data_eq, if_pos ha, if_pos hb]
  omega

/-- C37 (the code at the versions `200.0.0` and `1.0.0`): `data()` of `200.0.0` is the negative
number `-939524096`, below the `16777216` of `1.0.0`, so `200.0.0 < 1.0.0` holds and
`1.0.0 < 200.0.0` does not, although the triple `(1, 0, 0)` is the lexicographically smaller
one. -/
theorem version_order_sign_bit :
    (⟨200, 0, 0⟩ : Version).data = -939524096 ∧
    (⟨1, 0, 0⟩ : Version).data = 16777216 ∧
    Version.lt ⟨200, 0, 0⟩ ⟨1, 0, 0⟩ = true ∧
    Version.lt ⟨1, 0, 0⟩ ⟨200, 0, 0⟩ = false ∧
    Version.gt ⟨200, 0, 0⟩ ⟨1, 0, 0⟩ = false ∧
    Version.le ⟨200, 0, 0⟩ ⟨1, 0, 0⟩ = true ∧
    Version.lexLt ⟨1, 0, 0⟩ ⟨200, 0, 0⟩ ∧
    ¬ Version.lexLt ⟨200, 0, 0⟩ ⟨1, 0, 0⟩ := by
  refine ⟨?_, ?_, ?_, ?_, ?_, ?_, ?_, ?_⟩ <;> decide

/-! ## Resizing: the smallest target -/

/-- Without rounding the decision of `limitScale` is the one of the exact model. -/
theorem limitScaleTargetBy_exact (width height maxWidth maxHeight : Int) :
    limitScaleTargetBy (fun q => q) width height maxWidth maxHeight =
      limitScaleTarget width height maxWidth maxHeight :=
  rfl

/-- The string `rgbToHexstr` builds: for each channel the character `0` followed by the
character whose code is the channel value. -/
theorem rgbToHexstr_data (rgb : Rgb) (isUppercase : Bool) :
    (rgbToHexstr rgb isUppercase).data =
      ['0', Char.ofNat rgb.r.val, '0', Char.ofNat rgb.g.val, '0', Char.ofNat rgb.b.val] := by
  cases isUppercase <;>
    simp [rgbToHexstr, byteToHexstr, String.data_append, String.singleton, String.length]

theorem hexstrStep_eq (hexstr : String) (rgb : Int × Int × Int) (i : Nat) :
    hexstrStep hexstr rgb i =
      (hexValue (hexstr.data.getD i (Char.ofNat 0))).map fun v =>
        addAt rgb (i / 2) (if i % 2 ≠ 0 then v else v * 16) := by
  simp only [hexstrStep, hexValue]
  split_ifs <;> rfl

/-- The character with the code of a channel value never reads back as that value: where it
is a hexadecimal digit, its value is at most 15 and differs from the code. -/
theorem hexValue_ofNat (n : Fin 256) :
    (hexValue (Char.ofNat n.val)).all (fun v => decide (0 ≤ v ∧ v ≤ 15 ∧ v ≠ (n.val : Int))) =
      true := by
  revert n
  decide

theorem hexValue_zero_char : hexValue '0' = some 0 := by decide

/-- The loop of `hexstrToRgb` on the string `rgbToHexstr` builds: the three channel characters
are read as one hexadecimal digit each. -/
theorem foldlM_hexstr (c : Rgb) (isUppercase : Bool) :
    (List.range 6).foldlM (hexstrStep (rgbToHexstr c isUppercase)) (0, 0, 0) =
      (hexValue (Char.ofNat c.r.val)).bind fun vr =>
        (hexValue (Char.ofNat c.g.val)).bind fun vg =>
          (hexValue (Char.ofNat c.b.val)).map fun vb => (vr, vg, vb) := by
  have hrange : List.range 6 = [0, 1, 2, 3, 4, 5] := by decide
  rw [hrange]
  simp only [List.foldlM_cons, List.foldlM_nil, hexstrStep_eq, rgbToHexstr_data]
  simp only [List.getD_cons_zero, List.getD_cons_succ, hexValue_zero_char]
  rcases hexValue (Char.ofNat c.r.val) with _ | vr
  · rfl
  · rcases hexValue (Char.ofNat c.g.val) with _ | vg
    · rfl
    · rcases hexValue (Char.ofNat c.b.val) with _ | vb
      · rfl
      · simp [addAt]

/-- The colour `rgbToHexstr` writes is read back unchanged by `hexstrToRgb` for the colour
`(0, 0, 0)` only. -/
theorem hexstrToRgb_rgbToHexstr_iff (c : Rgb) (isUppercase : Bool) :
    hexstrToRgb (rgbToHexstr c isUppercase) = c ↔ c = ⟨0, 0, 0⟩ := by
  by_cases hc : c = ⟨0, 0, 0⟩
  · subst hc
    cases isUppercase <;> exact ⟨fun _ => rfl, fun _ => by decide⟩
  · refine ⟨fun h => absurd ?_ hc, fun h => absurd h hc⟩
    have hlen : ¬ (rgbToHexstr c isUppercase).length < 6 := by
      rw [String.length, rgbToHexstr_data]
      simp
    have hr := hexValue_ofNat c.r
    have hg := hexValue_ofNat c.g
    have hb := hexValue_ofNat c.b
    unfold hexstrToRgb at h
    rw [if_neg hlen, foldlM_hexstr] at h
    generalize hexValue (Char.ofNat c.r.val) = vr at hr h
    generalize hexValue (Char.ofNat c.g.val) = vg at hg h
    generalize hexValue (Char.ofNat c.b.val) = vb at hb h
    rcases vr with _ | vr
    · exact h.symm
    · rcases vg with _ | vg
      · exact h.symm
      · rcases vb with _ | vb
        · exact h.symm
        · exfalso
          simp only [Option.all_some, decide_eq_true_eq] at hr
          have hval := congrArg (fun c : Rgb => c.r.val) h
          simp only [Option.some_bind, Option.map_some', Fin.ofNat, Fin.val_mk] at hval
          omega

/-- C38 (the code at the colours `(65, 66, 67)` and `(255, 0, 0)`): `rgbToHexstr` writes the
channel values as characters, not as hexadecimal numbers. For `(65, 66, 67)` the string is
`0A0B0C`, which `hexstrToRgb` reads back as `(10, 11, 12)`; for `(255, 0, 0)` the six
characters have the codes 48, 255, 48, 0, 48, 0, which are not all hexadecimal digits, and
`hexstrToRgb` reads them back as `(0, 0, 0)`. The reader itself is sound: `FF0000` is read as
`(255, 0, 0)`. -/
theorem rgbToHexstr_roundtrip_fails :
    rgbToHexstr ⟨65, 66, 67⟩ true = "0A0B0C" ∧
    hexstrToRgb (rgbToHexstr ⟨65, 66, 67⟩ true) = ⟨10, 11, 12⟩ ∧
    hexstrToRgb (rgbToHexstr ⟨65, 66, 67⟩ true) ≠ ⟨65, 66, 67⟩ ∧
    (rgbToHexstr ⟨255, 0, 0⟩ true).data.map Char.toNat = [48, 255, 48, 0, 48, 0] ∧
    (rgbToHexstr ⟨255, 0, 0⟩ true).data.map hexDigit =
      [some 0, none, some 0, none, some 0, none] ∧
    hexstrToRgb (rgbToHexstr ⟨255, 0, 0⟩ true) = ⟨0, 0, 0⟩ ∧
    hexstrToRgb (rgbToHexstr ⟨255, 0, 0⟩ true) ≠ ⟨255, 0, 0⟩ ∧
    hexstrToRgb "FF0000" = ⟨255, 0, 0⟩ := by
  refine ⟨?_, ?_, ?_, ?_, ?_, ?_, ?_, ?_⟩ <;> decide

/-! ## Command encoder: counting the commands -/

theorem changesUpTo_succ (blocks : BlockCube) (y z n : Nat) :
    changesUpTo blocks y z (n + 1) =
      changesUpTo blocks y z n +
        if blocks.blockIds (n + 1) y z ≠ blocks.blockIds n y z then 1 else 0 := by
  unfold changesUpTo
  rw [List.range_succ, List.countP_append]
  by_cases h : blocks.blockIds (n + 1) y z = blocks.blockIds n y z
  · simp [List.countP_cons, h]
  · simp [List.countP_cons, h]

/-- Before the scan of a row reaches the last column, it has pushed one command per change of
the block id, and the pending run carries the id of the cell just visited. -/
theorem scan_prefix_count (blocks : BlockCube) (plane : Plane) (y z : Nat) :
    ∀ n, n + 1 < blocks.x →
      ((List.range (n + 1)).foldl (scanStep blocks plane y z)
        (scanInit blocks y z)).commands.length = changesUpTo blocks y z n ∧
      ((List.range (n + 1)).foldl (scanStep blocks plane y z)
        (scanInit blocks y z)).cluster.blockId = blocks.blockIds n y z := by
  intro n
  induction n with
  | zero =>
    intro h
    have hne : ¬ ((0 : Int) = (blocks.x : Int) - 1) := by omega
    simp [List.range_succ, scanStep, scanInit, hne, changesUpTo, List.countP_cons]
  | succ n ih =>
    intro h
    obtain ⟨hlen, hid⟩ := ih (by omega)
    have hne : ¬ (((n + 1 : Nat) : Int) = (blocks.x : Int) - 1) := by omega
    rw [List.range_succ, List.foldl_append, changesUpTo_succ]
    simp only [List.foldl_cons, List.foldl_nil, scanStep, hne, or_false, if_false]
    by_cases hcell : blocks.blockIds (n + 1) y z = blocks.blockIds n y z
    · rw [if_neg (by rw [hid]; exact not_not.mpr hcell)]
      rw [if_neg (not_not.mpr hcell)]
      exact ⟨by rw [hlen]; rfl, by rw [hid, hcell]⟩
    · rw [if_pos (by rw [hid]; exact hcell), if_pos hcell]
      simp only [Function.iterate_succ, Function.iterate_zero, Function.comp_apply, id_eq,
        flushOnce, List.length_append, List.length_singleton, hlen]
      exact ⟨trivial, trivial⟩

/-- The last step of the scan of a row pushes two commands, the second of which is the fill of
the last cell alone, with its corners exchanged as the plane asks. -/
theorem scan_last_step (blocks : BlockCube) (plane : Plane) (y z : Nat) (st : ScanState)
    (x : Nat) (hlast : (x : Int) = (blocks.x : Int) - 1) :
    ∃ c, (scanStep blocks plane y z st x).commands =
      st.commands ++ [c] ++
        [clusterCommand (swapPlane plane
          { blockId := blocks.blockIds x y z, posFrom := Posi.ofNat x y z,
            posTo := Posi.ofNat x y z })] := by
  refine ⟨clusterCommand (swapPlane plane st.cluster), ?_⟩
  simp only [scanStep, hlast, or_true, if_true, Function.iterate_succ, Function.iterate_zero,
    Function.comp_apply, id_eq, flushOnce]

/-- For every plane and every row of a grid of positive width, `getCommands` pushes `2 + k`
commands, where `k` counts the columns `x` with `1 <= x <= width - 2` whose cell differs from
the cell at `x - 1`; the last of them is the fill of the last cell alone, with its corners
exchanged as the plane asks. -/
theorem rowCommands_count (blocks : BlockCube) (plane : Plane) (y z : Nat) (hx : 0 < blocks.x) :
    (rowCommands blocks plane y z).length = 2 + rowChanges blocks y z ∧
    (rowCommands blocks plane y z).getLast? =
      some (clusterCommand (swapPlane plane
        { blockId := blocks.blockIds (blocks.x - 1) y z,
          posFrom := Posi.ofNat (blocks.x - 1) y z,
          posTo := Posi.ofNat (blocks.x - 1) y z })) := by
  obtain ⟨m, hm⟩ : ∃ m, blocks.x = m + 1 := ⟨blocks.x - 1, by omega⟩
  have hlast : ((m : Nat) : Int) = (blocks.x : Int) - 1 := by omega
  have hm1 : blocks.x - 1 = m := by omega
  unfold rowCommands
  rw [hm, List.range_succ, List.foldl_append]
  simp only [List.foldl_cons, List.foldl_nil]
  obtain ⟨c, hc⟩ := scan_last_step blocks plane y z
    ((List.range m).foldl (scanStep blocks plane y z) (scanInit blocks y z)) m hlast
  rw [hm] at hm1
  rw [hc, hm1]
  refine ⟨?_, List.getLast?_concat _⟩
  simp only [List.length_append, List.length_singleton]
  cases m with
  | zero => simp [scanInit, rowChanges, hm]
  | succ n =>
    have hpre := (scan_prefix_count blocks plane y z n (by omega)).1
    rw [hpre]
    simp only [rowChanges, changesUpTo, hm]
    have : n + 1 + 1 - 1 = n + 1 := by omega
    rw [this]
    omega

theorem length_flatMap_sum {α : Type} (g : Nat → List α) :
    ∀ n, ((List.range n).flatMap g).length = ((List.range n).map fun i => (g i).length).sum := by
  intro n
  induction n with
  | zero => rfl
  | succ n ih =>
    rw [List.range_succ, List.flatMap_append, List.length_append, ih, List.map_append,
      List.sum_append]
    simp

theorem sum_map_two_add (k : Nat → Nat) :
    ∀ n, ((List.range n).map fun i => 2 + k i).sum = 2 * n + ((List.range n).map k).sum := by
  intro n
  induction n with
  | zero => rfl
  | succ n ih =>
    rw [List.range_succ, List.map_append, List.sum_append, ih, List.map_append,
      List.sum_append]
    simp only [List.map_cons, List.map_nil, List.sum_cons, List.sum_nil]
    omega

/-- For every plane and every grid of positive width the number of commands of `getCommands`
is `2 * height * depth` plus the sum of `k` over all rows. -/
theorem getCommands_count (blocks : BlockCube) (plane : Plane) (hx : 0 < blocks.x) :
    (getCommands blocks plane).length =
      2 * blocks.y * blocks.z +
        ((List.range blocks.z).map fun z =>
          ((List.range blocks.y).map fun y => rowChanges blocks y z).sum).sum := by
  unfold getCommands
  rw [length_flatMap_sum]
  have hrow : ∀ z, ((List.range blocks.y).flatMap fun y => rowCommands blocks plane y z).length =
      2 * blocks.y + ((List.range blocks.y).map fun y => rowChanges blocks y z).sum := by
    intro z
    rw [length_flatMap_sum, ← sum_map_two_add]
    congr 1
    apply List.map_congr_left
    intro y _
    exact (rowCommands_count blocks plane y z hx).1
  simp only [hrow]
  have hsum : ∀ (c : Nat) (k : Nat → Nat) (n : Nat),
      ((List.range n).map fun i => c + k i).sum = c * n + ((List.range n).map k).sum := by
    intro c k n
    induction n with
    | zero => rfl
    | succ n ih =>
      rw [List.range_succ, List.map_append, List.sum_append, ih, List.map_append,
        List.sum_append]
      simp only [List.map_cons, List.map_nil, List.sum_cons, List.sum_nil]
      rw [Nat.mul_succ]
      omega
  rw [hsum]

/-- C35 (the code at the 3x2x1 grid with the rows `a b b` under `XZ_Y`): the row `y = 1`,
`z = 0` has `k = 1` and gets `2 + k = 3` commands, and the grid gets `2 * 2 * 1 + 2 = 6`
commands, but the last command of that row is not a single-cell fill: it runs from the corner
`(2, 0, 1)` to the different corner `(2, 1, 0)`. Under `XY_Z` the last command of the same row
is the fill of the last cell `(2, 1, 0)` alone. -/
theorem getCommands_XZ_Y_last_fill :
    rowChanges bandCube 1 0 = 1 ∧
    rowCommands bandCube Plane.XZ_Y 1 0 =
      [clusterCommand { blockId := "a", posFrom := { x := 0, y := 0, z := 1 },
                        posTo := { x := 0, y := 1, z := 0 } },
       clusterCommand { blockId := "b", posFrom := { x := 1, y := 0, z := 1 },
                        posTo := { x := 1, y := 1, z := 0 } },
       clusterCommand { blockId := "b", posFrom := { x := 2, y := 0, z := 1 },
                        posTo := { x := 2, y := 1, z := 0 } }] ∧
    (rowCommands bandCube Plane.XZ_Y 1 0).getLast? =
      some "execute as @p at @s  run fill ~2 ~0 ~1 ~2 ~1 ~0 b replace" ∧
    ({ x := 2, y := 0, z := 1 } : Posi) ≠ { x := 2, y := 1, z := 0 } ∧
    (getCommands bandCube Plane.XZ_Y).length = 2 * 2 * 1 + 2 ∧
    (rowCommands bandCube Plane.XY_Z 1 0).getLast? =
      some "execute as @p at @s  run fill ~2 ~1 ~0 ~2 ~1 ~0 b replace" := by
  refine ⟨?_, ?_, ?_, ?_, ?_, ?_⟩ <;> decide

/-! ## Control script: ticks -/

theorem controlStatements_eq (index : Nat) :
    controlStatements index =
      (List.range (index + 1)).map ControlStatement.dispatch ++
        [ControlStatement.increment, ControlStatement.removeTickarea (index + 1),
          ControlStatement.removeObjective (index + 1)] := by
  have hloop : ∀ n, (List.range n).foldl
      (fun control i => control ++ [ControlStatement.dispatch i]) [] =
      (List.range n).map ControlStatement.dispatch := by
    intro n
    induction n with
    | zero => rfl
    | succ n ih => rw [List.range_succ, List.foldl_append, ih, List.map_append]; rfl
  simp only [controlStatements, hloop, List.append_assoc, List.singleton_append]
  rfl

/-- The lines of the control script are the renderings of its statements. -/
theorem controlScript_render (pfx : String) (index : Nat) :
    controlScript pfx index = (controlStatements index).map (ControlStatement.render pfx) := by
  rw [controlScript_eq, controlStatements_eq]
  simp [ControlStatement.render, Function.comp_def]

/-- The dispatch statements for the chunks `0, ..., n - 1` on the counter `c`: exactly the one
for chunk `c` fires, when there is one, and the counter stays. -/
theorem foldl_dispatch (c : Nat) (f : List ControlStatement) :
    ∀ n, ((List.range n).map ControlStatement.dispatch).foldl execStatement
        { counter := some (c : Int), fired := f } =
      { counter := some (c : Int),
        fired := f ++ if c < n then [ControlStatement.dispatch c] else [] } := by
  intro n
  induction n with
  | zero => simp
  | succ n ih =>
    rw [List.range_succ, List.map_append, List.foldl_append, ih]
    simp only [List.map_cons, List.map_nil, List.foldl_cons, List.foldl_nil, execStatement,
      Option.some.injEq, Nat.cast_inj]
    by_cases h1 : c < n
    · have h2 : c ≠ n := by omega
      have h3 : c < n + 1 := by omega
      simp [h1, h2, h3]
    · by_cases h2 : c = n
      · subst h2
        simp
      · have h3 : ¬ c < n + 1 := by omega
        simp [h1, h2, h3]

/-- Without a counter no statement of the script fires. -/
theorem tick_none (index : Nat) : tick index none = { counter := none, fired := [] } := by
  have hloop : ∀ l : List Nat, (l.map ControlStatement.dispatch).foldl execStatement
      { counter := none, fired := [] } = { counter := none, fired := [] } := by
    intro l
    induction l with
    | nil => rfl
    | cons a l ih => simpa [execStatement] using ih
  rw [tick, controlStatements_eq, List.foldl_append, hloop]
  simp [execStatement]

/-- One tick on a counter `c` that is a chunk index: chunk `c` is dispatched, the counter is
incremented, and when `c` is the last index the two teardown statements fire after that, the
second of which removes the counter. -/
theorem tick_some (index c : Nat) (hc : c ≤ index) :
    tick index (some (c : Int)) =
      if c = index then
        { counter := none
          fired := [ControlStatement.dispatch c, ControlStatement.increment,
            ControlStatement.removeTickarea (index + 1),
            ControlStatement.removeObjective (index + 1)] }
      else
        { counter := some ((c : Int) + 1)
          fired := [ControlStatement.dispatch c, ControlStatement.increment] } := by
  rw [tick, controlStatements_eq, List.foldl_append, foldl_dispatch]
  have hlt : c < index + 1 := by omega
  have h0 : (0 : Int) ≤ (c : Int) := by omega
  by_cases h : c = index
  · subst h
    simp [execStatement, hlt, h0]
  · have hne : ¬ ((c : Int) + 1 = (index : Int) + 1) := by omega
    simp [execStatement, hlt, h0, h, hne]

/-- The counter at the start of tick `t`: `t` up to the last chunk index, no counter after the
teardown. -/
theorem counterAt_eq (index : Nat) :
    ∀ t, counterAt index t = if t ≤ index then some (t : Int) else none := by
  intro t
  induction t with
  | zero => simp [counterAt]
  | succ t ih =>
    rw [counterAt, ih]
    by_cases h : t ≤ index
    · rw [if_pos h, tick_some index t h]
      by_cases h2 : t = index
      · have h3 : ¬ t + 1 ≤ index := by omega
        rw [if_pos h2, if_neg h3]
      · have h3 : t + 1 ≤ index := by omega
        rw [if_neg h2, if_pos h3]
        simp
    · have h3 : ¬ t + 1 ≤ index := by omega
      rw [if_neg h, if_neg h3, tick_none]

/-- The statements that fire during tick `t`. -/
theorem firedAt_eq (index t : Nat) :
    firedAt index t =
      if t < index then [ControlStatement.dispatch t, ControlStatement.increment]
      else if t = index then
        [ControlStatement.dispatch t, ControlStatement.increment,
          ControlStatement.removeTickarea (index + 1),
          ControlStatement.removeObjective (index + 1)]
      else [] := by
  rw [firedAt, counterAt_eq]
  by_cases h : t ≤ index
  · rw [if_pos h, tick_some index t h]
    by_cases h2 : t = index
    · have h3 : ¬ t < index := by omega
      rw [if_pos h2, if_neg h3, if_pos h2]
    · have h3 : t < index := by omega
      rw [if_neg h2, if_pos h3]
  · have h2 : ¬ t < index := by omega
    have h3 : ¬ t = index := by omega
    rw [if_neg h, tick_none, if_neg h2, if_neg h3]

/-- C32: modelling one tick as executing the statements of the control script of
`makeFunctionPack` in order on the counter, starting from counter `0`, for a non-empty command
sequence and `maxCommandCount >= 1`: the script is the list of its statements for the last
chunk index, the chunk files written are those with an index up to the last chunk index,
chunk `i` is dispatched on tick `i` and on no other tick, for every chunk index `i`, and the
teardown statements fire on no tick before the one of the last chunk index, on which they fire
after the dispatch of the last chunk, when the increment has taken the counter past the last
chunk index. -/
theorem control_script_ticks (commands : List String) (pfx : String) (maxCommandCount : Int)
    (hne : commands ≠ []) (hm : 1 ≤ maxCommandCount) :
    (makeFunctionPackFiles commands pfx maxCommandCount).control =
      (controlStatements (packLoop commands maxCommandCount).index).map
        (ControlStatement.render pfx) ∧
    (∀ i, (makeFunctionPackFiles commands pfx maxCommandCount).dataFiles i ≠ [] ↔
      i ≤ (packLoop commands maxCommandCount).index) ∧
    (∀ t i, ControlStatement.dispatch i ∈ firedAt (packLoop commands maxCommandCount).index t ↔
      (t = i ∧ i ≤ (packLoop commands maxCommandCount).index)) ∧
    (∀ t n, (ControlStatement.removeTickarea n ∈
          firedAt (packLoop commands maxCommandCount).index t ∨
        ControlStatement.removeObjective n ∈
          firedAt (packLoop commands maxCommandCount).index t) →
      t = (packLoop commands maxCommandCount).index ∧
        n = (packLoop commands maxCommandCount).index + 1) ∧
    firedAt (packLoop commands maxCommandCount).index (packLoop commands maxCommandCount).index =
      [ControlStatement.dispatch (packLoop commands maxCommandCount).index,
        ControlStatement.increment,
        ControlStatement.removeTickarea ((packLoop commands maxCommandCount).index + 1),
        ControlStatement.removeObjective ((packLoop commands maxCommandCount).index + 1)] ∧
    (∀ t, t ≤ (packLoop commands maxCommandCount).index →
      counterAt (packLoop commands maxCommandCount).index t = some (t : Int)) ∧
    counterAt (packLoop commands maxCommandCount).index
      ((packLoop commands maxCommandCount).index + 1) = none := by
  have hinv : PackInv commands (packLoop commands maxCommandCount) := by
    have := packInv_foldl maxCommandCount hm commands [] _ packInv_init
    simpa [packLoop] using this
  refine ⟨controlScript_render pfx _, ?_, ?_, ?_, ?_, ?_, ?_⟩
  · intro i
    constructor
    · intro hfile
      by_contra hlt
      exact hfile (hinv.beyond i (by omega))
    · intro hidx
      exact hinv.used hne i hidx
  · intro t i
    rw [firedAt_eq]
    split_ifs with h1 h2
    · simp only [List.mem_cons, ControlStatement.dispatch.injEq, List.mem_singleton,
        List.not_mem_nil, or_false, reduceCtorEq]
      constructor
      · intro h
        exact ⟨h.symm, by omega⟩
      · intro h
        exact h.1.symm
    · simp only [List.mem_cons, ControlStatement.dispatch.injEq, List.mem_singleton,
        List.not_mem_nil, or_false, reduceCtorEq]
      constructor
      · intro h
        exact ⟨h.symm, by omega⟩
      · intro h
        exact h.1.symm
    · simp only [List.not_mem_nil, false_iff]
      intro h
      omega
  · intro t n h
    rw [firedAt_eq] at h
    split_ifs at h with h1 h2
    · simp at h
    · simp only [List.mem_cons, ControlStatement.removeTickarea.injEq, List.mem_singleton,
        ControlStatement.removeObjective.injEq, List.not_mem_nil, or_false, false_or,
        reduceCtorEq] at h
      exact ⟨h2, by omega⟩
    · simp at h
  · rw [firedAt_eq, if_neg (by omega), if_pos rfl]
  · intro t ht
    rw [counterAt_eq, if_pos ht]
  · rw [counterAt_eq, if_neg (by omega)]

/-- C32 at 25 commands and `maxCommandCount = 10`. -/
theorem control_script_ticks_witness :
    numberedCommands 25 ≠ [] ∧ (1 : Int) ≤ 10 ∧
    ((makeFunctionPackFiles (numberedCommands 25) "pic" 10).control =
      (controlStatements (packLoop (numberedCommands 25) 10).index).map
        (ControlStatement.render "pic") ∧
    (∀ i, (makeFunctionPackFiles (numberedCommands 25) "pic" 10).dataFiles i ≠ [] ↔
      i ≤ (packLoop (numberedCommands 25) 10).index) ∧
    (∀ t i, ControlStatement.dispatch i ∈ firedAt (packLoop (numberedCommands 25) 10).index t ↔
      (t = i ∧ i ≤ (packLoop (numberedCommands 25) 10).index)) ∧
    (∀ t n, (ControlStatement.removeTickarea n ∈
          firedAt (packLoop (numberedCommands 25) 10).index t ∨
        ControlStatement.removeObjective n ∈
          firedAt (packLoop (numberedCommands 25) 10).index t) →
      t = (packLoop (numberedCommands 25) 10).index ∧
        n = (packLoop (numberedCommands 25) 10).index + 1) ∧
    firedAt (packLoop (numberedCommands 25) 10).index (packLoop (numberedCommands 25) 10).index =
      [ControlStatement.dispatch (packLoop (numberedCommands 25) 10).index,
        ControlStatement.increment,
        ControlStatement.removeTickarea ((packLoop (numberedCommands 25) 10).index + 1),
        ControlStatement.removeObjective ((packLoop (numberedCommands 25) 10).index + 1)] ∧
    (∀ t, t ≤ (packLoop (numberedCommands 25) 10).index →
      counterAt (packLoop (numberedCommands 25) 10).index t = some (t : Int)) ∧
    counterAt (packLoop (numberedCommands 25) 10).index
      ((packLoop (numberedCommands 25) 10).index + 1) = none) :=
  ⟨by decide, by decide,
    control_script_ticks (numberedCommands 25) "pic" 10 (by decide) (by decide)⟩

/-- The ticks of the control script for 25 commands and `maxCommandCount = 10` (three chunks):
the statements that fire on the ticks 0 to 3. -/
theorem firedAt_sample :
    (packLoop (numberedCommands 25) 10).index = 2 ∧
    (List.range 4).map (firedAt 2) =
      [[ControlStatement.dispatch 0, ControlStatement.increment],
       [ControlStatement.dispatch 1, ControlStatement.increment],
       [ControlStatement.dispatch 2, ControlStatement.increment,
         ControlStatement.removeTickarea 3, ControlStatement.removeObjective 3],
       []] := by
  constructor <;> decide

/-! ## The two encodings as volumes -/

/-- The structure encoding decodes, at every logical coordinate of its box, to the cell the
plane selects. -/
theorem blockAt_getMcstructure (blocks : BlockCube) (plane : Plane) (x y z : Nat)
    (hx : x < (planeDims blocks plane).1) (hy : y < (planeDims blocks plane).2.1)
    (hz : z < (planeDims blocks plane).2.2) :
    (getMcstructure blocks plane).blockAt x y z = some (planeCell blocks plane x y z) := by
  have hinv := encInv_getMcstructure blocks plane
  have hcell := logicalCells_getElem? blocks plane x y z hx hy hz
  have hmemc : planeCell blocks plane x y z ∈ logicalCells blocks plane :=
    List.getElem?_mem hcell
  have hmemn := (hinv.mem_iff _).mpr hmemc
  have hname := List.indexOf_get? hmemn
  rw [List.get?_eq_getElem?, List.getElem?_map] at hname
  obtain ⟨b, hb, hbn⟩ := Option.map_eq_some'.mp hname
  have hdata : (getMcstructure blocks plane).data1[(x * (planeDims blocks plane).2.1 + y) *
      (planeDims blocks plane).2.2 + z]? =
      some ((List.map (fun b => b.name) (encodeLoop blocks plane (planeDims blocks plane).1
        (planeDims blocks plane).2.1 (planeDims blocks plane).2.2
        { map := [], index := 0, data1 := [], data2 := [], blockPalette := [] }).blockPalette).indexOf
          (planeCell blocks plane x y z)) := by
    show (encodeLoop blocks plane _ _ _ _).data1[_]? = _
    rw [hinv.data1_eq, List.getElem?_map, hcell]
    rfl
  have hpal : (getMcstructure blocks plane).blockPalette =
      (encodeLoop blocks plane (planeDims blocks plane).1 (planeDims blocks plane).2.1
        (planeDims blocks plane).2.2
        { map := [], index := 0, data1 := [], data2 := [], blockPalette := [] }).blockPalette :=
    rfl
  simp only [Mcstructure.blockAt, getMcstructure, Int.toNat_ofNat] at hdata ⊢
  rw [hdata]
  simp only [Option.some_bind, hb, Option.map_some', hbn]

/-- Before the last column of a row is reached, under every plane, the commands pushed so far
are those of runs that tile the columns before the pending run, with their corners exchanged
as the plane asks. -/
theorem scan_prefix_tiles_plane (blocks : BlockCube) (plane : Plane) (y z : Nat) :
    ∀ n, n + 1 < blocks.x →
      ∃ (runs : List BlockCluster) (s : Nat) (id : String),
        (List.range (n + 1)).foldl (scanStep blocks plane y z) (scanInit blocks y z) =
          { cluster := { blockId := id, posFrom := Posi.ofNat s y z, posTo := Posi.ofNat n y z }
            commands := runs.map fun c => clusterCommand (swapPlane plane c) } ∧
        Tiles blocks y z runs 0 s ∧ s ≤ n ∧
        ∀ x, s ≤ x → x ≤ n → blocks.blockIds x y z = id := by
  intro n
  induction n with
  | zero =>
    intro h
    have hne : ¬ ((0 : Int) = (blocks.x : Int) - 1) := by omega
    refine ⟨[], 0, blocks.blockIds 0 y z, ?_, rfl, le_refl 0, ?_⟩
    · simp [List.range_succ, scanStep, scanInit, hne]
    · intro x _ hx
      have : x = 0 := by omega
      rw [this]
  | succ n ih =>
    intro h
    obtain ⟨runs, s, id, hfold, htiles, hsn, hid⟩ := ih (by omega)
    have hne : ¬ (((n + 1 : Nat) : Int) = (blocks.x : Int) - 1) := by omega
    rw [List.range_succ, List.foldl_append, hfold]
    by_cases hcell : blocks.blockIds (n + 1) y z = id
    · refine ⟨runs, s, id, ?_, htiles, by omega, ?_⟩
      · simp only [List.foldl_cons, List.foldl_nil, scanStep, hcell, hne, ne_eq,
          not_true_eq_false, or_self, if_false]
      · intro x hsx hx
        by_cases hxn : x ≤ n
        · exact hid x hsx hxn
        · have : x = n + 1 := by omega
          rw [this, hcell]
    · refine ⟨runs ++ [{ blockId := id, posFrom := Posi.ofNat s y z, posTo := Posi.ofNat n y z }],
        n + 1, blocks.blockIds (n + 1) y z, ?_, ?_, le_refl _, ?_⟩
      · simp only [List.foldl_cons, List.foldl_nil, scanStep, hcell, hne, ne_eq,
          not_false_eq_true, or_false, if_true, if_false, Function.iterate_succ,
          Function.iterate_zero, Function.comp_apply, id_eq, flushOnce,
          List.map_append, List.map_cons, List.map_nil]
      · exact tiles_append blocks y z _ s n hsn rfl rfl hid runs 0 htiles
      · intro x hsx hx
        have : x = n + 1 := by omega
        rw [this]

/-- For a row of width at least 2, under every plane, the commands pushed for the row are
those of runs that tile the row, with their corners exchanged as the plane asks. -/
theorem rowCommands_tiles_plane (blocks : BlockCube) (plane : Plane) (y z : Nat)
    (hw : 2 ≤ blocks.x) :
    ∃ runs : List BlockCluster,
      rowCommands blocks plane y z = runs.map (fun c => clusterCommand (swapPlane plane c)) ∧
      Tiles blocks y z runs 0 blocks.x := by
  obtain ⟨n, hn⟩ : ∃ n, blocks.x = n + 2 := ⟨blocks.x - 2, by omega⟩
  obtain ⟨runs, s, id, hfold, htiles, hsn, hid⟩ :=
    scan_prefix_tiles_plane blocks plane y z n (by omega)
  have hlast : ((n + 1 : Nat) : Int) = (blocks.x : Int) - 1 := by omega
  refine ⟨runs ++ [{ blockId := id, posFrom := Posi.ofNat s y z, posTo := Posi.ofNat n y z }] ++
    [{ blockId := blocks.blockIds (n + 1) y z, posFrom := Posi.ofNat (n + 1) y z,
       posTo := Posi.ofNat (n + 1) y z }], ?_, ?_⟩
  · unfold rowCommands
    rw [show List.range blocks.x = List.range (n + 1) ++ [n + 1] by rw [hn, List.range_succ],
      List.foldl_append, hfold]
    simp only [List.foldl_cons, List.foldl_nil, scanStep, hlast, or_true, if_true,
      Function.iterate_succ, Function.iterate_zero, Function.comp_apply, id_eq, flushOnce,
      List.map_append, List.map_cons, List.map_nil, List.append_assoc]
  · rw [hn]
    refine tiles_append blocks y z _ (n + 1) (n + 1) (le_refl _) rfl rfl ?_ _ 0 ?_
    · intro x h1 h2
      have : x = n + 1 := by omega
      rw [this]
    · exact tiles_append blocks y z _ s n hsn rfl rfl hid runs 0 htiles

/-- Every run of a tiling lies in its row and carries the block id of each cell of its span. -/
theorem tiles_mem (blocks : BlockCube) (y z : Nat) :
    ∀ (runs : List BlockCluster) (a b : Nat), Tiles blocks y z runs a b →
      ∀ c ∈ runs, ∃ s e, s ≤ e ∧ c.posFrom = Posi.ofNat s y z ∧ c.posTo = Posi.ofNat e y z ∧
        ∀ x, s ≤ x → x ≤ e → blocks.blockIds x y z = c.blockId := by
  intro runs
  induction runs with
  | nil =>
    intro a b _ c hc
    simp at hc
  | cons r runs ih =>
    intro a b h c hc
    obtain ⟨e, hae, hf, ht, hi, hrest⟩ := h
    rcases List.mem_cons.mp hc with rfl | hc
    · exact ⟨a, e, hae, hf, ht, hi⟩
    · exact ih (e + 1) b hrest c hc

/-- Every column of a tiled range lies in the span of one of the runs. -/
theorem tiles_cover (blocks : BlockCube) (y z : Nat) :
    ∀ (runs : List BlockCluster) (a b : Nat), Tiles blocks y z runs a b →
      ∀ x, a ≤ x → x < b →
        ∃ c ∈ runs, ∃ s e, c.posFrom = Posi.ofNat s y z ∧ c.posTo = Posi.ofNat e y z ∧
          s ≤ x ∧ x ≤ e := by
  intro runs
  induction runs with
  | nil =>
    intro a b h x hax hxb
    have : a = b := h
    omega
  | cons r runs ih =>
    intro a b h x hax hxb
    obtain ⟨e, hae, hf, ht, _, hrest⟩ := h
    by_cases hxe : x ≤ e
    · exact ⟨r, List.mem_cons_self _ _, a, e, hf, ht, hax, hxe⟩
    · obtain ⟨c, hc, s', e', h1, h2, h3, h4⟩ := ih (e + 1) b hrest x (by omega) hxb
      exact ⟨c, List.mem_cons_of_mem _ hc, s', e', h1, h2, h3, h4⟩

/-- The replay of fills leaves the id `v` in a cell when every fill that covers the cell
carries `v` and either some fill covers the cell or the cell held `v` before. -/
theorem replayFrom_eq (v : String) (x y z : Int) :
    ∀ (clusters : List BlockCluster) (volume : Int → Int → Int → String),
      (∀ c ∈ clusters, c.covers x y z → c.blockId = v) →
      ((∃ c ∈ clusters, c.covers x y z) ∨ volume x y z = v) →
      replayFrom volume clusters x y z = v := by
  intro clusters
  induction clusters with
  | nil =>
    intro volume _ h
    rcases h with ⟨c, hc, _⟩ | h
    · simp at hc
    · exact h
  | cons c cs ih =>
    intro volume hall h
    show replayFrom _ cs x y z = v
    apply ih
    · intro c' hc' hcov
      exact hall c' (List.mem_cons_of_mem _ hc') hcov
    · by_cases hcs : ∃ c' ∈ cs, c'.covers x y z
      · exact Or.inl hcs
      · right
        by_cases hcov : c.covers x y z
        · simp only [hcov, if_true]
          exact hall c (List.mem_cons_self _ _) hcov
        · simp only [hcov, if_false]
          rcases h with ⟨c', hc', hcov'⟩ | h
          · rcases List.mem_cons.mp hc' with rfl | hc'
            · exact absurd hcov' hcov
            · exact absurd ⟨c', hc', hcov'⟩ hcs
          · exact h

/-- The cells the fill of a run of row `(y', z')` covers under `XY_Z`. -/
theorem covers_swap_XY_Z (r : BlockCluster) (s e y' z' : Nat) (hse : s ≤ e)
    (hf : r.posFrom = Posi.ofNat s y' z') (ht : r.posTo = Posi.ofNat e y' z') (x y z : Nat) :
    (swapPlane Plane.XY_Z r).covers (x : Int) (y : Int) (z : Int) ↔
      (s ≤ x ∧ x ≤ e ∧ y = y' ∧ z = z') := by
  simp only [BlockCluster.covers, swapPlane, hf, ht, Posi.ofNat]
  omega

/-- The cells the fill of a run of row `(y', z')` covers under `ZY_X`. -/
theorem covers_swap_ZY_X (r : BlockCluster) (s e y' z' : Nat) (hse : s ≤ e)
    (hf : r.posFrom = Posi.ofNat s y' z') (ht : r.posTo = Posi.ofNat e y' z') (x y z : Nat) :
    (swapPlane Plane.ZY_X r).covers (x : Int) (y : Int) (z : Int) ↔
      (s ≤ z ∧ z ≤ e ∧ y = y' ∧ x = z') := by
  simp only [BlockCluster.covers, swapPlane, hf, ht, Posi.ofNat]
  omega

/-- For the planes `XY_Z` and `ZY_X` and every grid of width at least 2, the command encoding
and the structure encoding describe the same logical volume: replaying the fills of
`getCommands` in order onto an empty volume places at every logical coordinate the block id
the primary index array of `getMcstructure` decodes to there. -/
theorem replay_agrees_with_structure (blocks : BlockCube) (plane : Plane)
    (hplane : plane ≠ Plane.XZ_Y) (hw : 2 ≤ blocks.x) :
    ∃ clusters : List BlockCluster,
      getCommands blocks plane = clusters.map clusterCommand ∧
      ∀ x y z, x < (planeDims blocks plane).1 → y < (planeDims blocks plane).2.1 →
        z < (planeDims blocks plane).2.2 →
        replayFills clusters (x : Int) (y : Int) (z : Int) = planeCell blocks plane x y z ∧
        (getMcstructure blocks plane).blockAt x y z =
          some (replayFills clusters (x : Int) (y : Int) (z : Int)) := by
  choose runs hruns using fun y z => rowCommands_tiles_plane blocks plane y z hw
  refine ⟨(List.range blocks.z).flatMap fun z =>
    (List.range blocks.y).flatMap fun y => (runs y z).map (swapPlane plane), ?_, ?_⟩
  · simp only [getCommands, List.map_flatMap, List.map_map, (hruns _ _).1]
    rfl
  · intro x y z hx hy hz
    have hmem : ∀ c, (c ∈ (List.range blocks.z).flatMap fun z =>
        (List.range blocks.y).flatMap fun y => (runs y z).map (swapPlane plane)) ↔
        ∃ z' y' r, z' < blocks.z ∧ y' < blocks.y ∧ r ∈ runs y' z' ∧ swapPlane plane r = c := by
      intro c
      simp only [List.mem_flatMap, List.mem_map, List.mem_range]
      constructor
      · rintro ⟨z', hz', y', hy', r, hr, rfl⟩
        exact ⟨z', y', r, hz', hy', hr, rfl⟩
      · rintro ⟨z', y', r, hz', hy', hr, rfl⟩
        exact ⟨z', hz', y', hy', r, hr, rfl⟩
    have hreplay : replayFills
        ((List.range blocks.z).flatMap fun z =>
          (List.range blocks.y).flatMap fun y => (runs y z).map (swapPlane plane))
        (x : Int) (y : Int) (z : Int) = planeCell blocks plane x y z := by
      apply replayFrom_eq
      · intro c hc hcov
        obtain ⟨z', y', r, _, _, hr, rfl⟩ := (hmem c).mp hc
        obtain ⟨s, e, hse, hf, ht, hid⟩ := tiles_mem blocks y' z' _ _ _ (hruns y' z').2 r hr
        cases plane with
        | XY_Z =>
          obtain ⟨h1, h2, rfl, rfl⟩ := (covers_swap_XY_Z r s e y' z' hse hf ht x y z).mp hcov
          exact (hid x h1 h2).symm
        | ZY_X =>
          obtain ⟨h1, h2, rfl, rfl⟩ := (covers_swap_ZY_X r s e y' z' hse hf ht x y z).mp hcov
          exact (hid z h1 h2).symm
        | XZ_Y => exact absurd rfl hplane
      · left
        cases plane with
        | XY_Z =>
          obtain ⟨r, hr, s, e, hf, ht, h1, h2⟩ :=
            tiles_cover blocks y z _ _ _ (hruns y z).2 x (Nat.zero_le _) hx
          refine ⟨swapPlane Plane.XY_Z r, (hmem _).mpr ⟨z, y, r, hz, hy, hr, rfl⟩, ?_⟩
          exact (covers_swap_XY_Z r s e y z (by omega) hf ht x y z).mpr ⟨h1, h2, rfl, rfl⟩
        | ZY_X =>
          obtain ⟨r, hr, s, e, hf, ht, h1, h2⟩ :=
            tiles_cover blocks y x _ _ _ (hruns y x).2 z (Nat.zero_le _) hz
          refine ⟨swapPlane Plane.ZY_X r, (hmem _).mpr ⟨x, y, r, hx, hy, hr, rfl⟩, ?_⟩
          exact (covers_swap_ZY_X r s e y x (by omega) hf ht x y z).mpr ⟨h1, h2, rfl, rfl⟩
        | XZ_Y => exact absurd rfl hplane
    exact ⟨hreplay, by rw [hreplay]; exact blockAt_getMcstructure blocks plane x y z hx hy hz⟩

/-- The agreement of the two encodings at the 5x1x1 row `a a b c c` under `ZY_X`. -/
theorem replay_agrees_with_structure_sample :
    Plane.ZY_X ≠ Plane.XZ_Y ∧ 2 ≤ stripeCube.x ∧
    ∃ clusters : List BlockCluster,
      getCommands stripeCube Plane.ZY_X = clusters.map clusterCommand ∧
      ∀ x y z, x < (planeDims stripeCube Plane.ZY_X).1 →
        y < (planeDims stripeCube Plane.ZY_X).2.1 →
        z < (planeDims stripeCube Plane.ZY_X).2.2 →
        replayFills clusters (x : Int) (y : Int) (z : Int) =
          planeCell stripeCube Plane.ZY_X x y z ∧
        (getMcstructure stripeCube Plane.ZY_X).blockAt x y z =
          some (replayFills clusters (x : Int) (y : Int) (z : Int)) :=
  ⟨by decide, by decide, replay_agrees_with_structure stripeCube Plane.ZY_X (by decide)
    (by decide)⟩

/-- C31 (the code at the 1x2x1 column `a`, `b` under `XY_Z`, and at the 2x2x1 grid with the
rows `a a` and `b b` under `XZ_Y`): `getCommands` returns the listed fills, and replaying them
in order onto an empty volume leaves the block id `b` at the logical coordinate `(0, 0, 0)`,
where the primary index array of `getMcstructure` decodes to `a`. -/
theorem getCommands_replay_differs :
    getCommands columnCube Plane.XY_Z =
      [{ blockId := "a", posFrom := Posi.ofNat 0 0 0, posTo := Posi.ofNat 0 0 0 },
       { blockId := "a", posFrom := Posi.ofNat 0 0 0, posTo := Posi.ofNat 0 0 0 },
       { blockId := "b", posFrom := Posi.ofNat 0 1 0, posTo := Posi.ofNat 0 0 0 },
       { blockId := "b", posFrom := Posi.ofNat 0 1 0, posTo := Posi.ofNat 0 1 0 }].map
        clusterCommand ∧
    replayFills
      [{ blockId := "a", posFrom := Posi.ofNat 0 0 0, posTo := Posi.ofNat 0 0 0 },
       { blockId := "a", posFrom := Posi.ofNat 0 0 0, posTo := Posi.ofNat 0 0 0 },
       { blockId := "b", posFrom := Posi.ofNat 0 1 0, posTo := Posi.ofNat 0 0 0 },
       { blockId := "b", posFrom := Posi.ofNat 0 1 0, posTo := Posi.ofNat 0 1 0 }] 0 0 0 = "b" ∧
    (getMcstructure columnCube Plane.XY_Z).blockAt 0 0 0 = some "a" ∧
    getCommands layerCube Plane.XZ_Y =
      [{ blockId := "a", posFrom := { x := 0, y := 0, z := 0 }, posTo := { x := 0, y := 0, z := 0 } },
       { blockId := "a", posFrom := { x := 1, y := 0, z := 0 }, posTo := { x := 1, y := 0, z := 0 } },
       { blockId := "b", posFrom := { x := 0, y := 0, z := 1 }, posTo := { x := 0, y := 1, z := 0 } },
       { blockId := "b", posFrom := { x := 1, y := 0, z := 1 }, posTo := { x := 1, y := 1, z := 0 } }].map
        clusterCommand ∧
    replayFills
      [{ blockId := "a", posFrom := { x := 0, y := 0, z := 0 }, posTo := { x := 0, y := 0, z := 0 } },
       { blockId := "a", posFrom := { x := 1, y := 0, z := 0 }, posTo := { x := 1, y := 0, z := 0 } },
       { blockId := "b", posFrom := { x := 0, y := 0, z := 1 }, posTo := { x := 0, y := 1, z := 0 } },
       { blockId := "b", posFrom := { x := 1, y := 0, z := 1 }, posTo := { x := 1, y := 1, z := 0 } }]
      0 0 0 = "b" ∧
    (getMcstructure layerCube Plane.XZ_Y).size = [2, 1, 2] ∧
    (getMcstructure layerCube Plane.XZ_Y).blockAt 0 0 0 = some "a" := by
  refine ⟨?_, ?_, ?_, ?_, ?_, ?_, ?_⟩ <;> decide

/-! ## Air structure: the count in `int` -/

theorem structureTag_primaryLength (s : Mcstructure) :
    (structureTag s).primaryLength = some s.data1.length := by
  unfold structureTag
  simp only [foldl_push_list]
  simp [Tag.push, Tag.primaryLength, Tag.member, Tag.members, Tag.name]

/-- C17 (as stated) fails: for the positive dimensions `(65536, 65536, 1)` the count
`x * y * z = 2^32` is `0` in `int`, so `getAirStructure` emits empty index arrays, while
`getMcstructure` applied to the 65536-by-65536-by-1 grid of `"minecraft:air"` emits `2^32`
entries; the two tag trees differ. -/
theorem getAirStructure_overflow_counterexample :
    (0 : Int) < 65536 ∧ (0 : Int) < 1 ∧
    (getAirStructure 65536 65536 1 Plane.XY_Z).size = [65536, 65536, 1] ∧
    (getAirStructure 65536 65536 1 Plane.XY_Z).data1 = [] ∧
    (getMcstructure (uniformCube 65536 65536 1 "minecraft:air") Plane.XY_Z).data1.length =
      4294967296 ∧
    getAirStructure 65536 65536 1 Plane.XY_Z ≠
      getMcstructure (uniformCube 65536 65536 1 "minecraft:air") Plane.XY_Z ∧
    getAirStructureTag 65536 65536 1 Plane.XY_Z ≠
      getMcstructureTag (uniformCube 65536 65536 1 "minecraft:air") Plane.XY_Z := by
  have hlen : (getMcstructure (uniformCube 65536 65536 1 "minecraft:air")
      Plane.XY_Z).data1.length = 4294967296 := by
    rw [getMcstructure_uniform 65536 65536 1 "minecraft:air" Plane.XY_Z (by decide) (by decide)
      (by decide)]
    exact List.length_replicate _ _
  have hair : (getAirStructure 65536 65536 1 Plane.XY_Z).data1.length = 0 := by
    rw [getAirStructure_wrapped]
    rfl
  refine ⟨by decide, by decide, ?_, ?_, hlen, ?_, ?_⟩
  · rw [getAirStructure_wrapped]
  · rw [getAirStructure_wrapped]
  · intro h
    rw [h, hlen] at hair
    exact absurd hair (by decide)
  · intro h
    have h2 := congrArg Tag.primaryLength h
    rw [getAirStructureTag, getMcstructureTag, structureTag_primaryLength,
      structureTag_primaryLength, hair, hlen] at h2
    exact absurd (Option.some.inj h2) (by decide)

end Mcallin
